import Mathlib

/-!
# in-toto attestation verifier: the GUAC parsers

A shallow embedding of `parsers/slsa.go` and `parsers/sbom.go`, with the
properties of their specification stated and settled over it.

Conventions of the embedding.

* A Go `map[string]T` is an association list `List (String × T)` with at most
  one entry per key.  `lookupKey` is the map read `m[k]` (with its `ok`
  flag), `assign` is the store `m[k] = v`.
* Go leaves the order in which `range` visits a map unspecified.  A map that
  is ranged over is therefore listed in the order of that visit: the loop
  bodies below walk the list front to back, and the order is chosen, before
  the walk, by an explicit `ord` argument that may be any permutation.  In a
  tree of maps every `range` picks its own order: there `ord` takes, before
  the map, the path of keys that leads from the root to the map.
* A run-time panic (failed type assertion, index out of range, nil
  dereference) is a failure of its own, kept apart from a returned `error`.
-/

namespace Parsers

/-! ## Go maps as association lists -/

/-- The map read `v, ok := m[k]`: the first entry stored under `k`. -/
def lookupKey {α : Type} : List (String × α) → String → Option α
  | [], _ => none
  | (k', v) :: rest, k => if k' = k then some v else lookupKey rest k

/-- The map store `m[k] = v`: overwrite the entry of `k`, or add one. -/
def assign {α : Type} : List (String × α) → String → α → List (String × α)
  | [], k, v => [(k, v)]
  | (k', v') :: rest, k, v =>
    if k' = k then (k, v) :: rest else (k', v') :: assign rest k v

/-- The keys of a map. -/
def keysOf {α : Type} (m : List (String × α)) : List String :=
  m.map Prod.fst

/-! ## `parsers/slsa.go` -/

/-- The `interface{}` values of the reconstructed predicate: a string leaf, a
nested `map[string]interface{}`, or a `[]interface{}`; `bool` is the JSON
literal that the final replacement makes of the leaves `"true"` and
`"false"`. -/
inductive Value where
  | str (s : String)
  | bool (b : Bool)
  | obj (entries : List (String × Value))
  | arr (items : List Value)

/-- An element of `slsa.Slsa.SlsaPredicate`. -/
structure SLSAPredicate where
  Key : String
  Value : String
deriving DecidableEq

/-- Splitting a character sequence at every `'.'`; the result is never empty. -/
def splitDot : List Char → List (List Char)
  | [] => [[]]
  | c :: cs =>
    if c = '.' then [] :: splitDot cs
    else
      match splitDot cs with
      | [] => [[c]]
      | s :: ss => (c :: s) :: ss

/-- The call `strings.Split(key, ".")`. -/
def Split (key : String) : List String :=
  (splitDot key.data).map String.mk

/-- The inner loop of `ParseSlsaAttestation` (lines 25-34) for one item:
walk `keys` from `currMap`, creating the missing maps, and store `value` under
the last key.  `none` is the panic of the type assertion
`currMap[key].(map[string]interface{})` on a node that is not a map. -/
def ParseSlsaAttestation.walk (currMap : List (String × Value)) :
    List String → String → Option (List (String × Value))
  | [], _ => some currMap
  | [key], value => some (assign currMap key (.str value))
  | key :: keys, value =>
    match lookupKey currMap key with
    | none =>
      (ParseSlsaAttestation.walk [] keys value).map
        fun sub => assign currMap key (.obj sub)
    | some (.obj sub) =>
      (ParseSlsaAttestation.walk sub keys value).map
        fun sub => assign currMap key (.obj sub)
    | some _ => none

/-- The key-path loop of `ParseSlsaAttestation` (lines 20-35) over the items
of `slsa.Slsa.SlsaPredicate`, from the map `resultPred`. -/
def ParseSlsaAttestation.keyPathLoop (resultPred : List (String × Value)) :
    List SLSAPredicate → Option (List (String × Value))
  | [] => some resultPred
  | item :: items =>
    match ParseSlsaAttestation.walk resultPred (Split item.Key) item.Value with
    | none => none
    | some m => ParseSlsaAttestation.keyPathLoop m items

/-- The function `convertSlice`: the values of the map, in the order the
`range` visits them. -/
def convertSlice (value : List (String × Value)) : List Value :=
  value.map Prod.snd

mutual
/-- The recursive call `ParseMap(value)` of `ParseMap`, on the value that its
type switch found to be a `map[string]interface{}`. -/
def ParseMap.nested : Value → List (String × Value)
  | .obj value => ParseMap.loop [] value
  | _ => []
/-- The loop of `ParseMap` over the entries of `input` in visiting order, with
the `output` built so far.  A nested map that has the key `"0"` is stored as
the slice `convertSlice` makes of it and the function returns at once. -/
def ParseMap.loop (output : List (String × Value)) :
    List (String × Value) → List (String × Value)
  | [] => output
  | (key, .obj value) :: rest =>
    if (lookupKey value "0").isSome then
      assign output key (.arr (convertSlice value))
    else
      ParseMap.loop
        (assign output key (.obj (ParseMap.nested (.obj value)))) rest
  | (key, value) :: rest => ParseMap.loop (assign output key value) rest
end

/-- The function `ParseMap`, on the entries of `input` in visiting order. -/
def ParseMap (input : List (String × Value)) : List (String × Value) :=
  ParseMap.loop [] input

mutual
/-- Lists every map of a tree in the order of the `range` over it: `ord path`
is the order in which the map at `path`, the keys from the root to the map, is
visited. -/
def rangeOrder (ord : List String → List (String × Value) → List (String × Value)) :
    List String → Value → Value
  | path, .obj entries => .obj (ord path (rangeOrderEntries ord path entries))
  | _, v => v
/-- The entries of the map at `path` with `rangeOrder` applied to every
value. -/
def rangeOrderEntries (ord : List String → List (String × Value) → List (String × Value)) :
    List String → List (String × Value) → List (String × Value)
  | _, [] => []
  | path, (k, v) :: rest =>
    (k, rangeOrder ord (path ++ [k]) v) :: rangeOrderEntries ord path rest
end

/-- The value of `resultPred` after line 37 of `ParseSlsaAttestation`: the
key-path loop, then `ParseMap` with the maps visited in the orders `ord`. -/
def ParseSlsaAttestation.resultPred
    (ord : List String → List (String × Value) → List (String × Value))
    (items : List SLSAPredicate) : Option (List (String × Value)) :=
  (ParseSlsaAttestation.keyPathLoop [] items).map
    fun m => ParseMap (ord [] (rangeOrderEntries ord [] m))

mutual
/-- The effect on a value of replacing `"true"` and `"false"` by `true` and
`false` in its JSON text (lines 69-70). -/
def retypeBool : Value → Value
  | .str s =>
    if s = "true" then .bool true else if s = "false" then .bool false else .str s
  | .bool b => .bool b
  | .obj entries => .obj (retypeBoolEntries entries)
  | .arr items => .arr (retypeBoolItems items)
/-- The entries of a map with `retypeBool` applied to every value. -/
def retypeBoolEntries : List (String × Value) → List (String × Value)
  | [] => []
  | (k, v) :: rest => (k, retypeBool v) :: retypeBoolEntries rest
/-- The items of a slice with `retypeBool` applied to each. -/
def retypeBoolItems : List Value → List Value
  | [] => []
  | v :: rest => retypeBool v :: retypeBoolItems rest
end

/-- The node a tree holds at a path of keys, if there is one. -/
def getPath : Value → List String → Option Value
  | v, [] => some v
  | .obj entries, k :: ks =>
    match lookupKey entries k with
    | some v => getPath v ks
    | none => none
  | _, _ :: _ => none

/-- What `ParseMap` stores in its output for a visited value. -/
def ParseMap.stored : Value → Value
  | .obj value =>
    if (lookupKey value "0").isSome then .arr (convertSlice value)
    else .obj (ParseMap value)
  | v => v

/-! ## Failures, loops and pointers -/

/-- A Go `error` value. -/
abbrev Error := String

/-- How a call ends when it yields no result: a run-time panic, or a returned
`error`. -/
inductive Failure where
  | panic
  | error (err : Error)
deriving DecidableEq

/-- The index expression `xs[0]`, which panics on an empty slice. -/
def index0 {α : Type} : List α → Except Failure α
  | [] => .error .panic
  | a :: _ => .ok a

/-- The dereference `*p` of a pointer, which panics on `nil`. -/
def deref {α : Type} : Option α → Except Failure α
  | none => .error .panic
  | some a => .ok a

/-- The statement `if err != nil { return nil, err }` after a call. -/
def liftErr {α : Type} : Except Error α → Except Failure α
  | .error err => .error (.error err)
  | .ok a => .ok a

/-- A loop `for _, x := range xs { body }` over a slice, with the variables
the body updates as state; `continue` is the body returning the state. -/
def forRange {σ ι : Type} (body : σ → ι → Except Failure σ) :
    List ι → σ → Except Failure σ
  | [], s => .ok s
  | x :: xs, s =>
    match body s x with
    | .error e => .error e
    | .ok s' => forRange body xs s'

/-- An update through a pointer: the slice element at index `i` replaced by
`f` of it. -/
def modifyAt {α : Type} (f : α → α) : List α → Nat → List α
  | [], _ => []
  | a :: as, 0 => f a :: as
  | a :: as, i + 1 => a :: modifyAt f as i

/-- The call `strings.HasPrefix(s, pre)`. -/
def HasPrefix (s pre : String) : Bool :=
  pre.data.isPrefixOf s.data

/-! ## The graph values of the GUAC client -/

/-- A qualifier of a package version. -/
structure Qualifier where
  Key : String
  Value : String
deriving DecidableEq

/-- A version node of a package tree. -/
structure PkgVersion where
  Id : String
  Version : String
  Purl : String
  Qualifiers : List Qualifier
deriving DecidableEq

/-- A name node of a package tree. -/
structure PkgName where
  Name : String
  Versions : List PkgVersion
deriving DecidableEq

/-- A namespace node of a package tree. -/
structure PkgNamespace where
  Namespace : String
  Names : List PkgName
deriving DecidableEq

/-- The expression `x.Namespaces[0]`. -/
def namespace0 (namespaces : List PkgNamespace) : Except Failure PkgNamespace :=
  index0 namespaces

/-- The expression `x.Namespaces[0].Names[0]`. -/
def name0 (namespaces : List PkgNamespace) : Except Failure PkgName := do
  let ns ← index0 namespaces
  index0 ns.Names

/-- The expression `x.Namespaces[0].Names[0].Versions[0]`. -/
def version0 (namespaces : List PkgNamespace) : Except Failure PkgVersion := do
  let ns ← index0 namespaces
  let n ← index0 ns.Names
  index0 n.Versions

/-- A package, source or artifact node as the client returns it behind an
interface: `Typename` is what `GetTypename()` points to. -/
structure Node where
  Typename : Option String
  Id : String
  Namespaces : List PkgNamespace
  Algorithm : String
  Digest : String
deriving DecidableEq

/-- Modelled from the spec: the type `PkgSubject` is declared outside
`sbom.go` and `slsa.go`; it is the canonical Subject of the specification,
with the fields `sbom.go` reads from it (`Typename` is a `*string`). -/
structure PkgSubject where
  Typename : Option String
  Id : String
  Namespaces : List PkgNamespace
  Algorithm : String
  Digest : String
deriving DecidableEq

/-- The artifact of an occurrence. -/
structure Artifact where
  Id : String
  Algorithm : String
  Digest : String
deriving DecidableEq

/-- An element of `sbom.IncludedOccurrences`. -/
structure Occurrence where
  Subject : Node
  Artifact : Artifact
deriving DecidableEq

/-- A package tree of a dependency edge. -/
structure PkgTree where
  Namespaces : List PkgNamespace
deriving DecidableEq

/-- An element of `sbom.IncludedDependencies`. -/
structure Dependency where
  Package : PkgTree
  DependencyPackage : PkgTree
  DependencyType : String
deriving DecidableEq

/-- The value `model.NeighborsNeighborsHasSBOM`; `KnownSince` is the time in
its RFC 3339 text. -/
structure HasSBOM where
  Subject : Node
  Uri : String
  KnownSince : String
  IncludedSoftware : List Node
  IncludedOccurrences : List Occurrence
  IncludedDependencies : List Dependency
deriving DecidableEq

/-- An identifier of a vulnerability. -/
structure VulnerabilityIdentifier where
  Id : String
  VulnerabilityID : String
deriving DecidableEq

/-- The vulnerability of a VEX statement. -/
structure Vulnerability where
  Id : String
  VulnerabilityIDs : List VulnerabilityIdentifier
deriving DecidableEq

/-- The value `model.NeighborsNeighborsCertifyVEXStatement`. -/
structure CertifyVEXStatement where
  Subject : Node
  Vulnerability : Vulnerability
  Statement : String
  StatusNotes : String
  KnownSince : String
  Status : String
  VexJustification : String
deriving DecidableEq

/-- An entry of the answer of `model.CertifyLegal`. -/
structure CertifyLegal where
  DeclaredLicense : String
  DiscoveredLicense : String
  Attribution : String
deriving DecidableEq

/-- An entry of the answer of `model.HasMetadata`. -/
structure HasMetadata where
  Key : String
  Value : String
deriving DecidableEq

/-- An entry of the answer of `model.VulnerabilityMetadata`; the score is
carried as text. -/
structure VulnerabilityMetadata where
  VulnerabilityId : String
  ScoreValue : String
  ScoreType : String
deriving DecidableEq

/-! ## The documents -/

/-- The type `spdx.PackageExternalReference`. -/
structure PackageExternalReference where
  Category : String
  RefType : String
  Locator : String
deriving DecidableEq

/-- The type `common.Checksum`. -/
structure Checksum where
  Algorithm : String
  Value : String
deriving DecidableEq

/-- The fields of `spdx.Package` that `getSpdxPredicate` sets. -/
structure SpdxPackage where
  PackageSPDXIdentifier : String
  PackageName : String
  PackageVersion : String
  PackageExternalReferences : List PackageExternalReference
  PackageLicenseDeclared : String
  PackageLicenseConcluded : String
  PackageCopyrightText : String
  PackageChecksums : List Checksum
deriving DecidableEq

/-- The fields of `spdx.File` that `getSpdxPredicate` sets. -/
structure SpdxFile where
  FileSPDXIdentifier : String
  FileName : String
  Checksums : List Checksum
deriving DecidableEq

/-- The fields of `spdx.Relationship` that `getSpdxPredicate` sets. -/
structure SpdxRelationship where
  RefA : String
  RefB : String
  Relationship : String
deriving DecidableEq

/-- The fields of `spdx.Document` that `getSpdxPredicate` sets. -/
structure SpdxDocument where
  SPDXIdentifier : String
  SPDXVersion : String
  DataLicense : String
  DocumentName : String
  DocumentNamespace : String
  Created : String
  Packages : List SpdxPackage
  Files : List SpdxFile
  Relationships : List SpdxRelationship
deriving DecidableEq

/-- The type `cdx.Hash`. -/
structure Hash where
  Algorithm : String
  Value : String
deriving DecidableEq

/-- The fields of `cdx.Component` that `getCdxPredicate` sets; `Hashes` is a
pointer to a slice. -/
structure Component where
  Type_ : String
  BOMRef : String
  Name : String
  Version : String
  PackageURL : String
  Hashes : Option (List Hash)
deriving DecidableEq

/-- The type `cdx.Dependency`. -/
structure CdxDependency where
  Ref : String
  Dependencies : List String
deriving DecidableEq

/-- The fields of `cdx.VulnerabilityRating` that `getCdxPredicate` sets. -/
structure VulnerabilityRating where
  Score : String
  Method : String
deriving DecidableEq

/-- The type `cdx.VulnerabilityAnalysis`. -/
structure VulnerabilityAnalysis where
  State : String
  Justification : String
  Detail : String
deriving DecidableEq

/-- The fields of `cdx.Vulnerability` that `getCdxPredicate` sets; `Affects`
lists the `Ref` of each `cdx.Affects`. -/
structure CdxVulnerability where
  ID : String
  Description : String
  Detail : String
  Published : String
  Analysis : VulnerabilityAnalysis
  Affects : List String
  Ratings : List VulnerabilityRating
deriving DecidableEq

/-- The fields of `cdx.BOM` that `getCdxPredicate` sets; `MetadataComponent`
is `bom.Metadata.Component` and `Timestamp` is `bom.Metadata.Timestamp`. -/
structure BOM where
  BOMFormat : String
  SpecVersion : Nat
  Version : Nat
  SerialNumber : String
  MetadataComponent : Component
  Timestamp : String
  Components : List Component
  Dependencies : List CdxDependency
  Vulnerabilities : List CdxVulnerability
deriving DecidableEq

/-- The predicate of a statement, a `structpb.Struct`, as the document it
encodes; `struct none` is the predicate left unset. -/
inductive Predicate where
  | spdx (doc : SpdxDocument)
  | cdx (bom : BOM)
  | struct (value : Option Value)

/-- The type `attestationv1.ResourceDescriptor`, with the fields set here. -/
structure ResourceDescriptor where
  Name : String
  Uri : String
  Digest : List (String × String)
deriving DecidableEq

/-- The type `attestationv1.Statement`. -/
structure Statement where
  Type_ : String
  Subject : List ResourceDescriptor
  PredicateType : String
  Predicate : Predicate

/-! ## Constants of the libraries -/

/-- The constant `in_toto.StatementInTotoV01`. -/
def StatementInTotoV01 : String := "https://in-toto.io/Statement/v0.1"
/-- The constant `attestationv1.StatementTypeUri`. -/
def StatementTypeUri : String := "https://in-toto.io/Statement/v1"
/-- The constant `in_toto.PredicateCycloneDX`. -/
def PredicateCycloneDX : String := "https://cyclonedx.org/bom"
/-- The constant `in_toto.PredicateSPDX`. -/
def PredicateSPDX : String := "https://spdx.dev/Document"
/-- The constant `slsa1.PredicateSLSAProvenance`. -/
def PredicateSLSAProvenance : String := "https://slsa.dev/provenance/v1"
/-- The constant `spdx.Version`. -/
def SpdxVersion : String := "SPDX-2.3"
/-- The constant `spdx.DataLicense`. -/
def DataLicense : String := "CC0-1.0"
/-- The constant `spdx.CategoryPackageManager`. -/
def CategoryPackageManager : String := "PACKAGE-MANAGER"
/-- The constant `spdx.PackageManagerPURL`. -/
def PackageManagerPURL : String := "purl"
/-- The constant `common.TypeSecurityCPE23Type`. -/
def TypeSecurityCPE23Type : String := "cpe23Type"
/-- The constant `common.CategorySecurity`. -/
def CategorySecurity : String := "SECURITY"
/-- The constant `common.TypeRelationshipOther`. -/
def TypeRelationshipOther : String := "OTHER"
/-- The constant `cdx.BOMFormat`. -/
def BOMFormat : String := "CycloneDX"
/-- The constant `cdx.ComponentTypeLibrary`. -/
def ComponentTypeLibrary : String := "library"

/-! ## What a run depends on beyond its arguments -/

/-- The collaborators of the parsers and the choices of the run time.

* `parsePkgSubject` is the subject resolver, declared outside `sbom.go`.
* `CertifyLegal`, `HasMetadata` and `VulnerabilityMetadata` are the GraphQL
  queries, by the node id they are asked for.
* `ParseSubjectName` is `utils.ParseSubjectName`.
* `spdxEncoding`, `cdxEncoding` and `slsaEncoding` give the error, if any, of
  the conversion of the finished value through JSON into its protobuf form.
* `rangeValues`, `rangeHashes` and `rangeDependencies` give the order in
  which a `range` visits the entries of a map; `rangeValues` takes, before
  the map, its path in the tree of `resultPred`. -/
structure Env where
  parsePkgSubject : Node → Except Error PkgSubject
  CertifyLegal : String → Except Error (List CertifyLegal)
  HasMetadata : String → Except Error (List HasMetadata)
  VulnerabilityMetadata : String → Except Error (List VulnerabilityMetadata)
  ParseSubjectName : String → String
  spdxEncoding : SpdxDocument → Option Error
  cdxEncoding : BOM → Option Error
  slsaEncoding : Statement → Option Error
  rangeValues : List String → List (String × Value) → List (String × Value)
  rangeHashes : List (String × List Hash) → List (String × List Hash)
  rangeDependencies : List (String × List String) → List (String × List String)

/-- The orders of map iteration of an environment are permutations. -/
def Env.WellFormed (env : Env) : Prop :=
  (∀ path m, (env.rangeValues path m).Perm m) ∧
  (∀ m, (env.rangeHashes m).Perm m) ∧
  (∀ m, (env.rangeDependencies m).Perm m)

/-! ## `getSpdxPredicate` -/

/-- The loops over the qualifiers of a version (lines 154-158 and 180-184):
`fileName` ends as the value of the last `"filename"` qualifier, if any. -/
def filenameQualifier (fileName : String) (qualifiers : List Qualifier) : String :=
  qualifiers.foldl (fun name q => if q.Key = "filename" then q.Value else name) fileName

/-- The variables the loops of `getSpdxPredicate` update.  A `*spdx.Package`
or `*spdx.File` is the index of the value in `packages` or `files`, and
`none` in `fileMap` is the `nil` pointer. -/
structure SpdxBuild where
  packages : List SpdxPackage
  packageMap : List (String × Nat)
  files : List SpdxFile
  fileMap : List (String × Option Nat)
  relationships : List SpdxRelationship

/-- The security references of a package: one per `"cpe"` entry of its
metadata (lines 130-138). -/
def cpeReferences (metadata : List HasMetadata) : List PackageExternalReference :=
  (metadata.filter fun m => m.Key = "cpe").map fun m =>
    { RefType := TypeSecurityCPE23Type, Locator := m.Value, Category := CategorySecurity }

/-- The body of the loop over `sbom.IncludedSoftware` (lines 84-141). -/
def getSpdxPredicate.software (env : Env) (subject : PkgSubject) (st : SpdxBuild)
    (pkg : Node) : Except Failure SpdxBuild := do
  let typename ← deref pkg.Typename
  if typename ≠ "Package" then
    return st
  else
    let sub ← liftErr (env.parsePkgSubject pkg)
    let version ← version0 sub.Namespaces
    let pkgPurl := version.Purl
    let subjectVersion ← version0 subject.Namespaces
    let ns ← namespace0 sub.Namespaces
    if pkgPurl = subjectVersion.Purl ∨ ns.Namespace = "files" then
      return st
    else
      let name ← name0 sub.Namespaces
      let pkgCertifyLegal ← liftErr (env.CertifyLegal version.Id)
      let pkgHasMetadata ← liftErr (env.HasMetadata version.Id)
      let p : SpdxPackage :=
        { PackageSPDXIdentifier := version.Id
          PackageName := name.Name
          PackageVersion := version.Version
          PackageExternalReferences :=
            { Category := CategoryPackageManager, Locator := pkgPurl,
              RefType := PackageManagerPURL } :: cpeReferences pkgHasMetadata
          PackageLicenseDeclared := (pkgCertifyLegal.head?.map (·.DeclaredLicense)).getD ""
          PackageLicenseConcluded := (pkgCertifyLegal.head?.map (·.DiscoveredLicense)).getD ""
          PackageCopyrightText := (pkgCertifyLegal.head?.map (·.Attribution)).getD ""
          PackageChecksums := [] }
      return { st with
        packageMap := assign st.packageMap version.Id st.packages.length
        packages := st.packages ++ [p] }

/-- The body of the loop over `sbom.IncludedOccurrences` (lines 147-195). -/
def getSpdxPredicate.occurrence (env : Env) (st : SpdxBuild) (pkg : Occurrence) :
    Except Failure SpdxBuild := do
  let sub ← liftErr (env.parsePkgSubject pkg.Subject)
  let ns ← namespace0 sub.Namespaces
  let checksum : Checksum :=
    { Algorithm := pkg.Artifact.Algorithm, Value := pkg.Artifact.Digest }
  if ns.Namespace = "files" then
    let version ← version0 sub.Namespaces
    let name ← name0 sub.Namespaces
    let fileName := filenameQualifier "" version.Qualifiers
    match lookupKey st.fileMap (name.Name ++ ":" ++ fileName) with
    | some none => return st
    | some (some f) =>
      let depFileName := pkg.Artifact.Algorithm ++ ":" ++ pkg.Artifact.Digest
      return { st with
        files := modifyAt (fun file => { file with Checksums := file.Checksums ++ [checksum] })
          st.files f
        fileMap := assign st.fileMap depFileName none }
    | none =>
      let f : SpdxFile :=
        { FileSPDXIdentifier := version.Id
          FileName := filenameQualifier name.Name version.Qualifiers
          Checksums := [checksum] }
      return { st with
        fileMap := assign st.fileMap (name.Name ++ ":" ++ f.FileName) (some st.files.length)
        files := st.files ++ [f] }
  else
    let version ← version0 sub.Namespaces
    match lookupKey st.packageMap version.Id with
    | some occPkg =>
      return { st with
        packages := modifyAt
          (fun p => { p with PackageChecksums := p.PackageChecksums ++ [checksum] })
          st.packages occPkg }
    | none => return st

/-- The body of the loop over `sbom.IncludedDependencies` (lines 200-212). -/
def getSpdxPredicate.dependency (subject : PkgSubject) (st : SpdxBuild)
    (rel : Dependency) : Except Failure SpdxBuild := do
  let subjectVersion ← version0 subject.Namespaces
  let pkgVersion ← version0 rel.Package.Namespaces
  if subjectVersion.Purl ≠ pkgVersion.Purl then
    let depVersion ← version0 rel.DependencyPackage.Namespaces
    let r : SpdxRelationship :=
      { RefA := pkgVersion.Id, RefB := depVersion.Id, Relationship := TypeRelationshipOther }
    return { st with relationships := st.relationships ++ [r] }
  else
    return st

/-- The state of `getSpdxPredicate` after its three loops (line 213). -/
def getSpdxPredicate.build (env : Env) (sbom : HasSBOM) (subject : PkgSubject) :
    Except Failure SpdxBuild := do
  let st ← forRange (getSpdxPredicate.software env subject) sbom.IncludedSoftware
    { packages := [], packageMap := [], files := [], fileMap := [], relationships := [] }
  let st ← forRange (getSpdxPredicate.occurrence env) sbom.IncludedOccurrences st
  forRange (getSpdxPredicate.dependency subject) sbom.IncludedDependencies st

/-- The function `getSpdxPredicate`; the predicate it returns is given as the
document it encodes. -/
def getSpdxPredicate (env : Env) (sbom : HasSBOM) (subject : PkgSubject) :
    Except Failure SpdxDocument := do
  let name ← name0 subject.Namespaces
  let st ← getSpdxPredicate.build env sbom subject
  let spdxDoc : SpdxDocument :=
    { SPDXIdentifier := "DOCUMENT"
      SPDXVersion := SpdxVersion
      DataLicense := DataLicense
      DocumentName := name.Name
      DocumentNamespace := sbom.Uri
      Created := sbom.KnownSince
      Packages := st.packages
      Files := st.files
      Relationships := st.relationships }
  match env.spdxEncoding spdxDoc with
  | some err => throw (.error err)
  | none => return spdxDoc

/-! ## `getCdxPredicate` -/

/-- The variables the loops of `getCdxPredicate` update: `metadata` is
`bom.Metadata.Component`, and a `*cdx.Component` is the index of the value in
`components`. -/
structure CdxBuild where
  metadata : Component
  subjectNodeId : String
  components : List Component
  componentMap : List (String × Nat)
  hashesMap : List (String × List Hash)
  dependencyMap : List (String × List String)
  vulnerabilities : List CdxVulnerability

/-- The metadata component and the subject node id that `getCdxPredicate`
starts from (lines 235-253). -/
def getCdxPredicate.init (subject : PkgSubject) : Except Failure CdxBuild := do
  let component : Component :=
    { Type_ := ComponentTypeLibrary, BOMRef := "", Name := "", Version := "",
      PackageURL := "", Hashes := none }
  let typename ← deref subject.Typename
  if typename = "Package" then
    let name ← name0 subject.Namespaces
    let version ← version0 subject.Namespaces
    return {
      metadata := { component with
        Name := name.Name, Version := version.Version, BOMRef := version.Purl,
        PackageURL := version.Purl }
      subjectNodeId := version.Id
      components := [], componentMap := [], hashesMap := [], dependencyMap := [],
      vulnerabilities := [] }
  else if typename = "Artifact" then
    return {
      metadata := { component with
        Hashes := some [{ Algorithm := subject.Algorithm, Value := subject.Digest }] }
      subjectNodeId := subject.Id
      components := [], componentMap := [], hashesMap := [], dependencyMap := [],
      vulnerabilities := [] }
  else
    return {
      metadata := component
      subjectNodeId := ""
      components := [], componentMap := [], hashesMap := [], dependencyMap := [],
      vulnerabilities := [] }

/-- The body of the loop over `sbom.IncludedSoftware` (lines 259-276). -/
def getCdxPredicate.software (env : Env) (st : CdxBuild) (pkg : Node) :
    Except Failure CdxBuild := do
  let typename ← deref pkg.Typename
  if typename ≠ "Package" then
    return st
  else
    let sub ← liftErr (env.parsePkgSubject pkg)
    let version ← version0 sub.Namespaces
    let pkgPurl := version.Purl
    let name ← name0 sub.Namespaces
    let comp : Component :=
      { Type_ := ComponentTypeLibrary, BOMRef := pkgPurl, PackageURL := pkgPurl,
        Name := name.Name, Version := version.Version, Hashes := none }
    return { st with
      componentMap := assign st.componentMap version.Id st.components.length
      components := st.components ++ [comp] }

/-- The body of the loop over `sbom.IncludedOccurrences` (lines 279-296). -/
def getCdxPredicate.occurrence (env : Env) (subject : PkgSubject) (st : CdxBuild)
    (pkg : Occurrence) : Except Failure CdxBuild := do
  let sub ← liftErr (env.parsePkgSubject pkg.Subject)
  let typename ← deref subject.Typename
  if typename = "Artifact" ∧ st.subjectNodeId = pkg.Artifact.Id then
    let name ← name0 sub.Namespaces
    let version ← version0 sub.Namespaces
    return { st with
      metadata := { st.metadata with
        Name := name.Name, Version := version.Version, BOMRef := version.Purl,
        PackageURL := version.Purl }
      subjectNodeId := version.Id }
  else
    let version ← version0 sub.Namespaces
    let hash : Hash := { Algorithm := pkg.Artifact.Algorithm, Value := pkg.Artifact.Digest }
    return { st with
      hashesMap := assign st.hashesMap version.Id
        (((lookupKey st.hashesMap version.Id).getD []) ++ [hash]) }

/-- The body of the loop over `hashesMap` (lines 297-302). -/
def getCdxPredicate.hashes (st : CdxBuild) (entry : String × List Hash) :
    Except Failure CdxBuild :=
  match lookupKey st.componentMap entry.1 with
  | some occPkg =>
    return { st with
      components := modifyAt (fun c => { c with Hashes := some entry.2 }) st.components occPkg }
  | none => return st

/-- The body of the loop over `sbom.IncludedDependencies` (lines 315-319). -/
def getCdxPredicate.dependency (st : CdxBuild) (dep : Dependency) :
    Except Failure CdxBuild := do
  if dep.DependencyType = "DIRECT" then
    let pkgVersion ← version0 dep.Package.Namespaces
    let depVersion ← version0 dep.DependencyPackage.Namespaces
    return { st with
      dependencyMap := assign st.dependencyMap pkgVersion.Purl
        (((lookupKey st.dependencyMap pkgVersion.Purl).getD []) ++ [depVersion.Purl]) }
  else
    return st

/-- The ratings of a vulnerability (lines 356-365). -/
def getCdxPredicate.ratings (v : CertifyVEXStatement)
    (vulnMetadata : List VulnerabilityMetadata) : List VulnerabilityRating :=
  (vulnMetadata.filter fun r => v.Vulnerability.Id = r.VulnerabilityId).map fun r =>
    { Score := r.ScoreValue, Method := r.ScoreType }

/-- The condition of line 336: whether the VEX subject is the tracked subject
of the document. -/
def getCdxPredicate.isSubject (sub : PkgSubject) (subjectNodeId : String) :
    Except Failure Bool := do
  let typename ← deref sub.Typename
  if typename = "Artifact" ∧ sub.Id = subjectNodeId then
    return true
  else if typename = "Package" then
    let version ← version0 sub.Namespaces
    return decide (version.Id = subjectNodeId)
  else
    return false

/-- The body of the loop over `vuln` (lines 330-374). -/
def getCdxPredicate.vex (env : Env) (serialNumber : String) (st : CdxBuild)
    (v : CertifyVEXStatement) : Except Failure CdxBuild := do
  let sub ← liftErr (env.parsePkgSubject v.Subject)
  if (← getCdxPredicate.isSubject sub st.subjectNodeId) then
    let vulnerabilityID ← index0 v.Vulnerability.VulnerabilityIDs
    let vulnMetadata ← liftErr (env.VulnerabilityMetadata vulnerabilityID.Id)
    let vulnerability : CdxVulnerability :=
      { ID := vulnerabilityID.VulnerabilityID
        Description := v.Statement
        Detail := v.StatusNotes
        Published := v.KnownSince
        Analysis :=
          { State := v.Status, Justification := v.VexJustification, Detail := v.StatusNotes }
        Affects := [serialNumber ++ "#" ++ st.metadata.BOMRef]
        Ratings := getCdxPredicate.ratings v vulnMetadata }
    return { st with vulnerabilities := st.vulnerabilities ++ [vulnerability] }
  else
    return st

/-- The state of `getCdxPredicate` after its loops (line 375). -/
def getCdxPredicate.build (env : Env) (sbom : HasSBOM) (subject : PkgSubject)
    (vuln : List CertifyVEXStatement) : Except Failure CdxBuild := do
  let st ← getCdxPredicate.init subject
  let st ← forRange (getCdxPredicate.software env) sbom.IncludedSoftware st
  let st ← forRange (getCdxPredicate.occurrence env subject) sbom.IncludedOccurrences st
  let st ← forRange getCdxPredicate.hashes (env.rangeHashes st.hashesMap) st
  let st ← forRange getCdxPredicate.dependency sbom.IncludedDependencies st
  forRange (getCdxPredicate.vex env sbom.Uri) vuln st

/-- The function `getCdxPredicate`; the predicate it returns is given as the
document it encodes. -/
def getCdxPredicate (env : Env) (sbom : HasSBOM) (subject : PkgSubject)
    (vuln : List CertifyVEXStatement) : Except Failure BOM := do
  let st ← getCdxPredicate.build env sbom subject vuln
  let bom : BOM :=
    { BOMFormat := BOMFormat
      SpecVersion := 7
      Version := 1
      SerialNumber := sbom.Uri
      MetadataComponent := st.metadata
      Timestamp := sbom.KnownSince
      Components := st.components.filter fun c => c.BOMRef ≠ st.metadata.BOMRef
      Dependencies := (env.rangeDependencies st.dependencyMap).map fun entry =>
        { Ref := entry.1, Dependencies := entry.2 }
      Vulnerabilities := st.vulnerabilities }
  match env.cdxEncoding bom with
  | some err => throw (.error err)
  | none => return bom

/-! ## `ParseSbomAttestation` -/

/-- The subject list of the statement (lines 37-52). -/
def ParseSbomAttestation.subject (sbom : HasSBOM) (subject : PkgSubject) :
    Except Failure (List ResourceDescriptor) := do
  let typename ← deref sbom.Subject.Typename
  if typename = "Package" then
    let name ← name0 subject.Namespaces
    let version ← version0 subject.Namespaces
    return [{ Name := name.Name, Uri := version.Purl, Digest := [] }]
  else if typename = "Artifact" then
    return [{ Name := "", Uri := "", Digest := assign [] subject.Algorithm subject.Digest }]
  else
    return []

/-- The function `ParseSbomAttestation`. -/
def ParseSbomAttestation (env : Env) (sbom : HasSBOM) (vuln : List CertifyVEXStatement) :
    Except Failure Statement := do
  let subject ← liftErr (env.parsePkgSubject sbom.Subject)
  let predicateType :=
    if HasPrefix sbom.Uri "urn:uuid:" then PredicateCycloneDX else PredicateSPDX
  let resources ← ParseSbomAttestation.subject sbom subject
  if predicateType = PredicateCycloneDX then
    let predicate ← getCdxPredicate env sbom subject vuln
    return { Type_ := StatementInTotoV01, PredicateType := predicateType,
             Subject := resources, Predicate := .cdx predicate }
  else
    let predicate ← getSpdxPredicate env sbom subject
    return { Type_ := StatementInTotoV01, PredicateType := predicateType,
             Subject := resources, Predicate := .spdx predicate }

/-! ## `ParseSlsaAttestation` -/

/-- The SLSA attestation of `model.NeighborsNeighborsHasSLSA`. -/
structure SLSA where
  SlsaPredicate : List SLSAPredicate
  SlsaVersion : String
deriving DecidableEq

/-- The value `model.NeighborsNeighborsHasSLSA`. -/
structure HasSLSA where
  Subject : Artifact
  Slsa : SLSA
deriving DecidableEq

/-- The function `ParseSlsaAttestation`.  The statement is the one that
`protojson.Unmarshal` reads from the JSON text of `data`. -/
def ParseSlsaAttestation (env : Env) (slsa : HasSLSA) (pkgPurl : String) :
    Except Failure Statement := do
  let resultPred ←
    match ParseSlsaAttestation.resultPred env.rangeValues slsa.Slsa.SlsaPredicate with
    | none => throw Failure.panic
    | some m => pure m
  let slsaType :=
    if slsa.Slsa.SlsaVersion = PredicateSLSAProvenance then StatementTypeUri
    else StatementInTotoV01
  let digest := assign [] slsa.Subject.Algorithm slsa.Subject.Digest
  let subjectName := env.ParseSubjectName pkgPurl
  let s : Statement :=
    { Type_ := slsaType
      Subject := [{ Name := subjectName, Uri := pkgPurl, Digest := digest }]
      PredicateType := slsa.Slsa.SlsaVersion
      Predicate := .struct ((lookupKey resultPred "slsa").map retypeBool) }
  match env.slsaEncoding s with
  | some err => throw (.error err)
  | none => return s

/-! ## Notions used in the statements -/

/-- Whether the loop of `ParseMap` returns right after storing this value. -/
def ParseMap.returns : Value → Bool
  | .obj value => (lookupKey value "0").isSome
  | _ => false

/-- The map the inner loop descends into at `key`: the one stored there, or a
new one. -/
def ParseSlsaAttestation.child (m : List (String × Value)) (key : String) :
    List (String × Value) :=
  match lookupKey m key with
  | some (.obj sub) => sub
  | _ => []

/-- The tree `m` holds exactly the leaves `leaves` (path and value), every
node of it lies on the path of a leaf, and every map in it has one entry per
key. -/
def BuiltFrom (m : List (String × Value)) (leaves : List (List String × String)) : Prop :=
  (∀ q w, getPath (.obj m) q = some (.str w) ↔ (q, w) ∈ leaves) ∧
  (∀ q x, getPath (.obj m) q = some x → q = [] ∨ ∃ e ∈ leaves, q <+: e.1) ∧
  (∀ q x, getPath (.obj m) q = some x →
    (∃ w, x = .str w) ∨ ∃ es, x = .obj es ∧ (keysOf es).Nodup)

/-- The node ids of the `"Package"` nodes of an included-software list, one
per listed node, as the subject resolver gives them. -/
def packageIds (env : Env) (software : List Node) : List String :=
  software.filterMap fun pkg =>
    if pkg.Typename = some "Package" then
      match env.parsePkgSubject pkg with
      | .ok sub =>
        match version0 sub.Namespaces with
        | .ok version => some version.Id
        | .error _ => none
      | .error _ => none
    else none

/-- The component that the loop of `getCdxPredicate` over the included
software appends for a node, paired with the node id under which
`componentMap` stores it (lines 260-275); nothing for a node that is not a
`"Package"`. -/
def getCdxPredicate.componentOf (env : Env) (pkg : Node) : Option (String × Component) :=
  if pkg.Typename = some "Package" then
    match env.parsePkgSubject pkg with
    | .ok sub =>
      match version0 sub.Namespaces, name0 sub.Namespaces with
      | .ok version, .ok name =>
        some (version.Id,
          { Type_ := ComponentTypeLibrary, BOMRef := version.Purl,
            PackageURL := version.Purl, Name := name.Name, Version := version.Version,
            Hashes := none })
      | _, _ => none
    | .error _ => none
  else none

/-- The relationship that the loop of `getSpdxPredicate` over the dependency
edges adds for an edge, if it adds one. -/
def getSpdxPredicate.relationshipOf (subject : PkgSubject) (rel : Dependency) :
    Option SpdxRelationship :=
  match version0 subject.Namespaces, version0 rel.Package.Namespaces,
    version0 rel.DependencyPackage.Namespaces with
  | .ok subjectVersion, .ok pkgVersion, .ok depVersion =>
    if subjectVersion.Purl ≠ pkgVersion.Purl then
      some { RefA := pkgVersion.Id, RefB := depVersion.Id,
             Relationship := TypeRelationshipOther }
    else none
  | _, _, _ => none

/-- Every string leaf of the tree `m` lies at one of `paths`, and every other
node of it is a map with one entry per key. -/
def LeavesIn (m : List (String × Value)) (paths : List (List String)) : Prop :=
  (∀ q w, getPath (.obj m) q = some (.str w) → q ∈ paths) ∧
  (∀ q x, getPath (.obj m) q = some x →
    (∃ w, x = .str w) ∨ ∃ es, x = .obj es ∧ (keysOf es).Nodup)

/-- The pairs (package purl, dependency purl) of the edges of a dependency
list that are marked `"DIRECT"`, in input order. -/
def getCdxPredicate.directEdges (dependencies : List Dependency) : List (String × String) :=
  dependencies.filterMap fun dep =>
    if dep.DependencyType = "DIRECT" then
      match version0 dep.Package.Namespaces, version0 dep.DependencyPackage.Namespaces with
      | .ok pkgVersion, .ok depVersion => some (pkgVersion.Purl, depVersion.Purl)
      | _, _ => none
    else none

/-- The map `dependencyMap` holds, under each package purl of the edges
`edges`, the dependency purls of the edges of that package, in order. -/
def Aggregates (dependencyMap : List (String × List String))
    (edges : List (String × String)) : Prop :=
  (keysOf dependencyMap).Nodup ∧
  ∀ k, lookupKey dependencyMap k =
    if k ∈ edges.map Prod.fst then
      some ((edges.filter fun e => e.1 = k).map Prod.snd)
    else none

/-- The value of `subjectNodeId` after the loop of `getCdxPredicate` over the
occurrences, for an Artifact subject, from its value before the loop: an
occurrence of the artifact with this id replaces it by the node id of the
package of the occurrence. -/
def getCdxPredicate.trackedId (env : Env) : List Occurrence → String → String
  | [], subjectNodeId => subjectNodeId
  | pkg :: rest, subjectNodeId =>
    if subjectNodeId = pkg.Artifact.Id then
      match env.parsePkgSubject pkg.Subject with
      | .ok sub =>
        match version0 sub.Namespaces with
        | .ok version => getCdxPredicate.trackedId env rest version.Id
        | .error _ => getCdxPredicate.trackedId env rest subjectNodeId
      | .error _ => getCdxPredicate.trackedId env rest subjectNodeId
    else getCdxPredicate.trackedId env rest subjectNodeId

/-- Whether the subject of a VEX statement resolves to the node id
`subjectNodeId`, by the condition of line 336. -/
def getCdxPredicate.matchesSubject (env : Env) (subjectNodeId : String)
    (v : CertifyVEXStatement) : Bool :=
  match env.parsePkgSubject v.Subject with
  | .ok sub =>
    match getCdxPredicate.isSubject sub subjectNodeId with
    | .ok b => b
    | .error _ => false
  | .error _ => false

/-- The vulnerability record that the loop of `getCdxPredicate` over the VEX
statements builds for a statement (lines 337-371). -/
def getCdxPredicate.vulnerabilityOf (env : Env) (serialNumber bomRef : String)
    (v : CertifyVEXStatement) : Option CdxVulnerability :=
  match index0 v.Vulnerability.VulnerabilityIDs with
  | .ok vulnerabilityID =>
    match env.VulnerabilityMetadata vulnerabilityID.Id with
    | .ok vulnMetadata =>
      some
        { ID := vulnerabilityID.VulnerabilityID
          Description := v.Statement
          Detail := v.StatusNotes
          Published := v.KnownSince
          Analysis :=
            { State := v.Status, Justification := v.VexJustification,
              Detail := v.StatusNotes }
          Affects := [serialNumber ++ "#" ++ bomRef]
          Ratings := getCdxPredicate.ratings v vulnMetadata }
    | .error _ => none
  | .error _ => none

/-- The loop of `getSpdxPredicate` over the included software meets, at the
node `pkg`, the error `err`: the node is a `"Package"` and its resolution
fails, or it gets a package record and its legal lookup, or after that its
metadata lookup, fails. -/
def getSpdxPredicate.lookupFails (env : Env) (subject : PkgSubject) (pkg : Node)
    (err : Error) : Prop :=
  pkg.Typename = some "Package" ∧
    (env.parsePkgSubject pkg = .error err ∨
      ∃ sub version subjectVersion ns name,
        env.parsePkgSubject pkg = .ok sub ∧
        version0 sub.Namespaces = .ok version ∧
        version0 subject.Namespaces = .ok subjectVersion ∧
        namespace0 sub.Namespaces = .ok ns ∧
        name0 sub.Namespaces = .ok name ∧
        ¬ (version.Purl = subjectVersion.Purl ∨ ns.Namespace = "files") ∧
        (env.CertifyLegal version.Id = .error err ∨
          ∃ legal, env.CertifyLegal version.Id = .ok legal ∧
            env.HasMetadata version.Id = .error err))

/-- The variables of `getSpdxPredicate` when its loop over the occurrences
(line 147) has gone through the edges `pre`, a beginning of the list, and is
about to take the next edge. -/
def getSpdxPredicate.reached (env : Env) (sbom : HasSBOM) (subject : PkgSubject)
    (pre : List Occurrence) : Except Failure SpdxBuild := do
  let st ← forRange (getSpdxPredicate.software env subject) sbom.IncludedSoftware
    { packages := [], packageMap := [], files := [], fileMap := [], relationships := [] }
  forRange (getSpdxPredicate.occurrence env) pre st

/-- Whether `fileMap` holds, at that point of the run, the `nil` marker of
line 169 under `key`. -/
def getSpdxPredicate.marked (env : Env) (sbom : HasSBOM) (subject : PkgSubject)
    (pre : List Occurrence) (key : String) : Bool :=
  match getSpdxPredicate.reached env sbom subject pre with
  | .ok st => decide (lookupKey st.fileMap key = some none)
  | .error _ => false

/-- Every `nil` of `fileMap` stands under the text `algorithm:digest` of an
occurrence of `seen`, and every file pointer of `fileMap` points into
`files`. -/
def MarksFrom (st : SpdxBuild) (seen : List Occurrence) : Prop :=
  (∀ k, lookupKey st.fileMap k = some none →
    ∃ e ∈ seen, k = e.Artifact.Algorithm ++ ":" ++ e.Artifact.Digest) ∧
  (∀ k f, lookupKey st.fileMap k = some (some f) → f < st.files.length)

/-! ## Concrete values for the instances of the theorems -/

/-- An environment in which every lookup answers with the empty list, the
subject resolver copies the fields of the node, no encoding fails, and every
map is visited in the order of its listing. -/
def plainEnv : Env where
  parsePkgSubject := fun n =>
    .ok { Typename := n.Typename, Id := n.Id, Namespaces := n.Namespaces,
          Algorithm := n.Algorithm, Digest := n.Digest }
  CertifyLegal := fun _ => .ok []
  HasMetadata := fun _ => .ok []
  VulnerabilityMetadata := fun _ => .ok []
  ParseSubjectName := fun purl => purl
  spdxEncoding := fun _ => none
  cdxEncoding := fun _ => none
  slsaEncoding := fun _ => none
  rangeValues := fun _ m => m
  rangeHashes := fun m => m
  rangeDependencies := fun m => m

/-- The namespace chain of a package version with one namespace, one name and
one version. -/
def pkgChain (ns name id version purl : String) (qualifiers : List Qualifier) :
    List PkgNamespace :=
  [{ Namespace := ns,
     Names := [{ Name := name,
                 Versions := [{ Id := id, Version := version, Purl := purl,
                                Qualifiers := qualifiers }] }] }]

/-- A package node. -/
def pkgNode (ns name id version purl : String) (qualifiers : List Qualifier) : Node :=
  { Typename := some "Package", Id := "", Namespaces := pkgChain ns name id version purl qualifiers,
    Algorithm := "", Digest := "" }

/-- A package subject, as the resolver returns it for `pkgNode`. -/
def pkgSubject (ns name id version purl : String) : PkgSubject :=
  { Typename := some "Package", Id := "", Namespaces := pkgChain ns name id version purl [],
    Algorithm := "", Digest := "" }

/-- The package `P` of the end-to-end example: purl `pkg:test/a@1`. -/
def nodeP : Node := pkgNode "test" "a" "P" "1" "pkg:test/a@1" []

/-- The package `Q` of the end-to-end example: purl `pkg:test/b@1`. -/
def nodeQ : Node := pkgNode "test" "b" "Q" "1" "pkg:test/b@1" []

/-- A third package, `R`, with purl `pkg:test/c@1`. -/
def nodeR : Node := pkgNode "test" "c" "R" "1" "pkg:test/c@1" []

/-- The subject `P`, resolved. -/
def subjectP : PkgSubject := pkgSubject "test" "a" "P" "1" "pkg:test/a@1"

/-- A dependency edge between two package nodes. -/
def edge (package dependency : Node) (kind : String) : Dependency :=
  { Package := { Namespaces := package.Namespaces },
    DependencyPackage := { Namespaces := dependency.Namespaces },
    DependencyType := kind }

/-- An SBOM of the subject `P`. -/
def sbomOfP (uri : String) (software : List Node) (occurrences : List Occurrence)
    (dependencies : List Dependency) : HasSBOM :=
  { Subject := nodeP, Uri := uri, KnownSince := "2024-01-01T00:00:00Z",
    IncludedSoftware := software, IncludedOccurrences := occurrences,
    IncludedDependencies := dependencies }

/-- A file node of the `"files"` namespace without qualifiers. -/
def fileNode (name id : String) : Node :=
  pkgNode "files" name id "" ("pkg:guac/files/" ++ name) []

/-- A file node of the `"files"` namespace with a `"filename"` qualifier. -/
def namedFileNode (name id filename : String) : Node :=
  pkgNode "files" name id "" ("pkg:guac/files/" ++ name)
    [{ Key := "filename", Value := filename }]

/-- An artifact node. -/
def artifactNode (id algorithm digest : String) : Node :=
  { Typename := some "Artifact", Id := id, Namespaces := [], Algorithm := algorithm,
    Digest := digest }

/-- An artifact subject, as the resolver returns it for `artifactNode`. -/
def artifactSubject (id algorithm digest : String) : PkgSubject :=
  { Typename := some "Artifact", Id := id, Namespaces := [], Algorithm := algorithm,
    Digest := digest }

/-- A VEX statement about a node, for the vulnerability `vulnerabilityID`. -/
def vexOn (subject : Node) (vulnerabilityID : String) : CertifyVEXStatement :=
  { Subject := subject,
    Vulnerability := { Id := "V", VulnerabilityIDs := [{ Id := "v", VulnerabilityID := vulnerabilityID }] },
    Statement := "", StatusNotes := "", KnownSince := "2024-01-01T00:00:00Z",
    Status := "NOT_AFFECTED", VexJustification := "" }

/-- The environment `plainEnv` with a legal lookup that fails for the node id
`R`. -/
def legalFailsEnv : Env :=
  { plainEnv with
    CertifyLegal := fun id => if id = "R" then .error "legal lookup failed" else .ok [] }

/-! ## Association lists -/

theorem lookupKey_assign {α : Type} (m : List (String × α)) (k k' : String) (v : α) :
    lookupKey (assign m k v) k' = if k = k' then some v else lookupKey m k' := by
  induction m with
  | nil => simp [assign, lookupKey]
  | cons e rest ih =>
    obtain ⟨k0, v0⟩ := e
    by_cases h0 : k0 = k
    · subst h0
      by_cases h1 : k0 = k' <;> simp [assign, lookupKey, h1]
    · by_cases h1 : k0 = k'
      · subst h1
        have : ¬ k = k0 := fun h => h0 h.symm
        simp [assign, lookupKey, h0, this]
      · simp [assign, lookupKey, h0, h1, ih]

theorem keysOf_assign {α : Type} (m : List (String × α)) (k : String) (v : α) :
    keysOf (assign m k v) = if k ∈ keysOf m then keysOf m else keysOf m ++ [k] := by
  induction m with
  | nil => simp [assign, keysOf]
  | cons e rest ih =>
    obtain ⟨k0, v0⟩ := e
    by_cases h0 : k0 = k
    · subst h0
      simp [assign, keysOf]
    · have h0' : ¬ k = k0 := fun h => h0 h.symm
      simp only [keysOf] at ih
      by_cases h1 : k ∈ List.map Prod.fst rest
      · simp [assign, keysOf, h0, h0', h1, ih]
      · simp [assign, keysOf, h0, h0', h1, ih]

theorem nodup_keysOf_assign {α : Type} (m : List (String × α)) (k : String) (v : α)
    (h : (keysOf m).Nodup) : (keysOf (assign m k v)).Nodup := by
  rw [keysOf_assign]
  split
  · exact h
  · rename_i hk
    exact List.Nodup.append h (List.nodup_singleton k) (by simpa using hk)

theorem lookupKey_eq_none_iff {α : Type} (m : List (String × α)) (k : String) :
    lookupKey m k = none ↔ k ∉ keysOf m := by
  induction m with
  | nil => simp [lookupKey, keysOf]
  | cons e rest ih =>
    obtain ⟨k0, v0⟩ := e
    simp only [keysOf] at ih
    by_cases h0 : k0 = k
    · simp [lookupKey, keysOf, h0]
    · have h0' : ¬ k = k0 := fun h => h0 h.symm
      simp [lookupKey, keysOf, h0, h0', ih]

theorem mem_of_lookupKey {α : Type} (m : List (String × α)) (k : String) (v : α)
    (h : lookupKey m k = some v) : (k, v) ∈ m := by
  induction m with
  | nil => simp [lookupKey] at h
  | cons e rest ih =>
    obtain ⟨k0, v0⟩ := e
    by_cases h0 : k0 = k
    · simp [lookupKey, h0] at h
      simp [h0, h]
    · simp [lookupKey, h0] at h
      exact List.mem_cons_of_mem _ (ih h)

theorem lookupKey_of_mem {α : Type} (m : List (String × α)) (k : String) (v : α)
    (hnd : (keysOf m).Nodup) (h : (k, v) ∈ m) : lookupKey m k = some v := by
  induction m with
  | nil => simp at h
  | cons e rest ih =>
    obtain ⟨k0, v0⟩ := e
    simp only [keysOf, List.map_cons, List.nodup_cons] at hnd
    rcases List.mem_cons.mp h with h | h
    · injection h with h1 h2
      simp [lookupKey, h1, h2]
    · have : k0 ≠ k := by
        intro h0
        apply hnd.1
        rw [h0]
        exact List.mem_map_of_mem Prod.fst h
      simp [lookupKey, this]
      exact ih hnd.2 h

theorem lookupKey_perm {α : Type} (m m' : List (String × α)) (k : String)
    (hnd : (keysOf m).Nodup) (hp : m'.Perm m) : lookupKey m' k = lookupKey m k := by
  have hnd' : (keysOf m').Nodup := (List.Perm.nodup_iff (hp.map Prod.fst)).mpr hnd
  cases h : lookupKey m k with
  | none =>
    rw [lookupKey_eq_none_iff] at h ⊢
    intro hk
    exact h ((hp.map Prod.fst).mem_iff.mp hk)
  | some v =>
    exact lookupKey_of_mem m' k v hnd' (hp.mem_iff.mpr (mem_of_lookupKey m k v h))

/-! ## `ParseMap` -/

theorem ParseMap.nested_obj (value : List (String × Value)) :
    ParseMap.nested (.obj value) = ParseMap value := by
  simp [ParseMap, ParseMap.nested]

theorem ParseMap.loop_cons (output : List (String × Value)) (key : String) (v : Value)
    (rest : List (String × Value)) :
    ParseMap.loop output ((key, v) :: rest) =
      if ParseMap.returns v then assign output key (ParseMap.stored v)
      else ParseMap.loop (assign output key (ParseMap.stored v)) rest := by
  cases v with
  | str s => simp [ParseMap.loop, ParseMap.returns, ParseMap.stored]
  | bool b => simp [ParseMap.loop, ParseMap.returns, ParseMap.stored]
  | arr items => simp [ParseMap.loop, ParseMap.returns, ParseMap.stored]
  | obj value =>
    by_cases h : (lookupKey value "0").isSome
    · simp [ParseMap.loop, ParseMap.returns, ParseMap.stored, h]
    · simp [ParseMap.loop, ParseMap.returns, ParseMap.stored, h, ParseMap.nested, ParseMap]

theorem ParseMap.lookupKey_loop (input : List (String × Value)) :
    ∀ (output : List (String × Value)) (key : String) (x : Value),
      lookupKey (ParseMap.loop output input) key = some x →
      lookupKey output key = some x ∨ ∃ v, (key, v) ∈ input ∧ x = ParseMap.stored v := by
  induction input with
  | nil => intro output key x h; left; simpa [ParseMap.loop] using h
  | cons e rest ih =>
    obtain ⟨k0, v0⟩ := e
    intro output key x h
    rw [ParseMap.loop_cons] at h
    have hstep : lookupKey (assign output k0 (ParseMap.stored v0)) key = some x →
        lookupKey output key = some x ∨
          ∃ v, (key, v) ∈ (k0, v0) :: rest ∧ x = ParseMap.stored v := by
      intro h1
      rw [lookupKey_assign] at h1
      by_cases hk : k0 = key
      · right
        refine ⟨v0, ?_, ?_⟩
        · simp [hk]
        · simpa [hk] using h1.symm
      · left; simpa [hk] using h1
    by_cases hr : ParseMap.returns v0
    · rw [if_pos hr] at h
      exact hstep h
    · rw [if_neg hr] at h
      rcases ih _ key x h with h1 | ⟨v, hv, hx⟩
      · exact hstep h1
      · right; exact ⟨v, List.mem_cons_of_mem _ hv, hx⟩

theorem ParseMap.lookupKey_loop_total (input : List (String × Value))
    (hnd : (keysOf input).Nodup)
    (hret : ∀ e ∈ input, ParseMap.returns e.2 = false) :
    ∀ (output : List (String × Value)) (key : String),
      lookupKey (ParseMap.loop output input) key =
        match lookupKey input key with
        | some v => some (ParseMap.stored v)
        | none => lookupKey output key := by
  induction input with
  | nil => intro output key; simp [ParseMap.loop, lookupKey]
  | cons e rest ih =>
    obtain ⟨k0, v0⟩ := e
    intro output key
    simp only [keysOf, List.map_cons, List.nodup_cons] at hnd
    have h0 : ParseMap.returns v0 = false := hret (k0, v0) (List.mem_cons_self _ _)
    rw [ParseMap.loop_cons, h0]
    simp only [Bool.false_eq_true, if_false]
    rw [ih hnd.2 (fun e he => hret e (List.mem_cons_of_mem _ he))]
    by_cases hk : k0 = key
    · subst hk
      have : lookupKey rest k0 = none := (lookupKey_eq_none_iff rest k0).mpr hnd.1
      simp [lookupKey, this, lookupKey_assign]
    · simp only [lookupKey, hk, if_false]
      cases lookupKey rest key with
      | some v => rfl
      | none => simp [lookupKey_assign, hk]

/-! ## Paths in a tree -/

theorem getPath_nil (v : Value) : getPath v [] = some v := by
  cases v <;> simp [getPath]

theorem getPath_obj_cons (es : List (String × Value)) (k : String) (ks : List String) :
    getPath (.obj es) (k :: ks) = (lookupKey es k).bind fun v => getPath v ks := by
  cases h : lookupKey es k <;> simp [getPath, h]

theorem getPath_str_cons (s : String) (k : String) (ks : List String) :
    getPath (.str s) (k :: ks) = none := by
  simp [getPath]

theorem getPath_bool_cons (b : Bool) (k : String) (ks : List String) :
    getPath (.bool b) (k :: ks) = none := by
  simp [getPath]

theorem getPath_arr_cons (xs : List Value) (k : String) (ks : List String) :
    getPath (.arr xs) (k :: ks) = none := by
  simp [getPath]

theorem getPath_append (q r : List String) :
    ∀ v : Value, getPath v (q ++ r) = (getPath v q).bind fun x => getPath x r := by
  induction q with
  | nil => intro v; simp [getPath_nil]
  | cons k ks ih =>
    intro v
    cases v with
    | str s => simp [getPath_str_cons]
    | bool b => simp [getPath_bool_cons]
    | arr xs => simp [getPath_arr_cons]
    | obj es =>
      simp only [List.cons_append, getPath_obj_cons]
      cases lookupKey es k with
      | none => rfl
      | some x => simp [ih]

theorem ParseSlsaAttestation.walk_cons_cons (m : List (String × Value)) (key k2 : String)
    (rest : List String) (value : String)
    (hsafe : ∀ x, lookupKey m key = some x → ∃ es, x = .obj es) :
    ParseSlsaAttestation.walk m (key :: k2 :: rest) value =
      (ParseSlsaAttestation.walk (ParseSlsaAttestation.child m key) (k2 :: rest) value).map
        fun sub => assign m key (.obj sub) := by
  cases h : lookupKey m key with
  | none => simp [ParseSlsaAttestation.walk, ParseSlsaAttestation.child, h]
  | some x =>
    obtain ⟨es, rfl⟩ := hsafe x h
    simp [ParseSlsaAttestation.walk, ParseSlsaAttestation.child, h]

theorem ParseSlsaAttestation.getPath_child (m : List (String × Value)) (key : String)
    (r : List String) (hr : r ≠ [])
    (hsafe : ∀ x, lookupKey m key = some x → ∃ es, x = .obj es) :
    getPath (.obj (ParseSlsaAttestation.child m key)) r = getPath (.obj m) (key :: r) := by
  rw [getPath_obj_cons]
  cases h : lookupKey m key with
  | none =>
    cases r with
    | nil => exact absurd rfl hr
    | cons a r => simp [ParseSlsaAttestation.child, h, getPath_obj_cons, lookupKey]
  | some x =>
    obtain ⟨es, rfl⟩ := hsafe x h
    simp [ParseSlsaAttestation.child, h]

theorem ParseSlsaAttestation.nodup_child (m : List (String × Value)) (key : String)
    (hnd : ∀ es, lookupKey m key = some (.obj es) → (keysOf es).Nodup) :
    (keysOf (ParseSlsaAttestation.child m key)).Nodup := by
  cases h : lookupKey m key with
  | none => simp [ParseSlsaAttestation.child, h, keysOf]
  | some x =>
    cases x with
    | obj es => simpa [ParseSlsaAttestation.child, h] using hnd es h
    | str s => simp [ParseSlsaAttestation.child, h, keysOf]
    | bool b => simp [ParseSlsaAttestation.child, h, keysOf]
    | arr xs => simp [ParseSlsaAttestation.child, h, keysOf]

theorem getPath_assign (m : List (String × Value)) (key a : String) (v : Value)
    (r : List String) :
    getPath (.obj (assign m key v)) (a :: r) =
      if key = a then getPath v r else getPath (.obj m) (a :: r) := by
  rw [getPath_obj_cons, lookupKey_assign]
  by_cases h : key = a
  · simp [h]
  · simp [h, getPath_obj_cons]

theorem ParseSlsaAttestation.walk_spec (keys : List String) (hne : keys ≠ [])
    (value : String) :
    ∀ m : List (String × Value),
      (∀ q, q ≠ [] → q <+: keys → q ≠ keys →
        ∀ x, getPath (.obj m) q = some x → ∃ es, x = .obj es) →
      (∀ q, q <+: keys → q ≠ keys →
        ∀ es, getPath (.obj m) q = some (.obj es) → (keysOf es).Nodup) →
      ∃ m', ParseSlsaAttestation.walk m keys value = some m' ∧
        getPath (.obj m') keys = some (.str value) ∧
        (∀ q, keys <+: q → q ≠ keys → getPath (.obj m') q = none) ∧
        (∀ q, q <+: keys → q ≠ keys →
          ∃ es, getPath (.obj m') q = some (.obj es) ∧ (keysOf es).Nodup) ∧
        (∀ q, ¬ keys <+: q → ¬ q <+: keys →
          getPath (.obj m') q = getPath (.obj m) q) := by
  induction keys with
  | nil => exact absurd rfl hne
  | cons key keys' ih =>
    intro m hsafe hnd
    have hroot : (keysOf m).Nodup :=
      hnd [] (List.nil_prefix) (by simp) m (getPath_nil _)
    cases keys' with
    | nil =>
      refine ⟨assign m key (.str value), by simp [ParseSlsaAttestation.walk], ?_, ?_, ?_, ?_⟩
      · simp [getPath_assign, getPath_nil]
      · intro q hq hqne
        obtain ⟨t, rfl⟩ := hq
        cases t with
        | nil => simp at hqne
        | cons a t => simp [getPath_assign, getPath_str_cons]
      · intro q hq hqne
        cases q with
        | nil => exact ⟨_, getPath_nil _, nodup_keysOf_assign m key _ hroot⟩
        | cons a q' =>
          rw [List.cons_prefix_cons, List.prefix_nil] at hq
          exact absurd (by rw [hq.1, hq.2]) hqne
      · intro q hq1 hq2
        cases q with
        | nil => exact absurd List.nil_prefix hq2
        | cons a q' =>
          have hka : ¬ key = a := by
            intro h
            apply hq1
            rw [h, List.cons_prefix_cons]
            exact ⟨rfl, List.nil_prefix⟩
          simp [getPath_assign, hka]
    | cons k2 rest =>
      have hsafe0 : ∀ x, lookupKey m key = some x → ∃ es, x = .obj es := by
        intro x hx
        apply hsafe [key] (by simp) (by simp [List.cons_prefix_cons]) (by simp) x
        simp [getPath_obj_cons, hx, getPath_nil]
      have hsafe' : ∀ q, q ≠ [] → q <+: k2 :: rest → q ≠ k2 :: rest →
          ∀ x, getPath (.obj (ParseSlsaAttestation.child m key)) q = some x →
            ∃ es, x = .obj es := by
        intro q hq0 hq hqne x hx
        rw [ParseSlsaAttestation.getPath_child m key q hq0 hsafe0] at hx
        exact hsafe (key :: q) (by simp) (by simpa [List.cons_prefix_cons] using hq)
          (by simpa using hqne) x hx
      have hnd' : ∀ q, q <+: k2 :: rest → q ≠ k2 :: rest →
          ∀ es, getPath (.obj (ParseSlsaAttestation.child m key)) q = some (.obj es) →
            (keysOf es).Nodup := by
        intro q hq hqne es hes
        by_cases hq0 : q = []
        · subst hq0
          rw [getPath_nil] at hes
          injection hes with hes
          injection hes with hes
          rw [← hes]
          apply ParseSlsaAttestation.nodup_child
          intro es' hes'
          apply hnd [key] (by simp [List.cons_prefix_cons]) (by simp) es'
          simp [getPath_obj_cons, hes', getPath_nil]
        · rw [ParseSlsaAttestation.getPath_child m key q hq0 hsafe0] at hes
          exact hnd (key :: q) (by simpa [List.cons_prefix_cons] using hq)
            (by simpa using hqne) es hes
      obtain ⟨sub, hw, h1, h2, h3, h4⟩ :=
        ih (by simp) (ParseSlsaAttestation.child m key) hsafe' hnd'
      refine ⟨assign m key (.obj sub), ?_, ?_, ?_, ?_, ?_⟩
      · rw [ParseSlsaAttestation.walk_cons_cons m key k2 rest value hsafe0, hw]
        rfl
      · simpa [getPath_assign] using h1
      · intro q hq hqne
        cases q with
        | nil => simp at hq
        | cons a r =>
          rw [List.cons_prefix_cons] at hq
          obtain ⟨rfl, hq⟩ := hq
          simpa [getPath_assign] using h2 r hq (by simpa using hqne)
      · intro q hq hqne
        cases q with
        | nil => exact ⟨_, getPath_nil _, nodup_keysOf_assign m key _ hroot⟩
        | cons a r =>
          rw [List.cons_prefix_cons] at hq
          obtain ⟨rfl, hq⟩ := hq
          simpa [getPath_assign] using h3 r hq (by simpa using hqne)
      · intro q hq1 hq2
        cases q with
        | nil => exact absurd List.nil_prefix hq2
        | cons a r =>
          by_cases hka : key = a
          · subst hka
            have hr1 : ¬ k2 :: rest <+: r := by
              intro h; apply hq1; rw [List.cons_prefix_cons]; exact ⟨rfl, h⟩
            have hr2 : ¬ r <+: k2 :: rest := by
              intro h; apply hq2; rw [List.cons_prefix_cons]; exact ⟨rfl, h⟩
            have hr0 : r ≠ [] := by
              intro h; apply hr2; rw [h]; exact List.nil_prefix
            rw [getPath_assign, if_pos rfl, h4 r hr1 hr2,
              ParseSlsaAttestation.getPath_child m key r hr0 hsafe0]
          · simp [getPath_assign, hka]

theorem BuiltFrom.empty : BuiltFrom [] [] := by
  refine ⟨?_, ?_, ?_⟩
  · intro q w
    cases q with
    | nil => simp [getPath_nil]
    | cons a r => simp [getPath_obj_cons, lookupKey]
  · intro q x h
    cases q with
    | nil => left; rfl
    | cons a r => simp [getPath_obj_cons, lookupKey] at h
  · intro q x h
    cases q with
    | nil =>
      rw [getPath_nil] at h
      injection h with h
      right; exact ⟨[], h.symm, by simp [keysOf]⟩
    | cons a r => simp [getPath_obj_cons, lookupKey] at h

theorem BuiltFrom.walk (m : List (String × Value)) (leaves : List (List String × String))
    (p : List String) (v : String) (hm : BuiltFrom m leaves) (hp : p ≠ [])
    (hfree : ∀ e ∈ leaves, ¬ e.1 <+: p ∧ ¬ p <+: e.1) :
    ∃ m', ParseSlsaAttestation.walk m p v = some m' ∧ BuiltFrom m' (leaves ++ [(p, v)]) := by
  obtain ⟨ha, hb, hc⟩ := hm
  have hsafe : ∀ q, q ≠ [] → q <+: p → q ≠ p →
      ∀ x, getPath (.obj m) q = some x → ∃ es, x = .obj es := by
    intro q _ hq _ x hx
    rcases hc q x hx with ⟨w, rfl⟩ | ⟨es, rfl, _⟩
    · exact absurd hq (hfree (q, w) ((ha q w).mp hx)).1
    · exact ⟨es, rfl⟩
  have hnd : ∀ q, q <+: p → q ≠ p →
      ∀ es, getPath (.obj m) q = some (.obj es) → (keysOf es).Nodup := by
    intro q _ _ es hes
    rcases hc q _ hes with ⟨w, hw⟩ | ⟨es', he, hn⟩
    · cases hw
    · injection he with he
      rw [he]; exact hn
  obtain ⟨m', hw, h1, h2, h3, h4⟩ := ParseSlsaAttestation.walk_spec p hp v m hsafe hnd
  refine ⟨m', hw, ?_, ?_, ?_⟩
  · intro q w
    constructor
    · intro h
      by_cases hqp : q = p
      · subst hqp
        rw [h1] at h
        injection h with h
        injection h with h
        simp [h]
      · by_cases hpq : p <+: q
        · rw [h2 q hpq hqp] at h; cases h
        · by_cases hqp' : q <+: p
          · obtain ⟨es, he, _⟩ := h3 q hqp' hqp
            rw [he] at h; cases h
          · rw [h4 q hpq hqp'] at h
            exact List.mem_append_left _ ((ha q w).mp h)
    · intro h
      rcases List.mem_append.mp h with h | h
      · have := hfree (q, w) h
        rw [h4 q this.2 this.1]
        exact (ha q w).mpr h
      · simp only [List.mem_singleton, Prod.mk.injEq] at h
        rw [h.1, h.2]; exact h1
  · intro q x h
    by_cases hqp' : q <+: p
    · right; exact ⟨(p, v), by simp, hqp'⟩
    · by_cases hpq : p <+: q
      · have hqp : q ≠ p := fun e => hqp' (e ▸ List.prefix_refl q)
        rw [h2 q hpq hqp] at h; cases h
      · rw [h4 q hpq hqp'] at h
        rcases hb q x h with h0 | ⟨e, he, hq⟩
        · left; exact h0
        · right; exact ⟨e, List.mem_append_left _ he, hq⟩
  · intro q x h
    by_cases hqp : q = p
    · subst hqp
      rw [h1] at h
      injection h with h
      left; exact ⟨v, h.symm⟩
    · by_cases hpq : p <+: q
      · rw [h2 q hpq hqp] at h; cases h
      · by_cases hqp' : q <+: p
        · obtain ⟨es, he, hn⟩ := h3 q hqp' hqp
          rw [he] at h
          injection h with h
          right; exact ⟨es, h.symm, hn⟩
        · rw [h4 q hpq hqp'] at h
          exact hc q x h

theorem splitDot_ne_nil (cs : List Char) : splitDot cs ≠ [] := by
  cases cs with
  | nil => simp [splitDot]
  | cons c cs =>
    simp only [splitDot]
    split
    · simp
    · split <;> simp

theorem Split_ne_nil (key : String) : Split key ≠ [] := by
  simp [Split, splitDot_ne_nil]

theorem BuiltFrom.keyPathLoop (items : List SLSAPredicate) :
    ∀ (m : List (String × Value)) (leaves : List (List String × String)),
      BuiltFrom m leaves →
      (leaves.map Prod.fst ++ items.map fun it => Split it.Key).Pairwise
        (fun p q => ¬ p <+: q ∧ ¬ q <+: p) →
      ∃ m', ParseSlsaAttestation.keyPathLoop m items = some m' ∧
        BuiltFrom m' (leaves ++ items.map fun it => (Split it.Key, it.Value)) := by
  induction items with
  | nil => intro m leaves hm _; exact ⟨m, rfl, by simpa using hm⟩
  | cons it rest ih =>
    intro m leaves hm hpw
    have hfree : ∀ e ∈ leaves, ¬ e.1 <+: Split it.Key ∧ ¬ Split it.Key <+: e.1 := by
      intro e he
      rw [List.pairwise_append] at hpw
      exact hpw.2.2 e.1 (List.mem_map_of_mem Prod.fst he) (Split it.Key) (by simp)
    obtain ⟨m1, hw, hm1⟩ := BuiltFrom.walk m leaves (Split it.Key) it.Value hm (Split_ne_nil _) hfree
    have hpw' : ((leaves ++ [(Split it.Key, it.Value)]).map Prod.fst ++
        rest.map fun it => Split it.Key).Pairwise (fun p q => ¬ p <+: q ∧ ¬ q <+: p) := by
      simpa using hpw
    obtain ⟨m', hl, hm'⟩ := ih m1 _ hm1 hpw'
    refine ⟨m', ?_, ?_⟩
    · simp [ParseSlsaAttestation.keyPathLoop, hw, hl]
    · simpa using hm'

/-! ## The visiting order and `ParseMap` on a tree without the key `"0"` -/

theorem keysOf_rangeOrderEntries
    (ord : List String → List (String × Value) → List (String × Value))
    (path : List String) (es : List (String × Value)) :
    keysOf (rangeOrderEntries ord path es) = keysOf es := by
  induction es with
  | nil => simp [rangeOrderEntries, keysOf]
  | cons e rest ih =>
    obtain ⟨k, v⟩ := e
    simp only [keysOf] at ih
    simp [rangeOrderEntries, keysOf, ih]

theorem lookupKey_rangeOrderEntries
    (ord : List String → List (String × Value) → List (String × Value))
    (path : List String) (es : List (String × Value)) (k : String) :
    lookupKey (rangeOrderEntries ord path es) k =
      (lookupKey es k).map (rangeOrder ord (path ++ [k])) := by
  induction es with
  | nil => simp [rangeOrderEntries, lookupKey]
  | cons e rest ih =>
    obtain ⟨k0, v⟩ := e
    by_cases h : k0 = k
    · subst h
      simp [rangeOrderEntries, lookupKey]
    · simp [rangeOrderEntries, lookupKey, h, ih]

theorem mem_rangeOrderEntries
    (ord : List String → List (String × Value) → List (String × Value))
    (path : List String) (es : List (String × Value)) (e : String × Value)
    (he : e ∈ rangeOrderEntries ord path es) :
    ∃ v, (e.1, v) ∈ es ∧ e.2 = rangeOrder ord (path ++ [e.1]) v := by
  induction es with
  | nil => simp [rangeOrderEntries] at he
  | cons e0 rest ih =>
    obtain ⟨k0, v0⟩ := e0
    simp only [rangeOrderEntries, List.mem_cons] at he
    rcases he with he | he
    · subst he
      exact ⟨v0, by simp, rfl⟩
    · obtain ⟨v, hv, h2⟩ := ih he
      exact ⟨v, List.mem_cons_of_mem _ hv, h2⟩

theorem lookupKey_visited
    (ord : List String → List (String × Value) → List (String × Value))
    (hord : ∀ path l, (ord path l).Perm l) (path : List String)
    (es : List (String × Value)) (hnd : (keysOf es).Nodup) (k : String) :
    lookupKey (ord path (rangeOrderEntries ord path es)) k =
      (lookupKey es k).map (rangeOrder ord (path ++ [k])) := by
  rw [lookupKey_perm (rangeOrderEntries ord path es) _ k
    (by rw [keysOf_rangeOrderEntries]; exact hnd) (hord _ _)]
  exact lookupKey_rangeOrderEntries ord path es k

theorem ParseMap.returns_rangeOrder
    (ord : List String → List (String × Value) → List (String × Value))
    (hord : ∀ path l, (ord path l).Perm l) (path : List String) (v : Value)
    (hv : ∀ es, v = .obj es → (keysOf es).Nodup ∧ lookupKey es "0" = none) :
    ParseMap.returns (rangeOrder ord path v) = false := by
  cases v with
  | str s => simp [rangeOrder, ParseMap.returns]
  | bool b => simp [rangeOrder, ParseMap.returns]
  | arr xs => simp [rangeOrder, ParseMap.returns]
  | obj es =>
    obtain ⟨hnd, h0⟩ := hv es rfl
    simp [rangeOrder, ParseMap.returns, lookupKey_visited ord hord path es hnd, h0]

theorem getPath_stored_rangeOrder
    (ord : List String → List (String × Value) → List (String × Value))
    (hord : ∀ path l, (ord path l).Perm l) (q : List String) :
    ∀ (path : List String) (v : Value),
      (∀ r es, getPath v r = some (.obj es) →
        (keysOf es).Nodup ∧ lookupKey es "0" = none) →
      getPath (ParseMap.stored (rangeOrder ord path v)) q =
        (getPath v q).map fun x => ParseMap.stored (rangeOrder ord (path ++ q) x) := by
  induction q with
  | nil => intro path v _; simp [getPath_nil]
  | cons k ks ih =>
    intro path v hv
    cases v with
    | str s => simp [rangeOrder, ParseMap.stored, getPath_str_cons]
    | bool b => simp [rangeOrder, ParseMap.stored, getPath_bool_cons]
    | arr xs => simp [rangeOrder, ParseMap.stored, getPath_arr_cons]
    | obj es =>
      obtain ⟨hnd, h0⟩ := hv [] es (getPath_nil _)
      have hL : (keysOf (ord path (rangeOrderEntries ord path es))).Nodup := by
        rw [keysOf, List.Perm.nodup_iff ((hord _ _).map Prod.fst)]
        have := keysOf_rangeOrderEntries ord path es
        rw [keysOf] at this
        rw [this]; exact hnd
      have hret : ∀ e ∈ ord path (rangeOrderEntries ord path es),
          ParseMap.returns e.2 = false := by
        intro e he
        obtain ⟨v', hv', h2⟩ :=
          mem_rangeOrderEntries ord path es e ((hord _ _).mem_iff.mp he)
        rw [h2]
        apply ParseMap.returns_rangeOrder ord hord
        intro es' hes'
        apply hv [e.1] es'
        rw [getPath_obj_cons, lookupKey_of_mem es e.1 v' hnd hv', hes']
        simp [getPath_nil]
      have hstored : ParseMap.stored (rangeOrder ord path (.obj es)) =
          .obj (ParseMap (ord path (rangeOrderEntries ord path es))) := by
        simp [rangeOrder, ParseMap.stored, lookupKey_visited ord hord path es hnd, h0]
      rw [hstored, getPath_obj_cons, getPath_obj_cons, ParseMap,
        ParseMap.lookupKey_loop_total _ hL hret, lookupKey_visited ord hord path es hnd]
      cases hk : lookupKey es k with
      | none => simp [lookupKey]
      | some v' =>
        simp only [Option.map_some', Option.some_bind]
        have hpath : path ++ k :: ks = (path ++ [k]) ++ ks := by simp
        rw [hpath]
        apply ih
        intro r es' hes'
        apply hv (k :: r) es'
        rw [getPath_obj_cons, hk]
        exact hes'

/-! ## The tree of a flat input without the segment `"0"` -/

theorem ParseMap.stored_rangeOrder_eq_str
    (ord : List String → List (String × Value) → List (String × Value))
    (path : List String) (x : Value) (w : String)
    (hx : (∃ s, x = .str s) ∨ ∃ es, x = .obj es ∧ (keysOf es).Nodup) :
    ParseMap.stored (rangeOrder ord path x) = .str w ↔ x = .str w := by
  rcases hx with ⟨s, rfl⟩ | ⟨es, rfl, _⟩
  · simp [rangeOrder, ParseMap.stored]
  · simp only [rangeOrder, ParseMap.stored]
    split <;> simp

theorem ParseSlsaAttestation.resultPred_tree
    (ord : List String → List (String × Value) → List (String × Value))
    (hord : ∀ path m, (ord path m).Perm m) (items : List SLSAPredicate)
    (hdistinct : (items.map fun it => Split it.Key).Nodup)
    (hstrict : ∀ p ∈ items.map (fun it => Split it.Key),
      ∀ q ∈ items.map (fun it => Split it.Key), p <+: q → p = q)
    (hzero : ∀ p ∈ items.map (fun it => Split it.Key), "0" ∉ p) :
    ∃ m, ParseSlsaAttestation.resultPred ord items = some m ∧
      (∀ q w, getPath (.obj m) q = some (.str w) ↔
        ∃ it ∈ items, Split it.Key = q ∧ it.Value = w) ∧
      (∀ q x, getPath (.obj m) q = some x →
        q = [] ∨ ∃ it ∈ items, q <+: Split it.Key) ∧
      (∀ q x, getPath (.obj m) q = some x → (∃ w, x = .str w) ∨ ∃ es, x = .obj es) := by
  have hpw : ((([] : List (List String × String)).map Prod.fst) ++
      items.map fun it => Split it.Key).Pairwise (fun p q => ¬ p <+: q ∧ ¬ q <+: p) := by
    simp only [List.map_nil, List.nil_append]
    have h := List.Pairwise.and_mem.mp hdistinct
    refine h.imp ?_
    intro p q ⟨hp, hq, hne⟩
    exact ⟨fun h => hne (hstrict p hp q hq h), fun h => hne (hstrict q hq p hp h).symm⟩
  obtain ⟨m, hloop, ha, hb, hc⟩ := BuiltFrom.keyPathLoop items [] [] BuiltFrom.empty hpw
  simp only [List.nil_append] at ha hb
  have hmem : ∀ e : List String × String,
      e ∈ items.map (fun it => (Split it.Key, it.Value)) ↔
        ∃ it ∈ items, Split it.Key = e.1 ∧ it.Value = e.2 := by
    intro e
    simp only [List.mem_map]
    constructor
    · rintro ⟨it, hit, rfl⟩; exact ⟨it, hit, rfl, rfl⟩
    · rintro ⟨it, hit, h1, h2⟩; exact ⟨it, hit, by rw [h1, h2]⟩
  have htree : ∀ r es, getPath (.obj m) r = some (.obj es) →
      (keysOf es).Nodup ∧ lookupKey es "0" = none := by
    intro r es hes
    constructor
    · rcases hc r _ hes with ⟨w, hw⟩ | ⟨es', he, hn⟩
      · cases hw
      · injection he with he; rw [he]; exact hn
    · cases h0 : lookupKey es "0" with
      | none => rfl
      | some x =>
        exfalso
        have hx : getPath (.obj m) (r ++ ["0"]) = some x := by
          rw [getPath_append, hes]
          simp [getPath_obj_cons, h0, getPath_nil]
        rcases hb _ x hx with h | ⟨e, he, hpre⟩
        · simp at h
        · obtain ⟨it, hit, h1, _⟩ := (hmem e).mp he
          apply hzero (Split it.Key) (List.mem_map_of_mem _ hit)
          rw [h1]
          exact hpre.subset (by simp)
  have hpost := fun q => getPath_stored_rangeOrder ord hord q [] (.obj m) htree
  have hroot : ParseMap.stored (rangeOrder ord [] (.obj m)) =
      .obj (ParseMap (ord [] (rangeOrderEntries ord [] m))) := by
    obtain ⟨hnd, h0⟩ := htree [] m (getPath_nil _)
    simp [rangeOrder, ParseMap.stored, lookupKey_visited ord hord [] m hnd, h0]
  rw [hroot] at hpost
  simp only [List.nil_append] at hpost
  refine ⟨ParseMap (ord [] (rangeOrderEntries ord [] m)),
    by simp [ParseSlsaAttestation.resultPred, hloop], ?_, ?_, ?_⟩
  · intro q w
    rw [hpost q]
    constructor
    · intro h
      cases hx : getPath (.obj m) q with
      | none => rw [hx] at h; cases h
      | some x =>
        rw [hx] at h
        simp only [Option.map_some', Option.some.injEq] at h
        rw [ParseMap.stored_rangeOrder_eq_str ord q x w (hc q x hx)] at h
        rw [h] at hx
        exact (hmem (q, w)).mp ((ha q w).mp hx)
    · intro h
      rw [(ha q w).mpr ((hmem (q, w)).mpr h)]
      simp [rangeOrder, ParseMap.stored]
  · intro q x h
    rw [hpost q] at h
    cases hx : getPath (.obj m) q with
    | none => rw [hx] at h; cases h
    | some x0 =>
      rcases hb q x0 hx with h0 | ⟨e, he, hpre⟩
      · left; exact h0
      · right
        obtain ⟨it, hit, h1, _⟩ := (hmem e).mp he
        exact ⟨it, hit, by rw [h1]; exact hpre⟩
  · intro q x h
    rw [hpost q] at h
    cases hx : getPath (.obj m) q with
    | none => rw [hx] at h; cases h
    | some x0 =>
      rw [hx] at h
      simp only [Option.map_some', Option.some.injEq] at h
      rcases hc q x0 hx with ⟨w, rfl⟩ | ⟨es, rfl, _⟩
      · left
        exact ⟨w, by rw [← h]; simp [rangeOrder, ParseMap.stored]⟩
      · right
        obtain ⟨hnd, h0⟩ := htree q es hx
        exact ⟨ParseMap (ord q (rangeOrderEntries ord q es)), by
          rw [← h]
          simp [rangeOrder, ParseMap.stored, lookupKey_visited ord hord q es hnd, h0]⟩

/-! ## The reconstruction of the predicate tree: claims C1, C2, C3 -/

/-- C1 (the code departs from it): on the flat input `{"a.0"->"x", "a.1"->"y"}`
the reconstruction yields `{"a": ["x","y"]}` when the `range` of
`convertSlice` visits the key `"0"` first, and `{"a": ["y","x"]}` when it
visits the key `"1"` first: the position of an element is the moment of its
visit, not its numeric key. -/
theorem resultPred_slice_in_visit_order :
    ParseSlsaAttestation.resultPred (fun _ m => m) [⟨"a.0", "x"⟩, ⟨"a.1", "y"⟩] =
        some [("a", .arr [.str "x", .str "y"])] ∧
      ParseSlsaAttestation.resultPred (fun _ => List.reverse) [⟨"a.0", "x"⟩, ⟨"a.1", "y"⟩] =
        some [("a", .arr [.str "y", .str "x"])] :=
  ⟨rfl, rfl⟩

/-- C2: for a flat input whose key paths are pairwise distinct, none a prefix
of another, and without the segment `"0"`, the key-path loop does not panic,
and the tree after `ParseMap`, whatever the order of each map visit, has a
leaf `w` at path `q` exactly when the input has the pair `q -> w`, every node
of it lying on the path of an input pair; and `{"a.b"->"1"}` gives
`{"a":{"b":"1"}}`. -/
theorem resultPred_leaves_exact
    (ord : List String → List (String × Value) → List (String × Value))
    (hord : ∀ path m, (ord path m).Perm m) (items : List SLSAPredicate)
    (hdistinct : (items.map fun it => Split it.Key).Nodup)
    (hstrict : ∀ p ∈ items.map (fun it => Split it.Key),
      ∀ q ∈ items.map (fun it => Split it.Key), p <+: q → p = q)
    (hzero : ∀ p ∈ items.map (fun it => Split it.Key), "0" ∉ p) :
    (∃ m, ParseSlsaAttestation.resultPred ord items = some m ∧
      (∀ q w, getPath (.obj m) q = some (.str w) ↔
        ∃ it ∈ items, Split it.Key = q ∧ it.Value = w) ∧
      (∀ q x, getPath (.obj m) q = some x →
        q = [] ∨ ∃ it ∈ items, q <+: Split it.Key)) ∧
    ParseSlsaAttestation.resultPred ord [⟨"a.b", "1"⟩] =
      some [("a", .obj [("b", .str "1")])] := by
  constructor
  · obtain ⟨m, hm, h1, h2, _⟩ :=
      ParseSlsaAttestation.resultPred_tree ord hord items hdistinct hstrict hzero
    exact ⟨m, hm, h1, h2⟩
  · have h1 : ord ["a"] [("b", Value.str "1")] = [("b", Value.str "1")] :=
      List.perm_singleton.mp (hord _ _)
    have h2 : ord [] [("a", Value.obj [("b", Value.str "1")])] =
        [("a", Value.obj [("b", Value.str "1")])] :=
      List.perm_singleton.mp (hord _ _)
    have h3 : ParseSlsaAttestation.keyPathLoop [] [⟨"a.b", "1"⟩] =
        some [("a", .obj [("b", .str "1")])] := rfl
    simp only [ParseSlsaAttestation.resultPred, h3, Option.map_some', rangeOrderEntries,
      rangeOrder, List.nil_append, h1, h2]
    rfl

/-- C2, at the input `{"a.b"->"1", "a.c"->"2", "d"->"3"}` with the maps
visited back to front. -/
theorem resultPred_leaves_exact_witness :
    (∃ m, ParseSlsaAttestation.resultPred (fun _ => List.reverse)
        [⟨"a.b", "1"⟩, ⟨"a.c", "2"⟩, ⟨"d", "3"⟩] = some m ∧
      (∀ q w, getPath (.obj m) q = some (.str w) ↔
        ∃ it ∈ ([⟨"a.b", "1"⟩, ⟨"a.c", "2"⟩, ⟨"d", "3"⟩] : List SLSAPredicate),
          Split it.Key = q ∧ it.Value = w) ∧
      (∀ q x, getPath (.obj m) q = some x →
        q = [] ∨ ∃ it ∈ ([⟨"a.b", "1"⟩, ⟨"a.c", "2"⟩, ⟨"d", "3"⟩] : List SLSAPredicate),
          q <+: Split it.Key)) :=
  (resultPred_leaves_exact (fun _ => List.reverse) (fun _ m => List.reverse_perm m)
    [⟨"a.b", "1"⟩, ⟨"a.c", "2"⟩, ⟨"d", "3"⟩] (by decide) (by decide) (by decide)).1

/-- C3 (as stated it fails): the map with the keys `"0"` and `"x"`, which are
not the range `"0", "1"`, is replaced by a list. -/
theorem ParseMap_zero_x_becomes_list :
    keysOf [("0", Value.str "p"), ("x", Value.str "q")] = ["0", "x"] ∧
      ParseMap [("a", .obj [("0", .str "p"), ("x", .str "q")])] =
        [("a", .arr [.str "p", .str "q"])] :=
  ⟨rfl, rfl⟩

/-- C3 (amended): for an entry of the input of `ParseMap` whose value is a
map, if the output has the key of the entry, then what it holds there is a
list exactly when the map has the key `"0"`: then the list `convertSlice`
makes of the map, and otherwise the map `ParseMap` makes of it. -/
theorem ParseMap_list_iff_zero_key (input : List (String × Value))
    (hnd : (keysOf input).Nodup) (key : String) (value : List (String × Value))
    (hmem : (key, Value.obj value) ∈ input) (out : Value)
    (hout : lookupKey (ParseMap input) key = some out) :
    ((∃ items, out = .arr items) ↔ (lookupKey value "0").isSome) ∧
      ((lookupKey value "0").isSome → out = .arr (convertSlice value)) ∧
      (¬ (lookupKey value "0").isSome → out = .obj (ParseMap value)) := by
  rcases ParseMap.lookupKey_loop input [] key out hout with h | ⟨v, hv, hx⟩
  · simp [lookupKey] at h
  · have h1 := lookupKey_of_mem input key v hnd hv
    have h2 := lookupKey_of_mem input key _ hnd hmem
    rw [h1] at h2
    injection h2 with h2
    subst h2
    by_cases h0 : (lookupKey value "0").isSome
    · simp [hx, ParseMap.stored, h0]
    · simp [hx, ParseMap.stored, h0]

/-- C3 (amended), at the input `{"a": {"0": "p", "x": "q"}}`. -/
theorem ParseMap_list_iff_zero_key_witness :
    ((∃ items, Value.arr [.str "p", .str "q"] = .arr items) ↔
        (lookupKey [("0", Value.str "p"), ("x", Value.str "q")] "0").isSome) ∧
      ((lookupKey [("0", Value.str "p"), ("x", Value.str "q")] "0").isSome →
        Value.arr [.str "p", .str "q"] =
          .arr (convertSlice [("0", Value.str "p"), ("x", Value.str "q")])) ∧
      (¬ (lookupKey [("0", Value.str "p"), ("x", Value.str "q")] "0").isSome →
        Value.arr [.str "p", .str "q"] =
          .obj (ParseMap [("0", Value.str "p"), ("x", Value.str "q")])) :=
  ParseMap_list_iff_zero_key [("a", .obj [("0", .str "p"), ("x", .str "q")])]
    (by decide) "a" [("0", .str "p"), ("x", .str "q")] (by simp) (.arr [.str "p", .str "q"]) rfl

/-! ## The reconstruction of the predicate tree: claims C13, C14, C15, C18, C20 -/

theorem LeavesIn.of_empty_tree : LeavesIn [] [] := by
  constructor
  · intro q w h
    cases q with
    | nil => simp [getPath_nil] at h
    | cons a r => simp [getPath_obj_cons, lookupKey] at h
  · intro q x h
    cases q with
    | nil =>
      rw [getPath_nil] at h
      injection h with h
      right; exact ⟨[], h.symm, by simp [keysOf]⟩
    | cons a r => simp [getPath_obj_cons, lookupKey] at h

theorem LeavesIn.walk_total (m : List (String × Value)) (paths : List (List String))
    (p : List String) (v : String) (hm : LeavesIn m paths) (hp : p ≠ [])
    (hfree : ∀ q ∈ paths, q <+: p → q = p) :
    ∃ m', ParseSlsaAttestation.walk m p v = some m' ∧ LeavesIn m' (paths ++ [p]) := by
  obtain ⟨ha, hc⟩ := hm
  have hsafe : ∀ q, q ≠ [] → q <+: p → q ≠ p →
      ∀ x, getPath (.obj m) q = some x → ∃ es, x = .obj es := by
    intro q _ hq hne x hx
    rcases hc q x hx with ⟨w, rfl⟩ | ⟨es, rfl, _⟩
    · exact absurd (hfree q (ha q w hx) hq) hne
    · exact ⟨es, rfl⟩
  have hnd : ∀ q, q <+: p → q ≠ p →
      ∀ es, getPath (.obj m) q = some (.obj es) → (keysOf es).Nodup := by
    intro q _ _ es hes
    rcases hc q _ hes with ⟨w, hw⟩ | ⟨es', he, hn⟩
    · cases hw
    · injection he with he
      rw [he]; exact hn
  obtain ⟨m', hw, h1, h2, h3, h4⟩ := ParseSlsaAttestation.walk_spec p hp v m hsafe hnd
  refine ⟨m', hw, ?_, ?_⟩
  · intro q w h
    by_cases hqp : q = p
    · simp [hqp]
    · by_cases hpq : p <+: q
      · rw [h2 q hpq hqp] at h; cases h
      · by_cases hqp' : q <+: p
        · obtain ⟨es, he, _⟩ := h3 q hqp' hqp
          rw [he] at h; cases h
        · rw [h4 q hpq hqp'] at h
          exact List.mem_append_left _ (ha q w h)
  · intro q x h
    by_cases hqp : q = p
    · subst hqp
      rw [h1] at h
      injection h with h
      left; exact ⟨v, h.symm⟩
    · by_cases hpq : p <+: q
      · rw [h2 q hpq hqp] at h; cases h
      · by_cases hqp' : q <+: p
        · obtain ⟨es, he, hn⟩ := h3 q hqp' hqp
          rw [he] at h
          injection h with h
          right; exact ⟨es, h.symm, hn⟩
        · rw [h4 q hpq hqp'] at h
          exact hc q x h

theorem LeavesIn.keyPathLoop_total (items : List SLSAPredicate) :
    ∀ (m : List (String × Value)) (paths : List (List String)),
      LeavesIn m paths →
      (∀ p ∈ paths ++ items.map (fun it => Split it.Key),
        ∀ q ∈ paths ++ items.map (fun it => Split it.Key), p <+: q → p = q) →
      ∃ m', ParseSlsaAttestation.keyPathLoop m items = some m' := by
  induction items with
  | nil => intro m paths _ _; exact ⟨m, rfl⟩
  | cons it rest ih =>
    intro m paths hm hfree
    obtain ⟨m1, hw, hm1⟩ := LeavesIn.walk_total m paths (Split it.Key) it.Value hm
      (Split_ne_nil _)
      (fun q hq => hfree q (List.mem_append_left _ hq) (Split it.Key) (by simp))
    obtain ⟨m', hl⟩ := ih m1 (paths ++ [Split it.Key]) hm1 (by simpa using hfree)
    exact ⟨m', by simp [ParseSlsaAttestation.keyPathLoop, hw, hl]⟩

/-- C20: when no key path of the flat input is a strict prefix of another, the
key-path loop builds a tree without a panic of its type assertion, and
`ParseSlsaAttestation` does not panic; and the input `{"a"->"1", "a.b"->"2"}`,
where `a` is a strict prefix of `a.b`, makes the type assertion fail. -/
theorem keyPathLoop_total_iff_guarded (env : Env) (slsa : HasSLSA) (pkgPurl : String)
    (hstrict : ∀ p ∈ slsa.Slsa.SlsaPredicate.map (fun it => Split it.Key),
      ∀ q ∈ slsa.Slsa.SlsaPredicate.map (fun it => Split it.Key), p <+: q → p = q) :
    (∃ m, ParseSlsaAttestation.keyPathLoop [] slsa.Slsa.SlsaPredicate = some m) ∧
      ParseSlsaAttestation env slsa pkgPurl ≠ .error .panic ∧
      ParseSlsaAttestation.keyPathLoop [] [⟨"a", "1"⟩, ⟨"a.b", "2"⟩] = none := by
  obtain ⟨m, hm⟩ := LeavesIn.keyPathLoop_total slsa.Slsa.SlsaPredicate [] [] LeavesIn.of_empty_tree
    (by simpa using hstrict)
  refine ⟨⟨m, hm⟩, ?_, rfl⟩
  unfold ParseSlsaAttestation
  simp only [ParseSlsaAttestation.resultPred, hm, Option.map_some', bind, Except.bind, pure,
    Except.pure]
  split
  · simp [throw, throwThe, MonadExceptOf.throw]
  · simp

/-- C20, at the flat input `{"a.b"->"1", "a.b"->"2", "a.c.0"->"3"}`. -/
theorem keyPathLoop_total_iff_guarded_witness :
    (∃ m, ParseSlsaAttestation.keyPathLoop []
        [⟨"a.b", "1"⟩, ⟨"a.b", "2"⟩, ⟨"a.c.0", "3"⟩] = some m) ∧
      ParseSlsaAttestation plainEnv
        { Subject := { Id := "A", Algorithm := "sha256", Digest := "abc" },
          Slsa := { SlsaPredicate := [⟨"a.b", "1"⟩, ⟨"a.b", "2"⟩, ⟨"a.c.0", "3"⟩],
                    SlsaVersion := "https://slsa.dev/provenance/v1" } }
        "pkg:test/a@1" ≠ .error .panic ∧
      ParseSlsaAttestation.keyPathLoop [] [⟨"a", "1"⟩, ⟨"a.b", "2"⟩] = none :=
  keyPathLoop_total_iff_guarded plainEnv
    { Subject := { Id := "A", Algorithm := "sha256", Digest := "abc" },
      Slsa := { SlsaPredicate := [⟨"a.b", "1"⟩, ⟨"a.b", "2"⟩, ⟨"a.c.0", "3"⟩],
                SlsaVersion := "https://slsa.dev/provenance/v1" } }
    "pkg:test/a@1" (by decide)

theorem map_node_iff_above_leaf (items : List SLSAPredicate) (m : List (String × Value))
    (ha : ∀ q w, getPath (.obj m) q = some (.str w) ↔
      ∃ it ∈ items, Split it.Key = q ∧ it.Value = w)
    (hb : ∀ q x, getPath (.obj m) q = some x → q = [] ∨ ∃ it ∈ items, q <+: Split it.Key)
    (hc : ∀ q x, getPath (.obj m) q = some x → (∃ w, x = .str w) ∨ ∃ es, x = .obj es)
    (q : List String) :
    (∃ es, getPath (.obj m) q = some (.obj es)) ↔
      q = [] ∨ ∃ it ∈ items, q <+: Split it.Key ∧ q ≠ Split it.Key := by
  constructor
  · rintro ⟨es, hes⟩
    rcases hb q _ hes with h | ⟨it, hit, hpre⟩
    · left; exact h
    · right
      refine ⟨it, hit, hpre, ?_⟩
      intro heq
      have := (ha q it.Value).mpr ⟨it, hit, heq.symm, rfl⟩
      rw [hes] at this
      cases this
  · rintro (rfl | ⟨it, hit, ⟨r, hr⟩, hne⟩)
    · exact ⟨m, getPath_nil _⟩
    · have hleaf := (ha (Split it.Key) it.Value).mpr ⟨it, hit, rfl, rfl⟩
      rw [← hr, getPath_append] at hleaf
      cases hq : getPath (.obj m) q with
      | none => rw [hq] at hleaf; cases hleaf
      | some x =>
        rw [hq] at hleaf
        rcases hc q x hq with ⟨w, rfl⟩ | ⟨es, rfl⟩
        · cases r with
          | nil => exact absurd (by simpa using hr) hne
          | cons a r => simp [getPath_str_cons] at hleaf
        · exact ⟨es, rfl⟩

/-- C13 (as stated it fails): the two orders of `{"a"->"1", "a.b"->"2"}` give a
panic and the tree `{"a": "1"}`; the two orders of the pairs `"a"->"1"` and
`"a"->"2"` give `{"a": "2"}` and `{"a": "1"}`; and with maps visited in the
order of their filling, the two orders of `{"a.0"->"x", "a.1"->"y"}` give
`{"a": ["x","y"]}` and `{"a": ["y","x"]}`. -/
theorem reconstruction_depends_on_input_order :
    ([⟨"a.b", "2"⟩, ⟨"a", "1"⟩] : List SLSAPredicate).Perm [⟨"a", "1"⟩, ⟨"a.b", "2"⟩] ∧
      ParseSlsaAttestation.resultPred (fun _ m => m) [⟨"a", "1"⟩, ⟨"a.b", "2"⟩] = none ∧
      ParseSlsaAttestation.resultPred (fun _ m => m) [⟨"a.b", "2"⟩, ⟨"a", "1"⟩] =
        some [("a", .str "1")] ∧
      ParseSlsaAttestation.resultPred (fun _ m => m) [⟨"a", "1"⟩, ⟨"a", "2"⟩] =
        some [("a", .str "2")] ∧
      ParseSlsaAttestation.resultPred (fun _ m => m) [⟨"a", "2"⟩, ⟨"a", "1"⟩] =
        some [("a", .str "1")] ∧
      ParseSlsaAttestation.resultPred (fun _ m => m) [⟨"a.0", "x"⟩, ⟨"a.1", "y"⟩] =
        some [("a", .arr [.str "x", .str "y"])] ∧
      ParseSlsaAttestation.resultPred (fun _ m => m) [⟨"a.1", "y"⟩, ⟨"a.0", "x"⟩] =
        some [("a", .arr [.str "y", .str "x"])] :=
  ⟨List.Perm.swap _ _ _, rfl, rfl, rfl, rfl, rfl, rfl⟩

/-- C13 (amended): for a flat input whose key paths are pairwise distinct,
none a prefix of another, and without the segment `"0"`, and for every
permutation of it, the two reconstructions succeed, whatever the orders of
the map visits, and give the same tree: the same string leaves at the same
paths, maps at the same paths, and no other node. -/
theorem reconstruction_of_permutation
    (ord ord' : List String → List (String × Value) → List (String × Value))
    (hord : ∀ path m, (ord path m).Perm m) (hord' : ∀ path m, (ord' path m).Perm m)
    (items items' : List SLSAPredicate) (hperm : items'.Perm items)
    (hdistinct : (items.map fun it => Split it.Key).Nodup)
    (hstrict : ∀ p ∈ items.map (fun it => Split it.Key),
      ∀ q ∈ items.map (fun it => Split it.Key), p <+: q → p = q)
    (hzero : ∀ p ∈ items.map (fun it => Split it.Key), "0" ∉ p) :
    ∃ m m', ParseSlsaAttestation.resultPred ord items = some m ∧
      ParseSlsaAttestation.resultPred ord' items' = some m' ∧
      (∀ q w, getPath (.obj m) q = some (.str w) ↔ getPath (.obj m') q = some (.str w)) ∧
      (∀ q, (∃ es, getPath (.obj m) q = some (.obj es)) ↔
        ∃ es, getPath (.obj m') q = some (.obj es)) ∧
      (∀ q x, getPath (.obj m) q = some x ∨ getPath (.obj m') q = some x →
        (∃ w, x = .str w) ∨ ∃ es, x = .obj es) := by
  have hpaths : (items'.map fun it => Split it.Key).Perm (items.map fun it => Split it.Key) :=
    hperm.map _
  obtain ⟨m, hm, ha, hb, hc⟩ :=
    ParseSlsaAttestation.resultPred_tree ord hord items hdistinct hstrict hzero
  obtain ⟨m', hm', ha', hb', hc'⟩ :=
    ParseSlsaAttestation.resultPred_tree ord' hord' items'
      (hpaths.nodup_iff.mpr hdistinct)
      (fun p hp q hq => hstrict p (hpaths.mem_iff.mp hp) q (hpaths.mem_iff.mp hq))
      (fun p hp => hzero p (hpaths.mem_iff.mp hp))
  refine ⟨m, m', hm, hm', ?_, ?_, ?_⟩
  · intro q w
    rw [ha q w, ha' q w]
    constructor
    · rintro ⟨it, hit, h⟩; exact ⟨it, hperm.mem_iff.mpr hit, h⟩
    · rintro ⟨it, hit, h⟩; exact ⟨it, hperm.mem_iff.mp hit, h⟩
  · intro q
    rw [map_node_iff_above_leaf items m ha hb hc q,
      map_node_iff_above_leaf items' m' ha' hb' hc' q]
    constructor
    · rintro (h | ⟨it, hit, h⟩)
      · exact Or.inl h
      · exact Or.inr ⟨it, hperm.mem_iff.mpr hit, h⟩
    · rintro (h | ⟨it, hit, h⟩)
      · exact Or.inl h
      · exact Or.inr ⟨it, hperm.mem_iff.mp hit, h⟩
  · rintro q x (h | h)
    · exact hc q x h
    · exact hc' q x h

/-- C13 (amended), at the input `{"a.b"->"1", "a.c"->"2", "d"->"3"}` and its
reverse, the first with maps visited back to front. -/
theorem reconstruction_of_permutation_witness :
    ∃ m m',
      ParseSlsaAttestation.resultPred (fun _ => List.reverse)
        [⟨"a.b", "1"⟩, ⟨"a.c", "2"⟩, ⟨"d", "3"⟩] = some m ∧
      ParseSlsaAttestation.resultPred (fun _ m => m)
        [⟨"d", "3"⟩, ⟨"a.c", "2"⟩, ⟨"a.b", "1"⟩] = some m' ∧
      (∀ q w, getPath (.obj m) q = some (.str w) ↔ getPath (.obj m') q = some (.str w)) ∧
      (∀ q, (∃ es, getPath (.obj m) q = some (.obj es)) ↔
        ∃ es, getPath (.obj m') q = some (.obj es)) ∧
      (∀ q x, getPath (.obj m) q = some x ∨ getPath (.obj m') q = some x →
        (∃ w, x = .str w) ∨ ∃ es, x = .obj es) :=
  reconstruction_of_permutation (fun _ => List.reverse) (fun _ m => m)
    (fun _ m => List.reverse_perm m) (fun _ m => List.Perm.refl m)
    [⟨"a.b", "1"⟩, ⟨"a.c", "2"⟩, ⟨"d", "3"⟩]
    [⟨"d", "3"⟩, ⟨"a.c", "2"⟩, ⟨"a.b", "1"⟩]
    (List.reverse_perm ([⟨"a.b", "1"⟩, ⟨"a.c", "2"⟩, ⟨"d", "3"⟩] : List SLSAPredicate))
    (by decide) (by decide) (by decide)

/-- C14 (the code departs from it): two runs on the flat input
`{"a.0"->"x", "a.1"->"y", "b"->"z"}` give `{"a": ["x","y"]}` when every map is
visited in the order of its filling, and `{"b": "z", "a": ["y","x"]}` when
every map is visited in the reverse order: the elements of the list change
places, and the key `b` is there or not. -/
theorem two_runs_two_trees :
    ParseSlsaAttestation.resultPred (fun _ m => m) [⟨"a.0", "x"⟩, ⟨"a.1", "y"⟩, ⟨"b", "z"⟩] =
        some [("a", .arr [.str "x", .str "y"])] ∧
      ParseSlsaAttestation.resultPred (fun _ => List.reverse)
          [⟨"a.0", "x"⟩, ⟨"a.1", "y"⟩, ⟨"b", "z"⟩] =
        some [("b", .str "z"), ("a", .arr [.str "y", .str "x"])] :=
  ⟨rfl, rfl⟩

/-- Two maps of one tree with the same content can be visited in different
orders in one run: on the flat input
`{"p.a.0"->"x", "p.a.1"->"y", "q.a.0"->"x", "q.a.1"->"y"}`, with the map at
`q.a` visited back to front and every other map front to back, the result is
`{"p": {"a": ["x","y"]}, "q": {"a": ["y","x"]}}`. -/
theorem ParseSlsaAttestation.resultPred_equal_maps_apart :
    ParseSlsaAttestation.resultPred
        (fun path m => if path = ["q", "a"] then m.reverse else m)
        [⟨"p.a.0", "x"⟩, ⟨"p.a.1", "y"⟩, ⟨"q.a.0", "x"⟩, ⟨"q.a.1", "y"⟩] =
      some [("p", .obj [("a", .arr [.str "x", .str "y"])]),
            ("q", .obj [("a", .arr [.str "y", .str "x"])])] :=
  rfl

/-- C15 (the code departs from it): the flat input `{"a.0.b.0"->"x"}`
reconstructs to `{"a": [{"b": {"0": "x"}}]}`: the map that `convertSlice` puts
in the list is not processed, and keeps the map with the one key `"0"`. -/
theorem map_inside_list_not_processed :
    ParseSlsaAttestation.resultPred (fun _ m => m) [⟨"a.0.b.0", "x"⟩] =
        some [("a", .arr [.obj [("b", .obj [("0", .str "x")])]])] ∧
      ParseSlsaAttestation.resultPred (fun _ => List.reverse) [⟨"a.0.b.0", "x"⟩] =
        some [("a", .arr [.obj [("b", .obj [("0", .str "x")])]])] :=
  ⟨rfl, rfl⟩

/-- C18 (the code departs from it): on the map `{"a": {"0": "x"}, "b": "y"}`
with the key `a` visited first, `ParseMap` returns `{"a": ["x"]}`: the key `b`
of the input is not in the output. -/
theorem ParseMap_drops_keys_after_list :
    ParseMap [("a", .obj [("0", .str "x")]), ("b", .str "y")] = [("a", .arr [.str "x"])] ∧
      keysOf [("a", Value.obj [("0", .str "x")]), ("b", .str "y")] = ["a", "b"] ∧
      keysOf (ParseMap [("a", .obj [("0", .str "x")]), ("b", .str "y")]) = ["a"] :=
  ⟨rfl, rfl, rfl⟩

/-! ## Loops and failures -/

theorem forRange_invariant {σ ι : Type} (P : σ → Prop) (body : σ → ι → Except Failure σ)
    (xs : List ι)
    (hbody : ∀ s x s', x ∈ xs → P s → body s x = .ok s' → P s') :
    ∀ s s', P s → forRange body xs s = .ok s' → P s' := by
  induction xs with
  | nil =>
    intro s s' hs h
    simp only [forRange, Except.ok.injEq] at h
    rw [← h]; exact hs
  | cons x xs ih =>
    intro s s' hs h
    simp only [forRange] at h
    cases hb : body s x with
    | error e => rw [hb] at h; cases h
    | ok s1 =>
      rw [hb] at h
      exact ih (fun s x s' hx => hbody s x s' (List.mem_cons_of_mem _ hx)) s1 s'
        (hbody s x s1 (List.mem_cons_self _ _) hs hb) h

theorem forRange_each_ok {σ ι : Type} (body : σ → ι → Except Failure σ) (xs : List ι) :
    ∀ s s', forRange body xs s = .ok s' → ∀ x ∈ xs, ∃ s1 s2, body s1 x = .ok s2 := by
  induction xs with
  | nil => intro s s' _ x hx; simp at hx
  | cons y ys ih =>
    intro s s' h x hx
    simp only [forRange] at h
    cases hb : body s y with
    | error e => rw [hb] at h; cases h
    | ok s1 =>
      rw [hb] at h
      rcases List.mem_cons.mp hx with rfl | hx
      · exact ⟨s, s1, hb⟩
      · exact ih s1 s' h x hx

theorem mem_modifyAt {α : Type} (f : α → α) (l : List α) (i : Nat) (a : α)
    (h : a ∈ modifyAt f l i) : a ∈ l ∨ ∃ b ∈ l, a = f b := by
  induction l generalizing i with
  | nil => simp [modifyAt] at h
  | cons b l ih =>
    cases i with
    | zero =>
      simp only [modifyAt, List.mem_cons] at h
      rcases h with h | h
      · right; exact ⟨b, by simp, h⟩
      · left; exact List.mem_cons_of_mem _ h
    | succ i =>
      simp only [modifyAt, List.mem_cons] at h
      rcases h with h | h
      · left; simp [h]
      · rcases ih i h with h | ⟨c, hc, hac⟩
        · left; exact List.mem_cons_of_mem _ h
        · right; exact ⟨c, List.mem_cons_of_mem _ hc, hac⟩

theorem map_modifyAt {α β : Type} (f : α → α) (g : α → β) (hfg : ∀ a, g (f a) = g a)
    (l : List α) (i : Nat) : (modifyAt f l i).map g = l.map g := by
  induction l generalizing i with
  | nil => simp [modifyAt]
  | cons b l ih =>
    cases i with
    | zero => simp [modifyAt, hfg]
    | succ i => simp [modifyAt, ih]

theorem getSpdxPredicate.spdx_software_ok (env : Env) (subject : PkgSubject) (st st' : SpdxBuild)
    (pkg : Node) (h : getSpdxPredicate.software env subject st pkg = .ok st') :
    st' = st ∨
      ∃ sub version subjectVersion name legal metadata,
        pkg.Typename = some "Package" ∧
        env.parsePkgSubject pkg = .ok sub ∧
        version0 sub.Namespaces = .ok version ∧
        version0 subject.Namespaces = .ok subjectVersion ∧
        name0 sub.Namespaces = .ok name ∧
        version.Purl ≠ subjectVersion.Purl ∧
        env.CertifyLegal version.Id = .ok legal ∧
        env.HasMetadata version.Id = .ok metadata ∧
        st' = { st with
          packageMap := assign st.packageMap version.Id st.packages.length
          packages := st.packages ++ [
            { PackageSPDXIdentifier := version.Id
              PackageName := name.Name
              PackageVersion := version.Version
              PackageExternalReferences :=
                { Category := CategoryPackageManager, Locator := version.Purl,
                  RefType := PackageManagerPURL } :: cpeReferences metadata
              PackageLicenseDeclared := (legal.head?.map (·.DeclaredLicense)).getD ""
              PackageLicenseConcluded := (legal.head?.map (·.DiscoveredLicense)).getD ""
              PackageCopyrightText := (legal.head?.map (·.Attribution)).getD ""
              PackageChecksums := [] }] } := by
  unfold getSpdxPredicate.software at h
  cases ht : pkg.Typename with
  | none => simp [ht, deref, bind, Except.bind] at h
  | some typename =>
    by_cases hty : typename = "Package"
    · subst hty
      cases hp : env.parsePkgSubject pkg with
      | error e => simp [ht, deref, bind, Except.bind, hp, liftErr] at h
      | ok sub =>
        cases hv : version0 sub.Namespaces with
        | error e => simp [ht, deref, bind, Except.bind, hp, liftErr, hv] at h
        | ok version =>
          cases hsv : version0 subject.Namespaces with
          | error e => simp [ht, deref, bind, Except.bind, hp, liftErr, hv, hsv] at h
          | ok subjectVersion =>
            cases hns : namespace0 sub.Namespaces with
            | error e => simp [ht, deref, bind, Except.bind, hp, liftErr, hv, hsv, hns] at h
            | ok ns =>
              by_cases hskip : version.Purl = subjectVersion.Purl ∨ ns.Namespace = "files"
              · left
                simp [ht, deref, bind, Except.bind, hp, liftErr, hv, hsv, hns, hskip, pure,
                  Except.pure] at h
                exact h.symm
              · cases hn : name0 sub.Namespaces with
                | error e =>
                  simp [ht, deref, bind, Except.bind, hp, liftErr, hv, hsv, hns, hskip, hn] at h
                | ok name =>
                  cases hl : env.CertifyLegal version.Id with
                  | error e =>
                    simp [ht, deref, bind, Except.bind, hp, liftErr, hv, hsv, hns, hskip, hn,
                      hl] at h
                  | ok legal =>
                    cases hm : env.HasMetadata version.Id with
                    | error e =>
                      simp [ht, deref, bind, Except.bind, hp, liftErr, hv, hsv, hns, hskip, hn,
                        hl, hm] at h
                    | ok metadata =>
                      right
                      simp [ht, deref, bind, Except.bind, hp, liftErr, hv, hsv, hns, hskip, hn,
                        hl, hm, pure, Except.pure] at h
                      refine ⟨sub, version, subjectVersion, name, legal, metadata, rfl, rfl,
                        hv, rfl, hn, ?_, hl, hm, h.symm⟩
                      exact fun e => hskip (Or.inl e)
    · left
      simp [ht, deref, bind, Except.bind, hty, pure, Except.pure] at h
      exact h.symm

theorem getSpdxPredicate.spdx_occurrence_ok (env : Env) (st st' : SpdxBuild) (pkg : Occurrence)
    (h : getSpdxPredicate.occurrence env st pkg = .ok st') :
    ∃ sub ns version,
      env.parsePkgSubject pkg.Subject = .ok sub ∧
      namespace0 sub.Namespaces = .ok ns ∧
      version0 sub.Namespaces = .ok version ∧
      ((ns.Namespace = "files" ∧ ∃ name, name0 sub.Namespaces = .ok name ∧
          ((lookupKey st.fileMap
                (name.Name ++ ":" ++ filenameQualifier "" version.Qualifiers) = some none ∧
              st' = st) ∨
            (∃ f, lookupKey st.fileMap
                (name.Name ++ ":" ++ filenameQualifier "" version.Qualifiers) = some (some f) ∧
              st' = { st with
                files := modifyAt (fun file => { file with
                    Checksums := file.Checksums ++
                      [{ Algorithm := pkg.Artifact.Algorithm, Value := pkg.Artifact.Digest }] })
                  st.files f
                fileMap := assign st.fileMap
                  (pkg.Artifact.Algorithm ++ ":" ++ pkg.Artifact.Digest) none }) ∨
            (lookupKey st.fileMap
                (name.Name ++ ":" ++ filenameQualifier "" version.Qualifiers) = none ∧
              st' = { st with
                fileMap := assign st.fileMap
                  (name.Name ++ ":" ++ filenameQualifier name.Name version.Qualifiers)
                  (some st.files.length)
                files := st.files ++ [
                  { FileSPDXIdentifier := version.Id
                    FileName := filenameQualifier name.Name version.Qualifiers
                    Checksums :=
                      [{ Algorithm := pkg.Artifact.Algorithm,
                         Value := pkg.Artifact.Digest }] }] }))) ∨
        (ns.Namespace ≠ "files" ∧
          ((∃ occPkg, lookupKey st.packageMap version.Id = some occPkg ∧
              st' = { st with
                packages := modifyAt (fun p => { p with
                    PackageChecksums := p.PackageChecksums ++
                      [{ Algorithm := pkg.Artifact.Algorithm, Value := pkg.Artifact.Digest }] })
                  st.packages occPkg }) ∨
            (lookupKey st.packageMap version.Id = none ∧ st' = st)))) := by
  unfold getSpdxPredicate.occurrence at h
  cases hp : env.parsePkgSubject pkg.Subject with
  | error e => simp [bind, Except.bind, hp, liftErr] at h
  | ok sub =>
    cases hns : namespace0 sub.Namespaces with
    | error e => simp [bind, Except.bind, hp, liftErr, hns] at h
    | ok ns =>
      cases hv : version0 sub.Namespaces with
      | error e =>
        by_cases hf : ns.Namespace = "files" <;>
          simp [bind, Except.bind, hp, liftErr, hns, hv, hf] at h
      | ok version =>
        refine ⟨sub, ns, version, rfl, hns, hv, ?_⟩
        by_cases hf : ns.Namespace = "files"
        · left
          refine ⟨hf, ?_⟩
          cases hn : name0 sub.Namespaces with
          | error e => simp [bind, Except.bind, hp, liftErr, hns, hv, hf, hn] at h
          | ok name =>
            refine ⟨name, rfl, ?_⟩
            simp only [bind, Except.bind, hp, liftErr, hns, hv, hf, hn, if_true] at h
            cases hl : lookupKey st.fileMap
                (name.Name ++ ":" ++ filenameQualifier "" version.Qualifiers) with
            | none =>
              right; right
              rw [hl] at h
              simp only [pure, Except.pure, Except.ok.injEq] at h
              exact ⟨rfl, h.symm⟩
            | some o =>
              cases o with
              | none =>
                left
                rw [hl] at h
                simp only [pure, Except.pure, Except.ok.injEq] at h
                exact ⟨rfl, h.symm⟩
              | some f =>
                right; left
                rw [hl] at h
                simp only [pure, Except.pure, Except.ok.injEq] at h
                exact ⟨f, rfl, h.symm⟩
        · right
          refine ⟨hf, ?_⟩
          simp only [bind, Except.bind, hp, liftErr, hns, hv, hf, if_false] at h
          cases hl : lookupKey st.packageMap version.Id with
          | none =>
            right
            rw [hl] at h
            simp only [pure, Except.pure, Except.ok.injEq] at h
            exact ⟨rfl, h.symm⟩
          | some occPkg =>
            left
            rw [hl] at h
            simp only [pure, Except.pure, Except.ok.injEq] at h
            exact ⟨occPkg, rfl, h.symm⟩

theorem getSpdxPredicate.spdx_dependency_ok (subject : PkgSubject) (st st' : SpdxBuild)
    (rel : Dependency) (h : getSpdxPredicate.dependency subject st rel = .ok st') :
    ∃ subjectVersion pkgVersion,
      version0 subject.Namespaces = .ok subjectVersion ∧
      version0 rel.Package.Namespaces = .ok pkgVersion ∧
      ((subjectVersion.Purl = pkgVersion.Purl ∧ st' = st) ∨
        (subjectVersion.Purl ≠ pkgVersion.Purl ∧ ∃ depVersion,
          version0 rel.DependencyPackage.Namespaces = .ok depVersion ∧
          st' = { st with
            relationships := st.relationships ++ [
              { RefA := pkgVersion.Id, RefB := depVersion.Id,
                Relationship := TypeRelationshipOther }] })) := by
  unfold getSpdxPredicate.dependency at h
  cases hsv : version0 subject.Namespaces with
  | error e => simp [bind, Except.bind, hsv] at h
  | ok subjectVersion =>
    cases hpv : version0 rel.Package.Namespaces with
    | error e => simp [bind, Except.bind, hsv, hpv] at h
    | ok pkgVersion =>
      refine ⟨subjectVersion, pkgVersion, rfl, rfl, ?_⟩
      by_cases hne : subjectVersion.Purl = pkgVersion.Purl
      · left
        simp [bind, Except.bind, hsv, hpv, hne, pure, Except.pure] at h
        exact ⟨hne, h.symm⟩
      · right
        refine ⟨hne, ?_⟩
        cases hdv : version0 rel.DependencyPackage.Namespaces with
        | error e => simp [bind, Except.bind, hsv, hpv, hne, hdv] at h
        | ok depVersion =>
          simp [bind, Except.bind, hsv, hpv, hne, hdv, pure, Except.pure] at h
          exact ⟨depVersion, rfl, h.symm⟩

theorem getSpdxPredicate.spdx_build_ok (env : Env) (sbom : HasSBOM) (subject : PkgSubject)
    (st : SpdxBuild) (h : getSpdxPredicate.build env sbom subject = .ok st) :
    ∃ st1 st2,
      forRange (getSpdxPredicate.software env subject) sbom.IncludedSoftware
        { packages := [], packageMap := [], files := [], fileMap := [],
          relationships := [] } = .ok st1 ∧
      forRange (getSpdxPredicate.occurrence env) sbom.IncludedOccurrences st1 = .ok st2 ∧
      forRange (getSpdxPredicate.dependency subject) sbom.IncludedDependencies st2 = .ok st := by
  unfold getSpdxPredicate.build at h
  cases h1 : forRange (getSpdxPredicate.software env subject) sbom.IncludedSoftware
      { packages := [], packageMap := [], files := [], fileMap := [], relationships := [] } with
  | error e => simp [bind, Except.bind, h1] at h
  | ok st1 =>
    cases h2 : forRange (getSpdxPredicate.occurrence env) sbom.IncludedOccurrences st1 with
    | error e => simp [bind, Except.bind, h1, h2] at h
    | ok st2 =>
      simp only [bind, Except.bind, h1, h2] at h
      exact ⟨st1, st2, rfl, h2, h⟩

theorem getSpdxPredicate_ok (env : Env) (sbom : HasSBOM) (subject : PkgSubject)
    (doc : SpdxDocument) (h : getSpdxPredicate env sbom subject = .ok doc) :
    ∃ name st,
      name0 subject.Namespaces = .ok name ∧
      getSpdxPredicate.build env sbom subject = .ok st ∧
      doc =
        { SPDXIdentifier := "DOCUMENT"
          SPDXVersion := SpdxVersion
          DataLicense := DataLicense
          DocumentName := name.Name
          DocumentNamespace := sbom.Uri
          Created := sbom.KnownSince
          Packages := st.packages
          Files := st.files
          Relationships := st.relationships } := by
  unfold getSpdxPredicate at h
  cases hn : name0 subject.Namespaces with
  | error e => simp [bind, Except.bind, hn] at h
  | ok name =>
    cases hb : getSpdxPredicate.build env sbom subject with
    | error e => simp [bind, Except.bind, hn, hb] at h
    | ok st =>
      simp only [bind, Except.bind, hn, hb] at h
      split at h
      · cases h
      · simp only [pure, Except.pure, Except.ok.injEq] at h
        exact ⟨name, st, rfl, rfl, h.symm⟩

theorem getCdxPredicate.cdx_init_ok (subject : PkgSubject) (st : CdxBuild)
    (h : getCdxPredicate.init subject = .ok st) :
    st.components = [] ∧ st.componentMap = [] ∧ st.hashesMap = [] ∧
      st.dependencyMap = [] ∧ st.vulnerabilities = [] ∧
      (subject.Typename = some "Package" →
        ∃ version, version0 subject.Namespaces = .ok version ∧
          st.metadata.BOMRef = version.Purl ∧ st.subjectNodeId = version.Id) := by
  unfold getCdxPredicate.init at h
  cases ht : subject.Typename with
  | none => simp [ht, deref, bind, Except.bind] at h
  | some typename =>
    by_cases hp : typename = "Package"
    · subst hp
      cases hn : name0 subject.Namespaces with
      | error e => simp [ht, deref, bind, Except.bind, hn] at h
      | ok name =>
        cases hv : version0 subject.Namespaces with
        | error e => simp [ht, deref, bind, Except.bind, hn, hv] at h
        | ok version =>
          simp [ht, deref, bind, Except.bind, hn, hv, pure, Except.pure] at h
          subst h
          simp
    · by_cases ha : typename = "Artifact"
      · simp [ht, deref, bind, Except.bind, hp, ha, pure, Except.pure] at h
        subst h
        simp [ha]
      · simp [ht, deref, bind, Except.bind, hp, ha, pure, Except.pure] at h
        subst h
        simp [hp]

theorem getCdxPredicate.cdx_software_ok (env : Env) (st st' : CdxBuild) (pkg : Node)
    (h : getCdxPredicate.software env st pkg = .ok st') :
    (pkg.Typename ≠ some "Package" ∧ st' = st) ∨
      ∃ sub version name,
        pkg.Typename = some "Package" ∧
        env.parsePkgSubject pkg = .ok sub ∧
        version0 sub.Namespaces = .ok version ∧
        name0 sub.Namespaces = .ok name ∧
        st' = { st with
          componentMap := assign st.componentMap version.Id st.components.length
          components := st.components ++ [
            { Type_ := ComponentTypeLibrary, BOMRef := version.Purl,
              PackageURL := version.Purl, Name := name.Name, Version := version.Version,
              Hashes := none }] } := by
  unfold getCdxPredicate.software at h
  cases ht : pkg.Typename with
  | none => simp [ht, deref, bind, Except.bind] at h
  | some typename =>
    by_cases hty : typename = "Package"
    · subst hty
      right
      cases hp : env.parsePkgSubject pkg with
      | error e => simp [ht, deref, bind, Except.bind, hp, liftErr] at h
      | ok sub =>
        cases hv : version0 sub.Namespaces with
        | error e => simp [ht, deref, bind, Except.bind, hp, liftErr, hv] at h
        | ok version =>
          cases hn : name0 sub.Namespaces with
          | error e => simp [ht, deref, bind, Except.bind, hp, liftErr, hv, hn] at h
          | ok name =>
            simp [ht, deref, bind, Except.bind, hp, liftErr, hv, hn, pure, Except.pure] at h
            exact ⟨sub, version, name, rfl, rfl, hv, hn, h.symm⟩
    · left
      simp [ht, deref, bind, Except.bind, hty, pure, Except.pure] at h
      exact ⟨by simpa using hty, h.symm⟩

theorem getCdxPredicate.cdx_occurrence_ok (env : Env) (subject : PkgSubject) (st st' : CdxBuild)
    (pkg : Occurrence) (h : getCdxPredicate.occurrence env subject st pkg = .ok st') :
    ∃ sub version,
      env.parsePkgSubject pkg.Subject = .ok sub ∧
      version0 sub.Namespaces = .ok version ∧
      ((subject.Typename = some "Artifact" ∧ st.subjectNodeId = pkg.Artifact.Id ∧
          ∃ name, name0 sub.Namespaces = .ok name ∧
            st' = { st with
              metadata := { st.metadata with
                Name := name.Name, Version := version.Version, BOMRef := version.Purl,
                PackageURL := version.Purl }
              subjectNodeId := version.Id }) ∨
        (¬ (subject.Typename = some "Artifact" ∧ st.subjectNodeId = pkg.Artifact.Id) ∧
          st' = { st with
            hashesMap := assign st.hashesMap version.Id
              (((lookupKey st.hashesMap version.Id).getD []) ++
                [{ Algorithm := pkg.Artifact.Algorithm, Value := pkg.Artifact.Digest }]) })) := by
  unfold getCdxPredicate.occurrence at h
  cases hp : env.parsePkgSubject pkg.Subject with
  | error e => simp [bind, Except.bind, hp, liftErr] at h
  | ok sub =>
    cases ht : subject.Typename with
    | none => simp [bind, Except.bind, hp, liftErr, ht, deref] at h
    | some typename =>
      by_cases hc : typename = "Artifact" ∧ st.subjectNodeId = pkg.Artifact.Id
      · cases hn : name0 sub.Namespaces with
        | error e => simp [bind, Except.bind, hp, liftErr, ht, deref, hc, hn] at h
        | ok name =>
          cases hv : version0 sub.Namespaces with
          | error e => simp [bind, Except.bind, hp, liftErr, ht, deref, hc, hn, hv] at h
          | ok version =>
            simp [bind, Except.bind, hp, liftErr, ht, deref, hc, hn, hv, pure,
              Except.pure] at h
            refine ⟨sub, version, rfl, hv, Or.inl ⟨by simp [hc.1], hc.2, name, hn, h.symm⟩⟩
      · cases hv : version0 sub.Namespaces with
        | error e => simp [bind, Except.bind, hp, liftErr, ht, deref, hc, hv] at h
        | ok version =>
          simp [bind, Except.bind, hp, liftErr, ht, deref, hc, hv, pure, Except.pure] at h
          refine ⟨sub, version, rfl, hv, Or.inr ⟨by simpa using hc, h.symm⟩⟩

theorem getCdxPredicate.cdx_hashes_ok (st st' : CdxBuild) (entry : String × List Hash)
    (h : getCdxPredicate.hashes st entry = .ok st') :
    (lookupKey st.componentMap entry.1 = none ∧ st' = st) ∨
      ∃ occPkg, lookupKey st.componentMap entry.1 = some occPkg ∧
        st' = { st with
          components :=
            modifyAt (fun c => { c with Hashes := some entry.2 }) st.components occPkg } := by
  unfold getCdxPredicate.hashes at h
  cases hl : lookupKey st.componentMap entry.1 with
  | none =>
    left
    rw [hl] at h
    simp only [pure, Except.pure, Except.ok.injEq] at h
    exact ⟨rfl, h.symm⟩
  | some occPkg =>
    right
    rw [hl] at h
    simp only [pure, Except.pure, Except.ok.injEq] at h
    exact ⟨occPkg, rfl, h.symm⟩

theorem getCdxPredicate.cdx_dependency_ok (st st' : CdxBuild) (dep : Dependency)
    (h : getCdxPredicate.dependency st dep = .ok st') :
    (dep.DependencyType ≠ "DIRECT" ∧ st' = st) ∨
      (dep.DependencyType = "DIRECT" ∧ ∃ pkgVersion depVersion,
        version0 dep.Package.Namespaces = .ok pkgVersion ∧
        version0 dep.DependencyPackage.Namespaces = .ok depVersion ∧
        st' = { st with
          dependencyMap := assign st.dependencyMap pkgVersion.Purl
            (((lookupKey st.dependencyMap pkgVersion.Purl).getD []) ++
              [depVersion.Purl]) }) := by
  unfold getCdxPredicate.dependency at h
  by_cases hd : dep.DependencyType = "DIRECT"
  · right
    refine ⟨hd, ?_⟩
    cases hpv : version0 dep.Package.Namespaces with
    | error e => simp [bind, Except.bind, hd, hpv] at h
    | ok pkgVersion =>
      cases hdv : version0 dep.DependencyPackage.Namespaces with
      | error e => simp [bind, Except.bind, hd, hpv, hdv] at h
      | ok depVersion =>
        simp [bind, Except.bind, hd, hpv, hdv, pure, Except.pure] at h
        exact ⟨pkgVersion, depVersion, rfl, rfl, h.symm⟩
  · left
    simp [hd, pure, Except.pure] at h
    exact ⟨hd, h.symm⟩

theorem getCdxPredicate.cdx_vex_ok (env : Env) (serialNumber : String) (st st' : CdxBuild)
    (v : CertifyVEXStatement) (h : getCdxPredicate.vex env serialNumber st v = .ok st') :
    st' = st ∨ ∃ vulnerability, st' = { st with
      vulnerabilities := st.vulnerabilities ++ [vulnerability] } := by
  unfold getCdxPredicate.vex at h
  cases hp : env.parsePkgSubject v.Subject with
  | error e => simp [bind, Except.bind, hp, liftErr] at h
  | ok sub =>
    cases hs : getCdxPredicate.isSubject sub st.subjectNodeId with
    | error e => simp [bind, Except.bind, hp, liftErr, hs] at h
    | ok b =>
      cases b with
      | false =>
        left
        simp [bind, Except.bind, hp, liftErr, hs, pure, Except.pure] at h
        exact h.symm
      | true =>
        right
        cases hi : index0 v.Vulnerability.VulnerabilityIDs with
        | error e => simp [bind, Except.bind, hp, liftErr, hs, hi] at h
        | ok vulnerabilityID =>
          cases hm : env.VulnerabilityMetadata vulnerabilityID.Id with
          | error e => simp [bind, Except.bind, hp, liftErr, hs, hi, hm] at h
          | ok vulnMetadata =>
            simp [bind, Except.bind, hp, liftErr, hs, hi, hm, pure, Except.pure] at h
            exact ⟨_, h.symm⟩

theorem getCdxPredicate.cdx_build_ok (env : Env) (sbom : HasSBOM) (subject : PkgSubject)
    (vuln : List CertifyVEXStatement) (st : CdxBuild)
    (h : getCdxPredicate.build env sbom subject vuln = .ok st) :
    ∃ st0 st1 st2 st3 st4,
      getCdxPredicate.init subject = .ok st0 ∧
      forRange (getCdxPredicate.software env) sbom.IncludedSoftware st0 = .ok st1 ∧
      forRange (getCdxPredicate.occurrence env subject) sbom.IncludedOccurrences st1 =
        .ok st2 ∧
      forRange getCdxPredicate.hashes (env.rangeHashes st2.hashesMap) st2 = .ok st3 ∧
      forRange getCdxPredicate.dependency sbom.IncludedDependencies st3 = .ok st4 ∧
      forRange (getCdxPredicate.vex env sbom.Uri) vuln st4 = .ok st := by
  unfold getCdxPredicate.build at h
  cases h0 : getCdxPredicate.init subject with
  | error e => simp [bind, Except.bind, h0] at h
  | ok st0 =>
    cases h1 : forRange (getCdxPredicate.software env) sbom.IncludedSoftware st0 with
    | error e => simp [bind, Except.bind, h0, h1] at h
    | ok st1 =>
      cases h2 : forRange (getCdxPredicate.occurrence env subject)
          sbom.IncludedOccurrences st1 with
      | error e => simp [bind, Except.bind, h0, h1, h2] at h
      | ok st2 =>
        cases h3 : forRange getCdxPredicate.hashes (env.rangeHashes st2.hashesMap) st2 with
        | error e => simp [bind, Except.bind, h0, h1, h2, h3] at h
        | ok st3 =>
          cases h4 : forRange getCdxPredicate.dependency sbom.IncludedDependencies st3 with
          | error e => simp [bind, Except.bind, h0, h1, h2, h3, h4] at h
          | ok st4 =>
            simp only [bind, Except.bind, h0, h1, h2, h3, h4] at h
            exact ⟨st0, st1, st2, st3, st4, rfl, h1, h2, h3, h4, h⟩

theorem getCdxPredicate_ok (env : Env) (sbom : HasSBOM) (subject : PkgSubject)
    (vuln : List CertifyVEXStatement) (bom : BOM)
    (h : getCdxPredicate env sbom subject vuln = .ok bom) :
    ∃ st,
      getCdxPredicate.build env sbom subject vuln = .ok st ∧
      bom =
        { BOMFormat := BOMFormat
          SpecVersion := 7
          Version := 1
          SerialNumber := sbom.Uri
          MetadataComponent := st.metadata
          Timestamp := sbom.KnownSince
          Components := st.components.filter fun c => c.BOMRef ≠ st.metadata.BOMRef
          Dependencies := (env.rangeDependencies st.dependencyMap).map fun entry =>
            { Ref := entry.1, Dependencies := entry.2 }
          Vulnerabilities := st.vulnerabilities } := by
  unfold getCdxPredicate at h
  cases hb : getCdxPredicate.build env sbom subject vuln with
  | error e => simp [bind, Except.bind, hb] at h
  | ok st =>
    simp only [bind, Except.bind, hb] at h
    split at h
    · cases h
    · simp only [pure, Except.pure, Except.ok.injEq] at h
      exact ⟨st, rfl, h.symm⟩

/-! ## The statement: claims C4 and C5 -/

theorem ParseSbomAttestation_ok (env : Env) (sbom : HasSBOM)
    (vuln : List CertifyVEXStatement) (s : Statement)
    (h : ParseSbomAttestation env sbom vuln = .ok s) :
    ∃ subject resources,
      env.parsePkgSubject sbom.Subject = .ok subject ∧
      ParseSbomAttestation.subject sbom subject = .ok resources ∧
      ((HasPrefix sbom.Uri "urn:uuid:" = true ∧
          ∃ bom, getCdxPredicate env sbom subject vuln = .ok bom ∧
            s = { Type_ := StatementInTotoV01, PredicateType := PredicateCycloneDX,
                  Subject := resources, Predicate := .cdx bom }) ∨
        (HasPrefix sbom.Uri "urn:uuid:" = false ∧
          ∃ doc, getSpdxPredicate env sbom subject = .ok doc ∧
            s = { Type_ := StatementInTotoV01, PredicateType := PredicateSPDX,
                  Subject := resources, Predicate := .spdx doc })) := by
  unfold ParseSbomAttestation at h
  cases hp : env.parsePkgSubject sbom.Subject with
  | error e => simp [bind, Except.bind, hp, liftErr] at h
  | ok subject =>
    cases hr : ParseSbomAttestation.subject sbom subject with
    | error e => simp [bind, Except.bind, hp, liftErr, hr] at h
    | ok resources =>
      refine ⟨subject, resources, rfl, hr, ?_⟩
      have hne : PredicateSPDX ≠ PredicateCycloneDX := by decide
      cases hu : HasPrefix sbom.Uri "urn:uuid:" with
      | true =>
        cases hc : getCdxPredicate env sbom subject vuln with
        | error e => simp [bind, Except.bind, hp, liftErr, hr, hu, hc] at h
        | ok bom =>
          simp [bind, Except.bind, hp, liftErr, hr, hu, hc, pure, Except.pure] at h
          exact Or.inl ⟨rfl, bom, rfl, h.symm⟩
      | false =>
        cases hc : getSpdxPredicate env sbom subject with
        | error e => simp [bind, Except.bind, hp, liftErr, hr, hu, hc, hne] at h
        | ok doc =>
          simp [bind, Except.bind, hp, liftErr, hr, hu, hc, hne, pure, Except.pure] at h
          exact Or.inr ⟨rfl, doc, rfl, h.symm⟩

/-- C4: when `ParseSbomAttestation` succeeds, the subject was resolved, and
the statement has the CycloneDX predicate type and the predicate that
`getCdxPredicate` builds if the URI of the SBOM starts with `"urn:uuid:"`,
the SPDX predicate type and the predicate of `getSpdxPredicate` otherwise. -/
theorem ParseSbomAttestation_predicate (env : Env) (sbom : HasSBOM)
    (vuln : List CertifyVEXStatement) (s : Statement)
    (h : ParseSbomAttestation env sbom vuln = .ok s) :
    ∃ subject, env.parsePkgSubject sbom.Subject = .ok subject ∧
      (HasPrefix sbom.Uri "urn:uuid:" = true →
        s.PredicateType = PredicateCycloneDX ∧
          ∃ bom, getCdxPredicate env sbom subject vuln = .ok bom ∧ s.Predicate = .cdx bom) ∧
      (HasPrefix sbom.Uri "urn:uuid:" = false →
        s.PredicateType = PredicateSPDX ∧
          ∃ doc, getSpdxPredicate env sbom subject = .ok doc ∧ s.Predicate = .spdx doc) := by
  obtain ⟨subject, resources, hp, _, hcase⟩ := ParseSbomAttestation_ok env sbom vuln s h
  refine ⟨subject, hp, ?_, ?_⟩
  · intro hu
    rcases hcase with ⟨_, bom, hb, hs⟩ | ⟨hu', _⟩
    · exact ⟨by rw [hs], bom, hb, by rw [hs]⟩
    · rw [hu] at hu'; cases hu'
  · intro hu
    rcases hcase with ⟨hu', _⟩ | ⟨_, doc, hd, hs⟩
    · rw [hu] at hu'; cases hu'
    · exact ⟨by rw [hs], doc, hd, by rw [hs]⟩

/-- C4, at a CycloneDX SBOM of the package `P` that includes `Q`. -/
theorem ParseSbomAttestation_predicate_witness :
    ∃ s, ParseSbomAttestation plainEnv
        (sbomOfP "urn:uuid:1234" [nodeP, nodeQ] [] [edge nodeP nodeQ "DIRECT"]) [] = .ok s ∧
      ∃ subject, plainEnv.parsePkgSubject
          (sbomOfP "urn:uuid:1234" [nodeP, nodeQ] [] [edge nodeP nodeQ "DIRECT"]).Subject =
            .ok subject ∧
        (HasPrefix (sbomOfP "urn:uuid:1234" [nodeP, nodeQ] []
            [edge nodeP nodeQ "DIRECT"]).Uri "urn:uuid:" = true →
          s.PredicateType = PredicateCycloneDX ∧
            ∃ bom, getCdxPredicate plainEnv
                (sbomOfP "urn:uuid:1234" [nodeP, nodeQ] [] [edge nodeP nodeQ "DIRECT"])
                subject [] = .ok bom ∧ s.Predicate = .cdx bom) ∧
        (HasPrefix (sbomOfP "urn:uuid:1234" [nodeP, nodeQ] []
            [edge nodeP nodeQ "DIRECT"]).Uri "urn:uuid:" = false →
          s.PredicateType = PredicateSPDX ∧
            ∃ doc, getSpdxPredicate plainEnv
                (sbomOfP "urn:uuid:1234" [nodeP, nodeQ] [] [edge nodeP nodeQ "DIRECT"])
                subject = .ok doc ∧ s.Predicate = .spdx doc) :=
  ⟨_, rfl, ParseSbomAttestation_predicate plainEnv
    (sbomOfP "urn:uuid:1234" [nodeP, nodeQ] [] [edge nodeP nodeQ "DIRECT"]) [] _ rfl⟩

/-- C5 (as stated it fails): the statement of an SLSA attestation that
declares the version `https://slsa.dev/provenance/v1` has the type
`https://in-toto.io/Statement/v1`, the statement of an SBOM has the type
`https://in-toto.io/Statement/v0.1`. -/
theorem statement_types_differ :
    ∃ s s',
      ParseSlsaAttestation plainEnv
          { Subject := { Id := "A", Algorithm := "sha256", Digest := "abc" },
            Slsa := { SlsaPredicate := [⟨"slsa.buildType", "x"⟩],
                      SlsaVersion := "https://slsa.dev/provenance/v1" } }
          "pkg:test/a@1" = .ok s ∧
        ParseSbomAttestation plainEnv (sbomOfP "urn:uuid:1234" [nodeQ] [] []) [] = .ok s' ∧
        s.Type_ = "https://in-toto.io/Statement/v1" ∧
        s'.Type_ = "https://in-toto.io/Statement/v0.1" ∧
        s.Type_ ≠ s'.Type_ :=
  ⟨_, _, rfl, rfl, rfl, rfl, by decide⟩

/-- C5 (amended): a statement of `ParseSbomAttestation` has the type
`in_toto.StatementInTotoV01`; a statement of `ParseSlsaAttestation` has the
type `attestationv1.StatementTypeUri` when the declared SLSA version is
`slsa1.PredicateSLSAProvenance`, and `in_toto.StatementInTotoV01` otherwise.
Each function is taken under its own success only. -/
theorem statement_type_of_each (env : Env) :
    (∀ sbom vuln s, ParseSbomAttestation env sbom vuln = .ok s →
        s.Type_ = StatementInTotoV01) ∧
      (∀ slsa pkgPurl s', ParseSlsaAttestation env slsa pkgPurl = .ok s' →
        s'.Type_ =
          if slsa.Slsa.SlsaVersion = PredicateSLSAProvenance then StatementTypeUri
          else StatementInTotoV01) := by
  constructor
  · intro sbom vuln s h
    obtain ⟨subject, resources, _, _, hcase⟩ := ParseSbomAttestation_ok env sbom vuln s h
    rcases hcase with ⟨_, bom, _, hs⟩ | ⟨_, doc, _, hs⟩ <;> rw [hs]
  · intro slsa pkgPurl s' h'
    unfold ParseSlsaAttestation at h'
    cases hr : ParseSlsaAttestation.resultPred env.rangeValues slsa.Slsa.SlsaPredicate with
    | none => simp [bind, Except.bind, hr, throw, throwThe, MonadExceptOf.throw] at h'
    | some resultPred =>
      simp only [bind, Except.bind, hr, pure, Except.pure] at h'
      split at h'
      · simp [throw, throwThe, MonadExceptOf.throw] at h'
      · simp only [Except.ok.injEq] at h'
        subst h'; rfl

/-- C5 (amended), at an SBOM of `P`, at an SLSA attestation of version
`https://slsa.dev/provenance/v1`, and at one of version
`https://slsa.dev/provenance/v0.2`. -/
theorem statement_type_of_each_witness :
    ∃ s s' s'',
      ParseSbomAttestation plainEnv (sbomOfP "urn:uuid:1234" [nodeQ] [] []) [] = .ok s ∧
      ParseSlsaAttestation plainEnv
          { Subject := { Id := "A", Algorithm := "sha256", Digest := "abc" },
            Slsa := { SlsaPredicate := [⟨"slsa.buildType", "x"⟩],
                      SlsaVersion := "https://slsa.dev/provenance/v1" } }
          "pkg:test/a@1" = .ok s' ∧
      ParseSlsaAttestation plainEnv
          { Subject := { Id := "A", Algorithm := "sha256", Digest := "abc" },
            Slsa := { SlsaPredicate := [⟨"slsa.buildType", "x"⟩],
                      SlsaVersion := "https://slsa.dev/provenance/v0.2" } }
          "pkg:test/a@1" = .ok s'' ∧
      s.Type_ = StatementInTotoV01 ∧
      (s'.Type_ =
        if "https://slsa.dev/provenance/v1" = PredicateSLSAProvenance then StatementTypeUri
        else StatementInTotoV01) ∧
      (s''.Type_ =
        if "https://slsa.dev/provenance/v0.2" = PredicateSLSAProvenance then StatementTypeUri
        else StatementInTotoV01) :=
  ⟨_, _, _, rfl, rfl, rfl,
    (statement_type_of_each plainEnv).1 (sbomOfP "urn:uuid:1234" [nodeQ] [] []) [] _ rfl,
    (statement_type_of_each plainEnv).2
      { Subject := { Id := "A", Algorithm := "sha256", Digest := "abc" },
        Slsa := { SlsaPredicate := [⟨"slsa.buildType", "x"⟩],
                  SlsaVersion := "https://slsa.dev/provenance/v1" } }
      "pkg:test/a@1" _ rfl,
    (statement_type_of_each plainEnv).2
      { Subject := { Id := "A", Algorithm := "sha256", Digest := "abc" },
        Slsa := { SlsaPredicate := [⟨"slsa.buildType", "x"⟩],
                  SlsaVersion := "https://slsa.dev/provenance/v0.2" } }
      "pkg:test/a@1" _ rfl⟩

/-! ## Packages and components: claims C6 and C7 -/

theorem length_modifyAt {α : Type} (f : α → α) (l : List α) (i : Nat) :
    (modifyAt f l i).length = l.length := by
  induction l generalizing i with
  | nil => simp [modifyAt]
  | cons b l ih =>
    cases i with
    | zero => simp [modifyAt]
    | succ i => simp [modifyAt, ih]

theorem refType_of_mem_cpeReferences (metadata : List HasMetadata)
    (r : PackageExternalReference) (h : r ∈ cpeReferences metadata) :
    r.RefType = TypeSecurityCPE23Type := by
  simp only [cpeReferences, List.mem_map] at h
  obtain ⟨m, _, rfl⟩ := h
  rfl

theorem getSpdxPredicate.spdx_build_packages (env : Env) (sbom : HasSBOM) (subject : PkgSubject)
    (st : SpdxBuild) (P : SpdxPackage → Prop)
    (hnew : ∀ (sub : PkgSubject) (version subjectVersion : PkgVersion) (name : String)
        (legal : List CertifyLegal) (metadata : List HasMetadata),
      version0 sub.Namespaces = .ok version →
      version0 subject.Namespaces = .ok subjectVersion →
      version.Purl ≠ subjectVersion.Purl →
      P { PackageSPDXIdentifier := version.Id
          PackageName := name
          PackageVersion := version.Version
          PackageExternalReferences :=
            { Category := CategoryPackageManager, Locator := version.Purl,
              RefType := PackageManagerPURL } :: cpeReferences metadata
          PackageLicenseDeclared := (legal.head?.map (·.DeclaredLicense)).getD ""
          PackageLicenseConcluded := (legal.head?.map (·.DiscoveredLicense)).getD ""
          PackageCopyrightText := (legal.head?.map (·.Attribution)).getD ""
          PackageChecksums := [] })
    (hsum : ∀ p checksum, P p →
      P { p with PackageChecksums := p.PackageChecksums ++ [checksum] })
    (h : getSpdxPredicate.build env sbom subject = .ok st) :
    ∀ p ∈ st.packages, P p := by
  obtain ⟨st1, st2, h1, h2, h3⟩ := getSpdxPredicate.spdx_build_ok env sbom subject st h
  have i1 : ∀ p ∈ st1.packages, P p := by
    refine forRange_invariant (fun s : SpdxBuild => ∀ p ∈ s.packages, P p) _ _ ?_ _ _ ?_ h1
    · intro s x s' _ hs hb
      rcases getSpdxPredicate.spdx_software_ok env subject s s' x hb with rfl |
        ⟨sub, version, subjectVersion, name, legal, metadata, _, _, hv, hsv, _, hne, _, _, rfl⟩
      · exact hs
      · intro p hp
        simp only [List.mem_append, List.mem_singleton] at hp
        rcases hp with hp | rfl
        · exact hs p hp
        · exact hnew sub version subjectVersion name.Name legal metadata hv hsv hne
    · intro p hp; simp at hp
  have i2 : ∀ p ∈ st2.packages, P p := by
    refine forRange_invariant (fun s : SpdxBuild => ∀ p ∈ s.packages, P p) _ _ ?_ _ _ i1 h2
    intro s x s' _ hs hb
    obtain ⟨sub, ns, version, _, _, _, hcase⟩ := getSpdxPredicate.spdx_occurrence_ok env s s' x hb
    rcases hcase with ⟨_, name, _, ⟨_, rfl⟩ | ⟨f, _, rfl⟩ | ⟨_, rfl⟩⟩ |
      ⟨_, ⟨occPkg, _, rfl⟩ | ⟨_, rfl⟩⟩
    · exact hs
    · exact hs
    · exact hs
    · intro p hp
      rcases mem_modifyAt _ _ _ _ hp with hp | ⟨q, hq, rfl⟩
      · exact hs p hp
      · exact hsum q _ (hs q hq)
    · exact hs
  refine forRange_invariant (fun s : SpdxBuild => ∀ p ∈ s.packages, P p) _ _ ?_ _ _ i2 h3
  intro s x s' _ hs hb
  obtain ⟨subjectVersion, pkgVersion, _, _, hcase⟩ :=
    getSpdxPredicate.spdx_dependency_ok subject s s' x hb
  rcases hcase with ⟨_, rfl⟩ | ⟨_, depVersion, _, rfl⟩
  · exact hs
  · exact hs

theorem getCdxPredicate.cdx_build_components (env : Env) (sbom : HasSBOM) (subject : PkgSubject)
    (vuln : List CertifyVEXStatement) (st : CdxBuild)
    (h : getCdxPredicate.build env sbom subject vuln = .ok st) :
    (∀ c ∈ st.components, c.BOMRef = c.PackageURL) ∧
      (subject.Typename = some "Package" →
        ∃ version, version0 subject.Namespaces = .ok version ∧
          st.metadata.BOMRef = version.Purl) := by
  obtain ⟨st0, st1, st2, st3, st4, h0, h1, h2, h3, h4, h5⟩ :=
    getCdxPredicate.cdx_build_ok env sbom subject vuln st h
  obtain ⟨hc0, _, _, _, _, hm0⟩ := getCdxPredicate.cdx_init_ok subject st0 h0
  have i1 : (∀ c ∈ st1.components, c.BOMRef = c.PackageURL) ∧
      st1.metadata = st0.metadata := by
    refine forRange_invariant (fun s : CdxBuild =>
      (∀ c ∈ s.components, c.BOMRef = c.PackageURL) ∧ s.metadata = st0.metadata)
      _ _ ?_ _ _ ⟨by simp [hc0], rfl⟩ h1
    intro s x s' _ hs hb
    rcases getCdxPredicate.cdx_software_ok env s s' x hb with ⟨_, rfl⟩ |
      ⟨sub, version, name, _, _, _, _, rfl⟩
    · exact hs
    · refine ⟨?_, hs.2⟩
      intro c hc
      simp only [List.mem_append, List.mem_singleton] at hc
      rcases hc with hc | rfl
      · exact hs.1 c hc
      · rfl
  have i2 : (∀ c ∈ st2.components, c.BOMRef = c.PackageURL) ∧
      (subject.Typename = some "Package" → st2.metadata = st0.metadata) := by
    refine forRange_invariant (fun s : CdxBuild =>
      (∀ c ∈ s.components, c.BOMRef = c.PackageURL) ∧
        (subject.Typename = some "Package" → s.metadata = st0.metadata))
      _ _ ?_ _ _ ⟨i1.1, fun _ => i1.2⟩ h2
    intro s x s' _ hs hb
    obtain ⟨sub, version, _, _, hcase⟩ := getCdxPredicate.cdx_occurrence_ok env subject s s' x hb
    rcases hcase with ⟨ha, _, name, _, rfl⟩ | ⟨_, rfl⟩
    · refine ⟨hs.1, ?_⟩
      intro hp
      rw [hp] at ha
      exact absurd ha (by decide)
    · exact hs
  have i3 : (∀ c ∈ st3.components, c.BOMRef = c.PackageURL) ∧
      st3.metadata = st2.metadata := by
    refine forRange_invariant (fun s : CdxBuild =>
      (∀ c ∈ s.components, c.BOMRef = c.PackageURL) ∧ s.metadata = st2.metadata)
      _ _ ?_ _ _ ⟨i2.1, rfl⟩ h3
    intro s x s' _ hs hb
    rcases getCdxPredicate.cdx_hashes_ok s s' x hb with ⟨_, rfl⟩ | ⟨occPkg, _, rfl⟩
    · exact hs
    · refine ⟨?_, hs.2⟩
      intro c hc
      rcases mem_modifyAt _ _ _ _ hc with hc | ⟨q, hq, rfl⟩
      · exact hs.1 c hc
      · exact hs.1 q hq
  have i4 : st4.components = st3.components ∧ st4.metadata = st3.metadata := by
    refine forRange_invariant (fun s : CdxBuild =>
      s.components = st3.components ∧ s.metadata = st3.metadata) _ _ ?_ _ _ ⟨rfl, rfl⟩ h4
    intro s x s' _ hs hb
    rcases getCdxPredicate.cdx_dependency_ok s s' x hb with ⟨_, rfl⟩ | ⟨_, p, d, _, _, rfl⟩
    · exact hs
    · exact hs
  have i5 : st.components = st4.components ∧ st.metadata = st4.metadata := by
    refine forRange_invariant (fun s : CdxBuild =>
      s.components = st4.components ∧ s.metadata = st4.metadata) _ _ ?_ _ _ ⟨rfl, rfl⟩ h5
    intro s x s' _ hs hb
    rcases getCdxPredicate.cdx_vex_ok env sbom.Uri s s' x hb with rfl | ⟨v, rfl⟩
    · exact hs
    · exact hs
  constructor
  · rw [i5.1, i4.1]; exact i3.1
  · intro hp
    obtain ⟨version, hv, hm, _⟩ := hm0 hp
    exact ⟨version, hv, by rw [i5.2, i4.2, i3.2, i2.2 hp, hm]⟩

/-- C6: for a Package subject, whatever the included-software list: when
`getSpdxPredicate` succeeds, no package that it lists has the subject's purl
as its package-manager reference; and when `getCdxPredicate` succeeds, no
component that it lists has the subject's purl as its reference or its
package URL.  Each builder is taken under its own success only. -/
theorem no_entry_for_subject (env : Env) (sbom : HasSBOM) (subject : PkgSubject)
    (subjectVersion : PkgVersion)
    (hpkg : subject.Typename = some "Package")
    (hsv : version0 subject.Namespaces = .ok subjectVersion) :
    (∀ doc, getSpdxPredicate env sbom subject = .ok doc →
        ∀ p ∈ doc.Packages, ∀ r ∈ p.PackageExternalReferences,
          r.RefType = PackageManagerPURL → r.Locator ≠ subjectVersion.Purl) ∧
      (∀ vuln bom, getCdxPredicate env sbom subject vuln = .ok bom →
        ∀ c ∈ bom.Components,
          c.PackageURL ≠ subjectVersion.Purl ∧ c.BOMRef ≠ subjectVersion.Purl) := by
  constructor
  · intro doc hdoc
    obtain ⟨name, st, _, hb, rfl⟩ := getSpdxPredicate_ok env sbom subject doc hdoc
    refine getSpdxPredicate.spdx_build_packages env sbom subject st
      (fun p => ∀ r ∈ p.PackageExternalReferences,
        r.RefType = PackageManagerPURL → r.Locator ≠ subjectVersion.Purl) ?_ ?_ hb
    · intro sub version sv name legal metadata _ hsv' hne r hr hty
      rw [hsv] at hsv'
      injection hsv' with hsv'
      subst hsv'
      simp only [List.mem_cons] at hr
      rcases hr with rfl | hr
      · exact hne
      · rw [refType_of_mem_cpeReferences metadata r hr] at hty
        exact absurd hty (by decide)
    · intro p checksum hp
      exact hp
  · intro vuln bom hbom
    obtain ⟨st, hb, rfl⟩ := getCdxPredicate_ok env sbom subject vuln bom hbom
    obtain ⟨hc, hm⟩ := getCdxPredicate.cdx_build_components env sbom subject vuln st hb
    obtain ⟨version, hv, hm⟩ := hm hpkg
    rw [hsv] at hv
    injection hv with hv
    subst hv
    intro c hcm
    simp only [List.mem_filter, decide_eq_true_eq] at hcm
    rw [hm] at hcm
    exact ⟨by rw [← hc c hcm.1]; exact hcm.2, hcm.2⟩

/-- C6, at the subject `P`: with the included software `P, Q, P` both
builders succeed and neither lists `P`; with the included software
`P, Q, R, P` and a legal lookup that fails for `R`, `getSpdxPredicate`
returns the error while `getCdxPredicate` succeeds and does not list `P`. -/
theorem no_entry_for_subject_witness :
    (∃ doc bom,
      getSpdxPredicate plainEnv (sbomOfP "https://example.com/sbom" [nodeP, nodeQ, nodeP] [] [])
        subjectP = .ok doc ∧
      getCdxPredicate plainEnv (sbomOfP "urn:uuid:1234" [nodeP, nodeQ, nodeP] [] [])
        subjectP [] = .ok bom ∧
      doc.Packages.map (·.PackageSPDXIdentifier) = ["Q"] ∧
      bom.Components.map (·.BOMRef) = ["pkg:test/b@1"] ∧
      (∀ p ∈ doc.Packages, ∀ r ∈ p.PackageExternalReferences,
        r.RefType = PackageManagerPURL → r.Locator ≠ "pkg:test/a@1") ∧
      (∀ c ∈ bom.Components,
        c.PackageURL ≠ "pkg:test/a@1" ∧ c.BOMRef ≠ "pkg:test/a@1")) ∧
    (∃ bom,
      getSpdxPredicate legalFailsEnv
        (sbomOfP "urn:uuid:1234" [nodeP, nodeQ, nodeR, nodeP] [] []) subjectP =
          .error (.error "legal lookup failed") ∧
      getCdxPredicate legalFailsEnv
        (sbomOfP "urn:uuid:1234" [nodeP, nodeQ, nodeR, nodeP] [] []) subjectP [] = .ok bom ∧
      bom.Components.map (·.BOMRef) = ["pkg:test/b@1", "pkg:test/c@1"] ∧
      (∀ c ∈ bom.Components,
        c.PackageURL ≠ "pkg:test/a@1" ∧ c.BOMRef ≠ "pkg:test/a@1")) :=
  ⟨⟨_, _, rfl, rfl, rfl, rfl,
      (no_entry_for_subject plainEnv
        (sbomOfP "https://example.com/sbom" [nodeP, nodeQ, nodeP] [] []) subjectP
        { Id := "P", Version := "1", Purl := "pkg:test/a@1", Qualifiers := [] }
        rfl rfl).1 _ rfl,
      (no_entry_for_subject plainEnv
        (sbomOfP "urn:uuid:1234" [nodeP, nodeQ, nodeP] [] []) subjectP
        { Id := "P", Version := "1", Purl := "pkg:test/a@1", Qualifiers := [] }
        rfl rfl).2 [] _ rfl⟩,
    ⟨_, rfl, rfl, rfl,
      (no_entry_for_subject legalFailsEnv
        (sbomOfP "urn:uuid:1234" [nodeP, nodeQ, nodeR, nodeP] [] []) subjectP
        { Id := "P", Version := "1", Purl := "pkg:test/a@1", Qualifiers := [] }
        rfl rfl).2 [] _ rfl⟩⟩

theorem packageIds_cons_skip (env : Env) (pkg : Node) (software : List Node)
    (h : pkg.Typename ≠ some "Package") :
    packageIds env (pkg :: software) = packageIds env software := by
  simp [packageIds, List.filterMap_cons, h]

theorem packageIds_cons_package (env : Env) (pkg : Node) (software : List Node)
    (sub : PkgSubject) (version : PkgVersion)
    (ht : pkg.Typename = some "Package") (hp : env.parsePkgSubject pkg = .ok sub)
    (hv : version0 sub.Namespaces = .ok version) :
    packageIds env (pkg :: software) = version.Id :: packageIds env software := by
  simp [packageIds, List.filterMap_cons, ht, hp, hv]

theorem packageIds_sublist_cons (env : Env) (pkg : Node) (software : List Node) :
    (packageIds env software).Sublist (packageIds env (pkg :: software)) := by
  simp only [packageIds, List.filterMap_cons]
  split
  · exact List.Sublist.refl _
  · exact List.sublist_cons_self _ _

theorem getSpdxPredicate.spdx_software_ids (env : Env) (subject : PkgSubject)
    (software : List Node) :
    ∀ st st', forRange (getSpdxPredicate.software env subject) software st = .ok st' →
      ∃ l, l.Sublist (packageIds env software) ∧
        st'.packages.map (·.PackageSPDXIdentifier) =
          st.packages.map (·.PackageSPDXIdentifier) ++ l := by
  induction software with
  | nil =>
    intro st st' h
    simp only [forRange, Except.ok.injEq] at h
    exact ⟨[], by simp [packageIds], by simp [h]⟩
  | cons pkg rest ih =>
    intro st st' h
    simp only [forRange] at h
    cases hb : getSpdxPredicate.software env subject st pkg with
    | error e => rw [hb] at h; cases h
    | ok s1 =>
      rw [hb] at h
      obtain ⟨l, hl, hids⟩ := ih s1 st' h
      rcases getSpdxPredicate.spdx_software_ok env subject st s1 pkg hb with rfl |
        ⟨sub, version, subjectVersion, name, legal, metadata, ht, hp, hv, _, _, _, _, _, rfl⟩
      · exact ⟨l, hl.trans (packageIds_sublist_cons env pkg rest), hids⟩
      · refine ⟨version.Id :: l, ?_, ?_⟩
        · rw [packageIds_cons_package env pkg rest sub version ht hp hv]
          exact hl.cons₂ _
        · rw [hids]; simp

theorem assign_of_not_mem {α : Type} (m : List (String × α)) (k : String) (v : α)
    (h : k ∉ keysOf m) : assign m k v = m ++ [(k, v)] := by
  induction m with
  | nil => simp [assign]
  | cons e rest ih =>
    obtain ⟨k0, v0⟩ := e
    simp only [keysOf, List.map_cons, List.mem_cons, not_or] at h
    have h0 : ¬ k0 = k := fun e => h.1 e.symm
    have hrest : k ∉ keysOf rest := by simpa [keysOf] using h.2
    simp [assign, h0, ih hrest]

theorem getCdxPredicate.componentOf_cons_skip (env : Env) (pkg : Node) (software : List Node)
    (h : pkg.Typename ≠ some "Package") :
    (pkg :: software).filterMap (getCdxPredicate.componentOf env) =
      software.filterMap (getCdxPredicate.componentOf env) := by
  simp [getCdxPredicate.componentOf, List.filterMap_cons, h]

theorem getCdxPredicate.componentOf_cons_package (env : Env) (pkg : Node)
    (software : List Node) (sub : PkgSubject) (version : PkgVersion) (name : PkgName)
    (ht : pkg.Typename = some "Package") (hp : env.parsePkgSubject pkg = .ok sub)
    (hv : version0 sub.Namespaces = .ok version) (hn : name0 sub.Namespaces = .ok name) :
    (pkg :: software).filterMap (getCdxPredicate.componentOf env) =
      (version.Id,
        { Type_ := ComponentTypeLibrary, BOMRef := version.Purl,
          PackageURL := version.Purl, Name := name.Name, Version := version.Version,
          Hashes := none }) :: software.filterMap (getCdxPredicate.componentOf env) := by
  simp [getCdxPredicate.componentOf, List.filterMap_cons, ht, hp, hv, hn]

theorem getCdxPredicate.cdx_software_entries (env : Env) (software : List Node) :
    ∀ st st', forRange (getCdxPredicate.software env) software st = .ok st' →
      (software.filterMap (getCdxPredicate.componentOf env)).map Prod.fst =
          packageIds env software ∧
        st'.components = st.components ++
          (software.filterMap (getCdxPredicate.componentOf env)).map Prod.snd ∧
        ((packageIds env software).Nodup →
          (∀ id ∈ packageIds env software, id ∉ keysOf st.componentMap) →
          st'.componentMap = st.componentMap ++
            (packageIds env software).zip
              (List.range' st.components.length (packageIds env software).length)) := by
  induction software with
  | nil =>
    intro st st' h
    simp only [forRange, Except.ok.injEq] at h
    subst h
    simp [packageIds]
  | cons pkg rest ih =>
    intro st st' h
    simp only [forRange] at h
    cases hb : getCdxPredicate.software env st pkg with
    | error e => rw [hb] at h; cases h
    | ok s1 =>
      rw [hb] at h
      obtain ⟨hids, hcomp, hmap⟩ := ih s1 st' h
      rcases getCdxPredicate.cdx_software_ok env st s1 pkg hb with ⟨ht, hs⟩ |
        ⟨sub, version, name, ht, hp, hv, hn, hs⟩
      · rw [packageIds_cons_skip env pkg rest ht,
          getCdxPredicate.componentOf_cons_skip env pkg rest ht]
        rw [hs] at hcomp hmap
        exact ⟨hids, hcomp, hmap⟩
      · rw [packageIds_cons_package env pkg rest sub version ht hp hv,
          getCdxPredicate.componentOf_cons_package env pkg rest sub version name ht hp hv hn]
        rw [hs] at hcomp hmap
        refine ⟨by simp [hids], by simp [hcomp], ?_⟩
        intro hnd hfresh
        rw [List.nodup_cons] at hnd
        have hnew : version.Id ∉ keysOf st.componentMap :=
          hfresh version.Id (List.mem_cons_self _ _)
        have hk1 : keysOf (assign st.componentMap version.Id st.components.length) =
            keysOf st.componentMap ++ [version.Id] := by
          rw [keysOf_assign, if_neg hnew]
        rw [hmap hnd.2 ?_]
        · simp [assign_of_not_mem _ _ _ hnew, List.range'_succ]
        · intro id hid
          simp only [hk1, List.mem_append, List.mem_singleton, not_or]
          refine ⟨hfresh id (List.mem_cons_of_mem _ hid), ?_⟩
          rintro rfl
          exact hnd.1 hid

/-- C7 (as stated it fails): with the package `Q` listed twice in the included
software, `getSpdxPredicate` lists two packages with the node id `Q`, and the
component list of `getCdxPredicate` has two entries while `componentMap` has
the one key `Q`. -/
theorem repeated_node_listed_twice :
    (getSpdxPredicate plainEnv (sbomOfP "urn:uuid:1234" [nodeQ, nodeQ] [] [])
        subjectP).map (fun doc => doc.Packages.map (·.PackageSPDXIdentifier)) =
      .ok ["Q", "Q"] ∧
    (getCdxPredicate.build plainEnv (sbomOfP "urn:uuid:1234" [nodeQ, nodeQ] [] [])
        subjectP []).map (fun st => (st.components.length, keysOf st.componentMap)) =
      .ok (2, ["Q"]) :=
  ⟨rfl, rfl⟩

/-- C7 (amended): when `getSpdxPredicate` succeeds, the node ids of the
packages that it lists are, in order, among the node ids of the listed
`"Package"` nodes, one entry at most per listing; when the loops of
`getCdxPredicate` complete, as they do whenever it succeeds, the component
source list has one entry per listed `"Package"` node, none of which is left
out, in list order, the entry being the component of that node up to the
hashes that are set later.
So when the listed node ids are pairwise distinct, the packages have pairwise
distinct node ids, and `componentMap` sends the node id of the `i`-th listed
node to the `i`-th component.  Each builder is taken under its own success
only. -/
theorem one_entry_per_listed_id (env : Env) (sbom : HasSBOM) (subject : PkgSubject) :
    (∀ doc, getSpdxPredicate env sbom subject = .ok doc →
        (doc.Packages.map (·.PackageSPDXIdentifier)).Sublist
            (packageIds env sbom.IncludedSoftware) ∧
          ((packageIds env sbom.IncludedSoftware).Nodup →
            (doc.Packages.map (·.PackageSPDXIdentifier)).Nodup)) ∧
      (∀ vuln st, getCdxPredicate.build env sbom subject vuln = .ok st →
        (∀ pkg ∈ sbom.IncludedSoftware, pkg.Typename = some "Package" →
            (getCdxPredicate.componentOf env pkg).isSome) ∧
          (sbom.IncludedSoftware.filterMap (getCdxPredicate.componentOf env)).map Prod.fst =
            packageIds env sbom.IncludedSoftware ∧
          st.components.map (fun c => { c with Hashes := none }) =
            (sbom.IncludedSoftware.filterMap (getCdxPredicate.componentOf env)).map Prod.snd ∧
          ((packageIds env sbom.IncludedSoftware).Nodup →
            st.componentMap =
              (packageIds env sbom.IncludedSoftware).zip
                (List.range (packageIds env sbom.IncludedSoftware).length))) := by
  constructor
  · intro doc hdoc
    obtain ⟨name, sp, _, hb, rfl⟩ := getSpdxPredicate_ok env sbom subject doc hdoc
    obtain ⟨st1, st2, h1, h2, h3⟩ := getSpdxPredicate.spdx_build_ok env sbom subject sp hb
    obtain ⟨l, hl, hids⟩ := getSpdxPredicate.spdx_software_ids env subject _ _ _ h1
    have i2 : st2.packages.map (·.PackageSPDXIdentifier) =
        st1.packages.map (·.PackageSPDXIdentifier) := by
      refine forRange_invariant (fun s : SpdxBuild =>
        s.packages.map (·.PackageSPDXIdentifier) =
          st1.packages.map (·.PackageSPDXIdentifier)) _ _ ?_ _ _ rfl h2
      intro s x s' _ hs hb
      obtain ⟨sub, ns, version, _, _, _, hcase⟩ := getSpdxPredicate.spdx_occurrence_ok env s s' x hb
      rcases hcase with ⟨_, name, _, ⟨_, rfl⟩ | ⟨f, _, rfl⟩ | ⟨_, rfl⟩⟩ |
        ⟨_, ⟨occPkg, _, rfl⟩ | ⟨_, rfl⟩⟩
      · exact hs
      · exact hs
      · exact hs
      · exact (map_modifyAt
          (fun p : SpdxPackage => { p with
            PackageChecksums := p.PackageChecksums ++
              [{ Algorithm := x.Artifact.Algorithm, Value := x.Artifact.Digest }] })
          (fun p => p.PackageSPDXIdentifier) (fun _ => rfl) s.packages occPkg).trans hs
      · exact hs
    have i3 : sp.packages = st2.packages := by
      refine forRange_invariant (fun s : SpdxBuild => s.packages = st2.packages)
        _ _ ?_ _ _ rfl h3
      intro s x s' _ hs hb
      obtain ⟨sv, pv, _, _, hcase⟩ := getSpdxPredicate.spdx_dependency_ok subject s s' x hb
      rcases hcase with ⟨_, rfl⟩ | ⟨_, dv, _, rfl⟩
      · exact hs
      · exact hs
    have hsub : (sp.packages.map (·.PackageSPDXIdentifier)).Sublist
        (packageIds env sbom.IncludedSoftware) := by
      simp only [i3, i2, hids, List.map_nil, List.nil_append]
      exact hl
    exact ⟨hsub, fun hnd => hsub.nodup hnd⟩
  · intro vuln st hst
    obtain ⟨st0, st1, st2, st3, st4, h0, h1, h2, h3, h4, h5⟩ :=
      getCdxPredicate.cdx_build_ok env sbom subject vuln st hst
    obtain ⟨hc0, hm0, _, _, _, _⟩ := getCdxPredicate.cdx_init_ok subject st0 h0
    obtain ⟨hids, hcomp, hmap⟩ := getCdxPredicate.cdx_software_entries env _ _ _ h1
    simp only [hc0, hm0, List.nil_append, List.length_nil] at hcomp hmap
    have i2 : st2.componentMap = st1.componentMap ∧ st2.components = st1.components := by
      refine forRange_invariant (fun s : CdxBuild =>
        s.componentMap = st1.componentMap ∧ s.components = st1.components)
        _ _ ?_ _ _ ⟨rfl, rfl⟩ h2
      intro s x s' _ hs hb
      obtain ⟨sub, version, _, _, hcase⟩ := getCdxPredicate.cdx_occurrence_ok env subject s s' x hb
      rcases hcase with ⟨_, _, name, _, rfl⟩ | ⟨_, rfl⟩
      · exact hs
      · exact hs
    have i3 : st3.componentMap = st2.componentMap ∧
        st3.components.map (fun c => { c with Hashes := none }) =
          st2.components.map (fun c => { c with Hashes := none }) := by
      refine forRange_invariant (fun s : CdxBuild =>
        s.componentMap = st2.componentMap ∧
          s.components.map (fun c => { c with Hashes := none }) =
            st2.components.map (fun c => { c with Hashes := none }))
        _ _ ?_ _ _ ⟨rfl, rfl⟩ h3
      intro s x s' _ hs hb
      rcases getCdxPredicate.cdx_hashes_ok s s' x hb with ⟨_, rfl⟩ | ⟨occPkg, _, rfl⟩
      · exact hs
      · have hfg : ∀ a : Component,
            (fun c : Component => ({ c with Hashes := none } : Component))
              ((fun c : Component => ({ c with Hashes := some x.2 } : Component)) a) =
            (fun c : Component => ({ c with Hashes := none } : Component)) a :=
          fun _ => rfl
        exact ⟨hs.1, (map_modifyAt _ _ hfg s.components occPkg).trans hs.2⟩
    have i4 : st4.componentMap = st3.componentMap ∧ st4.components = st3.components := by
      refine forRange_invariant (fun s : CdxBuild =>
        s.componentMap = st3.componentMap ∧ s.components = st3.components)
        _ _ ?_ _ _ ⟨rfl, rfl⟩ h4
      intro s x s' _ hs hb
      rcases getCdxPredicate.cdx_dependency_ok s s' x hb with ⟨_, rfl⟩ | ⟨_, p, d, _, _, rfl⟩
      · exact hs
      · exact hs
    have i5 : st.componentMap = st4.componentMap ∧ st.components = st4.components := by
      refine forRange_invariant (fun s : CdxBuild =>
        s.componentMap = st4.componentMap ∧ s.components = st4.components)
        _ _ ?_ _ _ ⟨rfl, rfl⟩ h5
      intro s x s' _ hs hb
      rcases getCdxPredicate.cdx_vex_ok env sbom.Uri s s' x hb with rfl | ⟨v, rfl⟩
      · exact hs
      · exact hs
    refine ⟨?_, hids, ?_, ?_⟩
    · intro pkg hpkg ht
      obtain ⟨s1, s2, hs⟩ := forRange_each_ok _ _ st0 st1 h1 pkg hpkg
      rcases getCdxPredicate.cdx_software_ok env s1 s2 pkg hs with ⟨hnt, _⟩ |
        ⟨sub, version, name, _, hp, hv, hn, _⟩
      · exact absurd ht hnt
      · simp [getCdxPredicate.componentOf, ht, hp, hv, hn]
    · rw [i5.2, i4.2, i3.2, i2.2, hcomp]
      simp only [List.map_map]
      refine List.map_congr_left ?_
      intro e he
      simp only [List.mem_filterMap] at he
      obtain ⟨pkg, _, hof⟩ := he
      unfold getCdxPredicate.componentOf at hof
      split at hof
      · split at hof
        · split at hof
          · injection hof with hof
            subst hof
            rfl
          · cases hof
        · cases hof
      · cases hof
    · intro hnd
      rw [i5.1, i4.1, i3.1, i2.1, hmap hnd (by simp [keysOf]), List.range_eq_range']

/-- C7 (amended), at the included software `P, Q, R`: for the subject `P`,
`getSpdxPredicate` lists the packages `Q` and `R`, once each; for the
Artifact subject `A`, on which `getSpdxPredicate` fails, the component source
list of `getCdxPredicate` holds the components of `P`, `Q` and `R`, and
`componentMap` sends `P`, `Q`, `R` to the entries `0`, `1`, `2`. -/
theorem one_entry_per_listed_id_witness :
    (∃ doc,
      getSpdxPredicate plainEnv
        (sbomOfP "https://example.com/sbom" [nodeP, nodeQ, nodeR] [] []) subjectP = .ok doc ∧
      doc.Packages.map (·.PackageSPDXIdentifier) = ["Q", "R"] ∧
      (doc.Packages.map (·.PackageSPDXIdentifier)).Sublist
        (packageIds plainEnv [nodeP, nodeQ, nodeR]) ∧
      (doc.Packages.map (·.PackageSPDXIdentifier)).Nodup) ∧
    (∃ st,
      getSpdxPredicate plainEnv
        { Subject := artifactNode "A" "sha256" "abc", Uri := "urn:uuid:1234",
          KnownSince := "2024-01-01T00:00:00Z", IncludedSoftware := [nodeP, nodeQ, nodeR],
          IncludedOccurrences := [], IncludedDependencies := [] }
        (artifactSubject "A" "sha256" "abc") = .error .panic ∧
      getCdxPredicate.build plainEnv
        { Subject := artifactNode "A" "sha256" "abc", Uri := "urn:uuid:1234",
          KnownSince := "2024-01-01T00:00:00Z", IncludedSoftware := [nodeP, nodeQ, nodeR],
          IncludedOccurrences := [], IncludedDependencies := [] }
        (artifactSubject "A" "sha256" "abc") [] = .ok st ∧
      packageIds plainEnv [nodeP, nodeQ, nodeR] = ["P", "Q", "R"] ∧
      st.components.map (fun c => { c with Hashes := none }) =
        ([nodeP, nodeQ, nodeR].filterMap (getCdxPredicate.componentOf plainEnv)).map
          Prod.snd ∧
      st.componentMap = [("P", 0), ("Q", 1), ("R", 2)] ∧
      st.componentMap =
        (packageIds plainEnv [nodeP, nodeQ, nodeR]).zip
          (List.range (packageIds plainEnv [nodeP, nodeQ, nodeR]).length)) :=
  ⟨⟨_, rfl, rfl,
      ((one_entry_per_listed_id plainEnv
        (sbomOfP "https://example.com/sbom" [nodeP, nodeQ, nodeR] [] []) subjectP).1
          _ rfl).1,
      ((one_entry_per_listed_id plainEnv
        (sbomOfP "https://example.com/sbom" [nodeP, nodeQ, nodeR] [] []) subjectP).1
          _ rfl).2 (by decide)⟩,
    ⟨_, rfl, rfl, rfl,
      ((one_entry_per_listed_id plainEnv
        { Subject := artifactNode "A" "sha256" "abc", Uri := "urn:uuid:1234",
          KnownSince := "2024-01-01T00:00:00Z", IncludedSoftware := [nodeP, nodeQ, nodeR],
          IncludedOccurrences := [], IncludedDependencies := [] }
        (artifactSubject "A" "sha256" "abc")).2 [] _ rfl).2.2.1,
      rfl,
      ((one_entry_per_listed_id plainEnv
        { Subject := artifactNode "A" "sha256" "abc", Uri := "urn:uuid:1234",
          KnownSince := "2024-01-01T00:00:00Z", IncludedSoftware := [nodeP, nodeQ, nodeR],
          IncludedOccurrences := [], IncludedDependencies := [] }
        (artifactSubject "A" "sha256" "abc")).2 [] _ rfl).2.2.2 (by decide)⟩⟩

/-! ## Files and relationships: claims C8 and C10 -/

/-- C8 (the code departs from it): two occurrences of the file `f` that has no
`"filename"` qualifier, with the checksums `sha1:aa` and `sha256:bb`, give two
file entries of one checksum each, since the entry is stored under the key
`"f:f"` and looked up under `"f:"`; with the qualifier `filename=f` the
same two occurrences give one entry that holds both checksums. -/
theorem files_without_filename_not_merged :
    (getSpdxPredicate plainEnv
        (sbomOfP "https://example.com/sbom" []
          [{ Subject := fileNode "f" "F",
             Artifact := { Id := "A1", Algorithm := "sha1", Digest := "aa" } },
           { Subject := fileNode "f" "F",
             Artifact := { Id := "A2", Algorithm := "sha256", Digest := "bb" } }] [])
        subjectP).map (fun doc => doc.Files) =
      .ok [{ FileSPDXIdentifier := "F", FileName := "f",
             Checksums := [{ Algorithm := "sha1", Value := "aa" }] },
           { FileSPDXIdentifier := "F", FileName := "f",
             Checksums := [{ Algorithm := "sha256", Value := "bb" }] }] ∧
    (getSpdxPredicate plainEnv
        (sbomOfP "https://example.com/sbom" []
          [{ Subject := namedFileNode "f" "F" "f",
             Artifact := { Id := "A1", Algorithm := "sha1", Digest := "aa" } },
           { Subject := namedFileNode "f" "F" "f",
             Artifact := { Id := "A2", Algorithm := "sha256", Digest := "bb" } }] [])
        subjectP).map (fun doc => doc.Files) =
      .ok [{ FileSPDXIdentifier := "F", FileName := "f",
             Checksums := [{ Algorithm := "sha1", Value := "aa" },
                           { Algorithm := "sha256", Value := "bb" }] }] :=
  ⟨rfl, rfl⟩

theorem mem_assign {α : Type} (m : List (String × α)) (k : String) (v : α)
    (e : String × α) (h : e ∈ assign m k v) : e = (k, v) ∨ e ∈ m := by
  induction m with
  | nil => left; simpa [assign] using h
  | cons e0 rest ih =>
    obtain ⟨k0, v0⟩ := e0
    by_cases h0 : k0 = k
    · simp only [assign, h0, if_true, List.mem_cons] at h
      rcases h with h | h
      · left; exact h
      · right; exact List.mem_cons_of_mem _ h
    · simp only [assign, h0, if_false, List.mem_cons] at h
      rcases h with h | h
      · right; simp [h]
      · rcases ih h with h | h
        · left; exact h
        · right; exact List.mem_cons_of_mem _ h

theorem getSpdxPredicate.spdx_build_relationships (env : Env) (sbom : HasSBOM)
    (subject : PkgSubject) (st : SpdxBuild)
    (h : getSpdxPredicate.build env sbom subject = .ok st) :
    ∃ st2, forRange (getSpdxPredicate.dependency subject) sbom.IncludedDependencies st2 =
        .ok st ∧ st2.relationships = [] := by
  obtain ⟨st1, st2, h1, h2, h3⟩ := getSpdxPredicate.spdx_build_ok env sbom subject st h
  have i1 : st1.relationships = [] := by
    refine forRange_invariant (fun s : SpdxBuild => s.relationships = []) _ _ ?_ _ _ rfl h1
    intro s x s' _ hs hb
    rcases getSpdxPredicate.spdx_software_ok env subject s s' x hb with rfl |
      ⟨sub, version, subjectVersion, name, legal, metadata, _, _, _, _, _, _, _, _, rfl⟩
    · exact hs
    · exact hs
  have i2 : st2.relationships = [] := by
    refine forRange_invariant (fun s : SpdxBuild => s.relationships = []) _ _ ?_ _ _ i1 h2
    intro s x s' _ hs hb
    obtain ⟨sub, ns, version, _, _, _, hcase⟩ := getSpdxPredicate.spdx_occurrence_ok env s s' x hb
    rcases hcase with ⟨_, name, _, ⟨_, rfl⟩ | ⟨f, _, rfl⟩ | ⟨_, rfl⟩⟩ |
      ⟨_, ⟨occPkg, _, rfl⟩ | ⟨_, rfl⟩⟩ <;> exact hs
  exact ⟨st2, h3, i2⟩

theorem getSpdxPredicate.spdx_dependency_relationships (subject : PkgSubject)
    (dependencies : List Dependency) :
    ∀ st st', forRange (getSpdxPredicate.dependency subject) dependencies st = .ok st' →
      st'.relationships = st.relationships ++
        dependencies.filterMap (getSpdxPredicate.relationshipOf subject) := by
  induction dependencies with
  | nil =>
    intro st st' h
    simp only [forRange, Except.ok.injEq] at h
    simp [h]
  | cons rel rest ih =>
    intro st st' h
    simp only [forRange] at h
    cases hb : getSpdxPredicate.dependency subject st rel with
    | error e => rw [hb] at h; cases h
    | ok s1 =>
      rw [hb] at h
      rw [ih s1 st' h]
      obtain ⟨subjectVersion, pkgVersion, hsv, hpv, hcase⟩ :=
        getSpdxPredicate.spdx_dependency_ok subject st s1 rel hb
      rcases hcase with ⟨heq, rfl⟩ | ⟨hne, depVersion, hdv, rfl⟩
      · have : getSpdxPredicate.relationshipOf subject rel = none := by
          unfold getSpdxPredicate.relationshipOf
          rw [hsv, hpv]
          split
          · rename_i h1 h2 h3
            injection h1 with h1
            injection h2 with h2
            subst h1 h2
            simp [heq]
          · rfl
        simp [List.filterMap_cons, this]
      · have : getSpdxPredicate.relationshipOf subject rel =
            some { RefA := pkgVersion.Id, RefB := depVersion.Id,
                   Relationship := TypeRelationshipOther } := by
          simp [getSpdxPredicate.relationshipOf, hsv, hpv, hdv, hne]
        simp [List.filterMap_cons, this]

theorem getCdxPredicate.cdx_build_dependencyMap (env : Env) (sbom : HasSBOM)
    (subject : PkgSubject) (vuln : List CertifyVEXStatement) (st : CdxBuild)
    (h : getCdxPredicate.build env sbom subject vuln = .ok st) :
    ∃ st3 st4, st3.dependencyMap = [] ∧
      forRange getCdxPredicate.dependency sbom.IncludedDependencies st3 = .ok st4 ∧
      st.dependencyMap = st4.dependencyMap := by
  obtain ⟨st0, st1, st2, st3, st4, h0, h1, h2, h3, h4, h5⟩ :=
    getCdxPredicate.cdx_build_ok env sbom subject vuln st h
  obtain ⟨_, _, _, hd0, _, _⟩ := getCdxPredicate.cdx_init_ok subject st0 h0
  have i1 : st1.dependencyMap = [] := by
    refine forRange_invariant (fun s : CdxBuild => s.dependencyMap = []) _ _ ?_ _ _ hd0 h1
    intro s x s' _ hs hb
    rcases getCdxPredicate.cdx_software_ok env s s' x hb with ⟨_, rfl⟩ |
      ⟨sub, version, name, _, _, _, _, rfl⟩ <;> exact hs
  have i2 : st2.dependencyMap = [] := by
    refine forRange_invariant (fun s : CdxBuild => s.dependencyMap = []) _ _ ?_ _ _ i1 h2
    intro s x s' _ hs hb
    obtain ⟨sub, version, _, _, hcase⟩ := getCdxPredicate.cdx_occurrence_ok env subject s s' x hb
    rcases hcase with ⟨_, _, name, _, rfl⟩ | ⟨_, rfl⟩ <;> exact hs
  have i3 : st3.dependencyMap = [] := by
    refine forRange_invariant (fun s : CdxBuild => s.dependencyMap = []) _ _ ?_ _ _ i2 h3
    intro s x s' _ hs hb
    rcases getCdxPredicate.cdx_hashes_ok s s' x hb with ⟨_, rfl⟩ | ⟨occPkg, _, rfl⟩ <;> exact hs
  have i5 : st.dependencyMap = st4.dependencyMap := by
    refine forRange_invariant (fun s : CdxBuild => s.dependencyMap = st4.dependencyMap)
      _ _ ?_ _ _ rfl h5
    intro s x s' _ hs hb
    rcases getCdxPredicate.cdx_vex_ok env sbom.Uri s s' x hb with rfl | ⟨v, rfl⟩ <;> exact hs
  exact ⟨st3, st4, i3, h4, i5⟩

/-- C10 (as stated it fails): for the subject `P` (purl `pkg:test/a@1`) with
the single edge from `P` to `Q` (purl `pkg:test/b@1`), whose two purls differ,
the relationship list of `getSpdxPredicate` is empty. -/
theorem subject_edge_not_emitted :
    (getSpdxPredicate plainEnv
        (sbomOfP "https://example.com/sbom" [nodeP, nodeQ]
          [{ Subject := nodeP,
             Artifact := { Id := "A1", Algorithm := "sha256", Digest := "abc" } }]
          [edge nodeP nodeQ "DIRECT"])
        subjectP).map (fun doc => doc.Relationships) = .ok [] :=
  rfl

/-- C10 (amended): the relationship list of `getSpdxPredicate` is, in input
order, one relationship of type `common.TypeRelationshipOther` from the
package node id to the dependency node id for each dependency edge whose
package purl differs from the purl of the subject, and nothing else. -/
theorem relationships_of_edges_not_of_subject (env : Env) (sbom : HasSBOM)
    (subject : PkgSubject) (doc : SpdxDocument)
    (hdoc : getSpdxPredicate env sbom subject = .ok doc) :
    doc.Relationships =
      sbom.IncludedDependencies.filterMap (getSpdxPredicate.relationshipOf subject) := by
  obtain ⟨name, st, _, hb, rfl⟩ := getSpdxPredicate_ok env sbom subject doc hdoc
  obtain ⟨st2, h3, h2⟩ := getSpdxPredicate.spdx_build_relationships env sbom subject st hb
  simp [getSpdxPredicate.spdx_dependency_relationships subject _ st2 st h3, h2]

/-- C10 (amended), at the subject `P` with the edges from `P` to `Q`, from `Q`
to `R` and from `R` to `P`: the edge of `P` is left out. -/
theorem relationships_of_edges_not_of_subject_witness :
    ∃ doc,
      getSpdxPredicate plainEnv
        (sbomOfP "https://example.com/sbom" [nodeQ, nodeR] []
          [edge nodeP nodeQ "DIRECT", edge nodeQ nodeR "DIRECT", edge nodeR nodeP "DIRECT"])
        subjectP = .ok doc ∧
      doc.Relationships =
        [{ RefA := "Q", RefB := "R", Relationship := "OTHER" },
         { RefA := "R", RefB := "P", Relationship := "OTHER" }] ∧
      doc.Relationships =
        [edge nodeP nodeQ "DIRECT", edge nodeQ nodeR "DIRECT",
          edge nodeR nodeP "DIRECT"].filterMap (getSpdxPredicate.relationshipOf subjectP) :=
  ⟨_, rfl, rfl,
    relationships_of_edges_not_of_subject plainEnv
      (sbomOfP "https://example.com/sbom" [nodeQ, nodeR] []
        [edge nodeP nodeQ "DIRECT", edge nodeQ nodeR "DIRECT", edge nodeR nodeP "DIRECT"])
      subjectP _ rfl⟩

/-! ## The dependency list of `getCdxPredicate`: claim C16 -/

theorem Aggregates.nil : Aggregates [] [] := by
  constructor
  · simp [keysOf]
  · intro k; simp [lookupKey]

theorem Aggregates.assign_edge (m : List (String × List String))
    (edges : List (String × String)) (p d : String) (h : Aggregates m edges) :
    Aggregates (assign m p (((lookupKey m p).getD []) ++ [d])) (edges ++ [(p, d)]) := by
  obtain ⟨hnd, hl⟩ := h
  refine ⟨nodup_keysOf_assign m p _ hnd, ?_⟩
  intro k
  rw [lookupKey_assign]
  by_cases hk : p = k
  · subst hk
    have hold : (lookupKey m p).getD [] = (edges.filter fun e => e.1 = p).map Prod.snd := by
      rw [hl p]
      by_cases hmem : p ∈ edges.map Prod.fst
      · simp [hmem]
      · have : edges.filter (fun e => decide (e.1 = p)) = [] := by
          rw [List.filter_eq_nil_iff]
          intro e he hep
          apply hmem
          simp only [decide_eq_true_eq] at hep
          rw [← hep]
          exact List.mem_map_of_mem Prod.fst he
        simp [hmem, this]
    simp [hold, List.filter_append]
  · have hk' : ¬ k = p := fun e => hk e.symm
    have hm : k ∈ (edges ++ [(p, d)]).map Prod.fst ↔ k ∈ edges.map Prod.fst := by
      simp [hk']
    rw [if_neg hk, hl k]
    simp only [hm, List.filter_append]
    simp [hk]

theorem getCdxPredicate.cdx_dependency_aggregates (dependencies : List Dependency) :
    ∀ (st st' : CdxBuild) (edges : List (String × String)),
      forRange getCdxPredicate.dependency dependencies st = .ok st' →
      Aggregates st.dependencyMap edges →
      Aggregates st'.dependencyMap (edges ++ getCdxPredicate.directEdges dependencies) := by
  induction dependencies with
  | nil =>
    intro st st' edges h hagg
    simp only [forRange, Except.ok.injEq] at h
    subst h
    simpa [getCdxPredicate.directEdges] using hagg
  | cons dep rest ih =>
    intro st st' edges h hagg
    simp only [forRange] at h
    cases hb : getCdxPredicate.dependency st dep with
    | error e => rw [hb] at h; cases h
    | ok s1 =>
      rw [hb] at h
      rcases getCdxPredicate.cdx_dependency_ok st s1 dep hb with ⟨hnd, hs⟩ |
        ⟨hd, p, d, hp, hdv, hs⟩
      · have : getCdxPredicate.directEdges (dep :: rest) =
            getCdxPredicate.directEdges rest := by
          simp [getCdxPredicate.directEdges, List.filterMap_cons, hnd]
        rw [this]
        exact ih s1 st' edges h (by rw [hs]; exact hagg)
      · have : getCdxPredicate.directEdges (dep :: rest) =
            (p.Purl, d.Purl) :: getCdxPredicate.directEdges rest := by
          simp [getCdxPredicate.directEdges, List.filterMap_cons, hd, hp, hdv]
        rw [this]
        have := ih s1 st' (edges ++ [(p.Purl, d.Purl)]) h
          (by rw [hs]; exact Aggregates.assign_edge st.dependencyMap edges p.Purl d.Purl hagg)
        simpa using this

/-- C16: when `getCdxPredicate` succeeds, every edge marked `"DIRECT"` has its
two purls, the dependency list has one record per package purl of these
edges and no other record, and the record of a package lists the dependency
purls of the `"DIRECT"` edges of that package, in input order; the edges of
another type add nothing. -/
theorem dependencies_aggregate_direct_edges (env : Env) (sbom : HasSBOM)
    (subject : PkgSubject) (vuln : List CertifyVEXStatement) (bom : BOM)
    (hrange : ∀ m, (env.rangeDependencies m).Perm m)
    (hbom : getCdxPredicate env sbom subject vuln = .ok bom) :
    (∀ dep ∈ sbom.IncludedDependencies, dep.DependencyType = "DIRECT" →
        ∃ p d, version0 dep.Package.Namespaces = .ok p ∧
          version0 dep.DependencyPackage.Namespaces = .ok d) ∧
      (bom.Dependencies.map (·.Ref)).Nodup ∧
      (∀ ref, ref ∈ bom.Dependencies.map (·.Ref) ↔
        ref ∈ (getCdxPredicate.directEdges sbom.IncludedDependencies).map Prod.fst) ∧
      (∀ d ∈ bom.Dependencies, d.Dependencies =
        ((getCdxPredicate.directEdges sbom.IncludedDependencies).filter
          fun e => e.1 = d.Ref).map Prod.snd) := by
  obtain ⟨st, hb, rfl⟩ := getCdxPredicate_ok env sbom subject vuln bom hbom
  obtain ⟨st3, st4, h3, h4, h5⟩ :=
    getCdxPredicate.cdx_build_dependencyMap env sbom subject vuln st hb
  have hagg := getCdxPredicate.cdx_dependency_aggregates sbom.IncludedDependencies st3 st4 []
    h4 (by rw [h3]; exact Aggregates.nil)
  simp only [List.nil_append] at hagg
  rw [← h5] at hagg
  obtain ⟨hnd, hl⟩ := hagg
  have hperm := hrange st.dependencyMap
  have hrefs : ((env.rangeDependencies st.dependencyMap).map fun entry =>
      ({ Ref := entry.1, Dependencies := entry.2 } : CdxDependency)).map (·.Ref) =
      keysOf (env.rangeDependencies st.dependencyMap) := by
    simp [keysOf, List.map_map, Function.comp_def]
  refine ⟨?_, ?_, ?_, ?_⟩
  · intro dep hdep hd
    obtain ⟨s1, s2, hs⟩ := forRange_each_ok _ _ st3 st4 h4 dep hdep
    rcases getCdxPredicate.cdx_dependency_ok s1 s2 dep hs with ⟨hnd', _⟩ |
      ⟨_, p, d, hp, hdv, _⟩
    · exact absurd hd hnd'
    · exact ⟨p, d, hp, hdv⟩
  · rw [hrefs]
    exact ((hperm.map Prod.fst).nodup_iff).mpr hnd
  · intro ref
    rw [hrefs]
    have h1 : ref ∈ keysOf (env.rangeDependencies st.dependencyMap) ↔
        ref ∈ keysOf st.dependencyMap := (hperm.map Prod.fst).mem_iff
    rw [h1]
    have h2 := lookupKey_eq_none_iff st.dependencyMap ref
    rw [hl ref] at h2
    by_cases hmem : ref ∈ (getCdxPredicate.directEdges sbom.IncludedDependencies).map Prod.fst
    · simp only [hmem, if_true] at h2
      constructor
      · intro _; exact hmem
      · intro _
        by_contra hc
        exact absurd (h2.mpr hc) (by simp)
    · simp only [hmem, if_false, true_iff] at h2
      constructor
      · intro h; exact absurd h h2
      · intro h; exact absurd h hmem
  · intro d hd
    simp only [List.mem_map] at hd
    obtain ⟨e, he, rfl⟩ := hd
    have hmem : e ∈ st.dependencyMap := hperm.mem_iff.mp he
    have h1 := lookupKey_of_mem st.dependencyMap e.1 e.2 hnd hmem
    rw [hl e.1] at h1
    split at h1
    · injection h1 with h1
      exact h1.symm
    · cases h1

/-- C16, at the edges `P -> Q` (direct), `P -> R` (indirect), `Q -> R` (direct)
and `P -> R` (direct). -/
theorem dependencies_aggregate_direct_edges_witness :
    ∃ bom,
      getCdxPredicate plainEnv
        (sbomOfP "urn:uuid:1234" [nodeQ, nodeR] []
          [edge nodeP nodeQ "DIRECT", edge nodeP nodeR "INDIRECT",
            edge nodeQ nodeR "DIRECT", edge nodeP nodeR "DIRECT"]) subjectP [] = .ok bom ∧
      bom.Dependencies =
        [{ Ref := "pkg:test/a@1", Dependencies := ["pkg:test/b@1", "pkg:test/c@1"] },
         { Ref := "pkg:test/b@1", Dependencies := ["pkg:test/c@1"] }] ∧
      ((∀ dep ∈ [edge nodeP nodeQ "DIRECT", edge nodeP nodeR "INDIRECT",
            edge nodeQ nodeR "DIRECT", edge nodeP nodeR "DIRECT"],
          dep.DependencyType = "DIRECT" →
          ∃ p d, version0 dep.Package.Namespaces = .ok p ∧
            version0 dep.DependencyPackage.Namespaces = .ok d) ∧
        (bom.Dependencies.map (·.Ref)).Nodup ∧
        (∀ ref, ref ∈ bom.Dependencies.map (·.Ref) ↔
          ref ∈ (getCdxPredicate.directEdges
            [edge nodeP nodeQ "DIRECT", edge nodeP nodeR "INDIRECT",
              edge nodeQ nodeR "DIRECT", edge nodeP nodeR "DIRECT"]).map Prod.fst) ∧
        (∀ d ∈ bom.Dependencies, d.Dependencies =
          ((getCdxPredicate.directEdges
            [edge nodeP nodeQ "DIRECT", edge nodeP nodeR "INDIRECT",
              edge nodeQ nodeR "DIRECT", edge nodeP nodeR "DIRECT"]).filter
            fun e => e.1 = d.Ref).map Prod.snd)) :=
  ⟨_, rfl, rfl,
    dependencies_aggregate_direct_edges plainEnv
      (sbomOfP "urn:uuid:1234" [nodeQ, nodeR] []
        [edge nodeP nodeQ "DIRECT", edge nodeP nodeR "INDIRECT",
          edge nodeQ nodeR "DIRECT", edge nodeP nodeR "DIRECT"]) subjectP [] _
      (fun m => List.Perm.refl m) rfl⟩

/-! ## Edges from a node to itself: claim C9 -/

/-- C9 (as stated it fails): for the subject `P` and the one edge from `Q` to
`Q` itself, marked `"DIRECT"`, `getSpdxPredicate` emits the relationship from
`Q` to `Q`, and `getCdxPredicate` emits a dependency record of `Q` that lists
`Q`. -/
theorem self_edge_emitted :
    (getSpdxPredicate plainEnv
        (sbomOfP "urn:uuid:1234" [nodeQ] [] [edge nodeQ nodeQ "DIRECT"])
        subjectP).map (fun doc => doc.Relationships) =
      .ok [{ RefA := "Q", RefB := "Q", Relationship := "OTHER" }] ∧
    (getCdxPredicate plainEnv
        (sbomOfP "urn:uuid:1234" [nodeQ] [] [edge nodeQ nodeQ "DIRECT"])
        subjectP []).map (fun bom => bom.Dependencies) =
      .ok [{ Ref := "pkg:test/b@1", Dependencies := ["pkg:test/b@1"] }] :=
  ⟨rfl, rfl⟩

/-- C9 (amended): when `getSpdxPredicate` succeeds, no relationship that it
emits has `RefA` equal to `RefB` exactly when no dependency edge of the input
whose package purl differs from the purl of the subject has one node id at
both ends; and when `getCdxPredicate` succeeds, no dependency record that it
emits lists its own `Ref` exactly when no dependency edge of the input marked
`"DIRECT"` has one purl at both ends, the `range` over `dependencyMap` visiting
each of its entries once.  Each builder is taken under its own success only. -/
theorem no_self_edge_unless_input_has_one (env : Env) (sbom : HasSBOM)
    (subject : PkgSubject) :
    (∀ doc, getSpdxPredicate env sbom subject = .ok doc →
        ((∀ r ∈ doc.Relationships, r.RefA ≠ r.RefB) ↔
          ∀ rel ∈ sbom.IncludedDependencies, ∀ s p d,
            version0 subject.Namespaces = .ok s →
            version0 rel.Package.Namespaces = .ok p →
            version0 rel.DependencyPackage.Namespaces = .ok d →
            s.Purl ≠ p.Purl → p.Id ≠ d.Id)) ∧
      (∀ vuln bom, (∀ m, (env.rangeDependencies m).Perm m) →
        getCdxPredicate env sbom subject vuln = .ok bom →
        ((∀ d ∈ bom.Dependencies, d.Ref ∉ d.Dependencies) ↔
          ∀ rel ∈ sbom.IncludedDependencies, rel.DependencyType = "DIRECT" → ∀ p d,
            version0 rel.Package.Namespaces = .ok p →
            version0 rel.DependencyPackage.Namespaces = .ok d →
            p.Purl ≠ d.Purl)) := by
  constructor
  · intro doc hdoc
    obtain ⟨name, st, _, hb, rfl⟩ := getSpdxPredicate_ok env sbom subject doc hdoc
    obtain ⟨st2, h3, h2⟩ := getSpdxPredicate.spdx_build_relationships env sbom subject st hb
    have hrel : st.relationships =
        sbom.IncludedDependencies.filterMap (getSpdxPredicate.relationshipOf subject) := by
      simp [getSpdxPredicate.spdx_dependency_relationships subject _ st2 st h3, h2]
    simp only [hrel]
    constructor
    · intro hall rel hmem s p d hs hp hd hne
      have hof : getSpdxPredicate.relationshipOf subject rel =
          some { RefA := p.Id, RefB := d.Id, Relationship := TypeRelationshipOther } := by
        simp [getSpdxPredicate.relationshipOf, hs, hp, hd, hne]
      exact hall _ (List.mem_filterMap.mpr ⟨rel, hmem, hof⟩)
    · intro hin r hr
      obtain ⟨rel, hmem, hof⟩ := List.mem_filterMap.mp hr
      unfold getSpdxPredicate.relationshipOf at hof
      split at hof
      · rename_i sv pv dv h1 h2 h3
        split at hof
        · rename_i hne
          injection hof with hof
          subst hof
          exact hin rel hmem sv pv dv h1 h2 h3 hne
        · cases hof
      · cases hof
  · intro vuln bom hrange hbom
    obtain ⟨st, hb, rfl⟩ := getCdxPredicate_ok env sbom subject vuln bom hbom
    obtain ⟨st3, st4, h3, h4, h5⟩ :=
      getCdxPredicate.cdx_build_dependencyMap env sbom subject vuln st hb
    constructor
    · intro hall rel hmem hdir p d hp hd heq
      have hagg := getCdxPredicate.cdx_dependency_aggregates sbom.IncludedDependencies
        st3 st4 [] h4 (by rw [h3]; exact Aggregates.nil)
      simp only [List.nil_append] at hagg
      rw [← h5] at hagg
      have hedge : (p.Purl, d.Purl) ∈
          getCdxPredicate.directEdges sbom.IncludedDependencies :=
        List.mem_filterMap.mpr ⟨rel, hmem, by simp [hdir, hp, hd]⟩
      have hl := hagg.2 p.Purl
      rw [if_pos (List.mem_map_of_mem Prod.fst hedge)] at hl
      have hentry := (hrange st.dependencyMap).mem_iff.mpr (mem_of_lookupKey _ _ _ hl)
      refine hall
        { Ref := p.Purl
          Dependencies :=
            ((getCdxPredicate.directEdges sbom.IncludedDependencies).filter
              fun e => e.1 = p.Purl).map Prod.snd }
        (List.mem_map.mpr ⟨_, hentry, rfl⟩) ?_
      refine List.mem_map.mpr ⟨(p.Purl, d.Purl), ?_, heq.symm⟩
      simp [hedge]
    · intro hin
      have i4 : ∀ e ∈ st4.dependencyMap, e.1 ∉ e.2 := by
        refine forRange_invariant (fun s : CdxBuild => ∀ e ∈ s.dependencyMap, e.1 ∉ e.2)
          _ _ ?_ _ _ (by simp [h3]) h4
        intro s x s' hx hs hb
        rcases getCdxPredicate.cdx_dependency_ok s s' x hb with ⟨_, rfl⟩ |
          ⟨hdir, p, d, hp, hd, rfl⟩
        · exact hs
        · intro e he
          rcases mem_assign _ _ _ _ he with rfl | he
          · simp only [List.mem_append, List.mem_singleton, not_or]
            refine ⟨?_, hin x hx hdir p d hp hd⟩
            cases hl : lookupKey s.dependencyMap p.Purl with
            | none => simp
            | some old =>
              simpa using hs (p.Purl, old) (mem_of_lookupKey _ _ _ hl)
          · exact hs e he
      intro d hd
      simp only [List.mem_map] at hd
      obtain ⟨e, he, rfl⟩ := hd
      rw [h5] at he
      exact i4 e ((hrange _).mem_iff.mp he)

/-- C9 (amended), at the edges from `P` to `Q` and from `Q` to `R`, both
`"DIRECT"`: for the subject `P`, `getSpdxPredicate` emits the one relationship
from `Q` to `R`; for the Artifact subject `A`, on which `getSpdxPredicate`
fails, `getCdxPredicate` emits the records of `P` and of `Q`, neither of which
lists its own reference. -/
theorem no_self_edge_unless_input_has_one_witness :
    (∃ doc,
      getSpdxPredicate plainEnv
        (sbomOfP "https://example.com/sbom" [nodeQ, nodeR] []
          [edge nodeP nodeQ "DIRECT", edge nodeQ nodeR "DIRECT"]) subjectP = .ok doc ∧
      doc.Relationships = [{ RefA := "Q", RefB := "R", Relationship := "OTHER" }] ∧
      ∀ r ∈ doc.Relationships, r.RefA ≠ r.RefB) ∧
    (∃ bom,
      getSpdxPredicate plainEnv
        { Subject := artifactNode "A" "sha256" "abc", Uri := "urn:uuid:1234",
          KnownSince := "2024-01-01T00:00:00Z", IncludedSoftware := [nodeQ, nodeR],
          IncludedOccurrences := [],
          IncludedDependencies := [edge nodeP nodeQ "DIRECT", edge nodeQ nodeR "DIRECT"] }
        (artifactSubject "A" "sha256" "abc") = .error .panic ∧
      getCdxPredicate plainEnv
        { Subject := artifactNode "A" "sha256" "abc", Uri := "urn:uuid:1234",
          KnownSince := "2024-01-01T00:00:00Z", IncludedSoftware := [nodeQ, nodeR],
          IncludedOccurrences := [],
          IncludedDependencies := [edge nodeP nodeQ "DIRECT", edge nodeQ nodeR "DIRECT"] }
        (artifactSubject "A" "sha256" "abc") [] = .ok bom ∧
      bom.Dependencies =
        [{ Ref := "pkg:test/a@1", Dependencies := ["pkg:test/b@1"] },
         { Ref := "pkg:test/b@1", Dependencies := ["pkg:test/c@1"] }] ∧
      ∀ d ∈ bom.Dependencies, d.Ref ∉ d.Dependencies) :=
  ⟨⟨_, rfl, rfl,
      ((no_self_edge_unless_input_has_one plainEnv
        (sbomOfP "https://example.com/sbom" [nodeQ, nodeR] []
          [edge nodeP nodeQ "DIRECT", edge nodeQ nodeR "DIRECT"]) subjectP).1
          _ rfl).mpr (by
          intro rel hrel s p d hs hp hd _
          simp only [sbomOfP, List.mem_cons, List.mem_singleton, List.not_mem_nil,
            or_false] at hrel
          rcases hrel with rfl | rfl
          · cases hp; cases hd; decide
          · cases hp; cases hd; decide)⟩,
    ⟨_, rfl, rfl, rfl,
      ((no_self_edge_unless_input_has_one plainEnv
        { Subject := artifactNode "A" "sha256" "abc", Uri := "urn:uuid:1234",
          KnownSince := "2024-01-01T00:00:00Z", IncludedSoftware := [nodeQ, nodeR],
          IncludedOccurrences := [],
          IncludedDependencies := [edge nodeP nodeQ "DIRECT", edge nodeQ nodeR "DIRECT"] }
        (artifactSubject "A" "sha256" "abc")).2
          [] _ (fun m => List.Perm.refl m) rfl).mpr (by
          intro rel hrel _ p d hp hd
          simp only [List.mem_cons, List.mem_singleton, List.not_mem_nil,
            or_false] at hrel
          rcases hrel with rfl | rfl
          · cases hp; cases hd; decide
          · cases hp; cases hd; decide)⟩⟩

/-! ## The vulnerability list of `getCdxPredicate`: claim C11 -/

theorem getCdxPredicate.isSubject_eq_true_iff (sub : PkgSubject) (subjectNodeId : String) :
    getCdxPredicate.isSubject sub subjectNodeId = .ok true ↔
      (sub.Typename = some "Artifact" ∧ sub.Id = subjectNodeId) ∨
        (sub.Typename = some "Package" ∧
          ∃ version, version0 sub.Namespaces = .ok version ∧ version.Id = subjectNodeId) := by
  unfold getCdxPredicate.isSubject
  cases ht : sub.Typename with
  | none => simp [deref, bind, Except.bind]
  | some typename =>
    by_cases ha : typename = "Artifact" ∧ sub.Id = subjectNodeId
    · simp [deref, bind, Except.bind, ha, pure, Except.pure]
    · by_cases hp : typename = "Package"
      · subst hp
        cases hv : version0 sub.Namespaces with
        | error e => simp [deref, bind, Except.bind, pure, Except.pure]
        | ok version => simp [deref, bind, Except.bind, pure, Except.pure]
      · simp [deref, bind, Except.bind, ha, hp, pure, Except.pure]

theorem getCdxPredicate.cdx_vex_matches (env : Env) (serialNumber : String)
    (st st' : CdxBuild) (v : CertifyVEXStatement)
    (h : getCdxPredicate.vex env serialNumber st v = .ok st') :
    (getCdxPredicate.matchesSubject env st.subjectNodeId v = false ∧ st' = st) ∨
      (getCdxPredicate.matchesSubject env st.subjectNodeId v = true ∧
        ∃ vulnerability,
          getCdxPredicate.vulnerabilityOf env serialNumber st.metadata.BOMRef v =
            some vulnerability ∧
          st' = { st with vulnerabilities := st.vulnerabilities ++ [vulnerability] }) := by
  unfold getCdxPredicate.vex at h
  cases hp : env.parsePkgSubject v.Subject with
  | error e => simp [bind, Except.bind, hp, liftErr] at h
  | ok sub =>
    cases hs : getCdxPredicate.isSubject sub st.subjectNodeId with
    | error e => simp [bind, Except.bind, hp, liftErr, hs] at h
    | ok b =>
      cases b with
      | false =>
        left
        simp [bind, Except.bind, hp, liftErr, hs, pure, Except.pure] at h
        exact ⟨by simp [getCdxPredicate.matchesSubject, hp, hs], h.symm⟩
      | true =>
        right
        refine ⟨by simp [getCdxPredicate.matchesSubject, hp, hs], ?_⟩
        cases hi : index0 v.Vulnerability.VulnerabilityIDs with
        | error e => simp [bind, Except.bind, hp, liftErr, hs, hi] at h
        | ok vulnerabilityID =>
          cases hm : env.VulnerabilityMetadata vulnerabilityID.Id with
          | error e => simp [bind, Except.bind, hp, liftErr, hs, hi, hm] at h
          | ok vulnMetadata =>
            simp [bind, Except.bind, hp, liftErr, hs, hi, hm, pure, Except.pure] at h
            exact ⟨_, by simp [getCdxPredicate.vulnerabilityOf, hi, hm], h.symm⟩

theorem getCdxPredicate.cdx_vex_loop (env : Env) (serialNumber : String)
    (vuln : List CertifyVEXStatement) :
    ∀ st st', forRange (getCdxPredicate.vex env serialNumber) vuln st = .ok st' →
      st'.subjectNodeId = st.subjectNodeId ∧ st'.metadata = st.metadata ∧
        st'.vulnerabilities.map some = st.vulnerabilities.map some ++
          (vuln.filter (getCdxPredicate.matchesSubject env st.subjectNodeId)).map
            (getCdxPredicate.vulnerabilityOf env serialNumber st.metadata.BOMRef) := by
  induction vuln with
  | nil =>
    intro st st' h
    simp only [forRange, Except.ok.injEq] at h
    subst h
    simp
  | cons v rest ih =>
    intro st st' h
    simp only [forRange] at h
    cases hb : getCdxPredicate.vex env serialNumber st v with
    | error e => rw [hb] at h; cases h
    | ok s1 =>
      rw [hb] at h
      obtain ⟨h1, h2, h3⟩ := ih s1 st' h
      rcases getCdxPredicate.cdx_vex_matches env serialNumber st s1 v hb with ⟨hm, hs⟩ |
        ⟨hm, vulnerability, hv, hs⟩
      · rw [hs] at h1 h2 h3
        refine ⟨h1, h2, ?_⟩
        rw [h3]
        simp [List.filter_cons, hm]
      · rw [hs] at h1 h2 h3
        refine ⟨h1, h2, ?_⟩
        rw [h3]
        simp [List.filter_cons, hm, hv]

theorem getCdxPredicate.cdx_occurrence_tracked (env : Env) (subject : PkgSubject)
    (occurrences : List Occurrence) :
    ∀ st st', forRange (getCdxPredicate.occurrence env subject) occurrences st = .ok st' →
      st'.vulnerabilities = st.vulnerabilities ∧
        (subject.Typename = some "Artifact" →
          st'.subjectNodeId = getCdxPredicate.trackedId env occurrences st.subjectNodeId) ∧
        (subject.Typename = some "Package" → st'.subjectNodeId = st.subjectNodeId) := by
  induction occurrences with
  | nil =>
    intro st st' h
    simp only [forRange, Except.ok.injEq] at h
    subst h
    simp [getCdxPredicate.trackedId]
  | cons pkg rest ih =>
    intro st st' h
    simp only [forRange] at h
    cases hb : getCdxPredicate.occurrence env subject st pkg with
    | error e => rw [hb] at h; cases h
    | ok s1 =>
      rw [hb] at h
      obtain ⟨h1, h2, h3⟩ := ih s1 st' h
      obtain ⟨sub, version, hp, hv, hcase⟩ :=
        getCdxPredicate.cdx_occurrence_ok env subject st s1 pkg hb
      rcases hcase with ⟨ha, hid, name, _, hs⟩ | ⟨hn, hs⟩
      · rw [hs] at h1 h2 h3
        refine ⟨h1, ?_, ?_⟩
        · intro hart
          rw [h2 hart]
          simp [getCdxPredicate.trackedId, hid, hp, hv]
        · intro hpk
          rw [hpk] at ha
          exact absurd ha (by decide)
      · rw [hs] at h1 h2 h3
        refine ⟨h1, ?_, h3⟩
        intro hart
        rw [h2 hart]
        have hne : ¬ st.subjectNodeId = pkg.Artifact.Id := fun e => hn ⟨hart, e⟩
        simp [getCdxPredicate.trackedId, hne]

theorem getCdxPredicate.cdx_init_subject (subject : PkgSubject) (st : CdxBuild)
    (h : getCdxPredicate.init subject = .ok st) :
    (subject.Typename = some "Artifact" → st.subjectNodeId = subject.Id) ∧
      (subject.Typename = some "Package" →
        ∃ version, version0 subject.Namespaces = .ok version ∧
          st.subjectNodeId = version.Id) := by
  constructor
  · intro hart
    unfold getCdxPredicate.init at h
    simp [hart, deref, bind, Except.bind, pure, Except.pure] at h
    rw [← h]
  · intro hpk
    obtain ⟨_, _, _, _, _, hm⟩ := getCdxPredicate.cdx_init_ok subject st h
    obtain ⟨version, hv, _, hid⟩ := hm hpk
    exact ⟨version, hv, hid⟩

theorem getCdxPredicate.cdx_build_vulnerabilities (env : Env) (sbom : HasSBOM)
    (subject : PkgSubject) (vuln : List CertifyVEXStatement) (st : CdxBuild)
    (h : getCdxPredicate.build env sbom subject vuln = .ok st) :
    (subject.Typename = some "Package" →
        ∃ version, version0 subject.Namespaces = .ok version ∧
          st.subjectNodeId = version.Id) ∧
      (subject.Typename = some "Artifact" →
        st.subjectNodeId =
          getCdxPredicate.trackedId env sbom.IncludedOccurrences subject.Id) ∧
      st.vulnerabilities.map some =
        (vuln.filter (getCdxPredicate.matchesSubject env st.subjectNodeId)).map
          (getCdxPredicate.vulnerabilityOf env sbom.Uri st.metadata.BOMRef) := by
  obtain ⟨st0, st1, st2, st3, st4, h0, h1, h2, h3, h4, h5⟩ :=
    getCdxPredicate.cdx_build_ok env sbom subject vuln st h
  obtain ⟨_, _, _, _, hv0, _⟩ := getCdxPredicate.cdx_init_ok subject st0 h0
  obtain ⟨ha0, hp0⟩ := getCdxPredicate.cdx_init_subject subject st0 h0
  have i1 : st1.subjectNodeId = st0.subjectNodeId ∧ st1.vulnerabilities = [] := by
    refine forRange_invariant (fun s : CdxBuild =>
      s.subjectNodeId = st0.subjectNodeId ∧ s.vulnerabilities = []) _ _ ?_ _ _ ⟨rfl, hv0⟩ h1
    intro s x s' _ hs hb
    rcases getCdxPredicate.cdx_software_ok env s s' x hb with ⟨_, rfl⟩ |
      ⟨sub, version, name, _, _, _, _, rfl⟩ <;> exact hs
  obtain ⟨hv2, ha2, hp2⟩ :=
    getCdxPredicate.cdx_occurrence_tracked env subject sbom.IncludedOccurrences st1 st2 h2
  have i3 : st3.subjectNodeId = st2.subjectNodeId ∧
      st3.vulnerabilities = st2.vulnerabilities := by
    refine forRange_invariant (fun s : CdxBuild =>
      s.subjectNodeId = st2.subjectNodeId ∧ s.vulnerabilities = st2.vulnerabilities)
      _ _ ?_ _ _ ⟨rfl, rfl⟩ h3
    intro s x s' _ hs hb
    rcases getCdxPredicate.cdx_hashes_ok s s' x hb with ⟨_, rfl⟩ | ⟨occPkg, _, rfl⟩ <;>
      exact hs
  have i4 : st4.subjectNodeId = st3.subjectNodeId ∧
      st4.vulnerabilities = st3.vulnerabilities := by
    refine forRange_invariant (fun s : CdxBuild =>
      s.subjectNodeId = st3.subjectNodeId ∧ s.vulnerabilities = st3.vulnerabilities)
      _ _ ?_ _ _ ⟨rfl, rfl⟩ h4
    intro s x s' _ hs hb
    rcases getCdxPredicate.cdx_dependency_ok s s' x hb with ⟨_, rfl⟩ |
      ⟨_, p, d, _, _, rfl⟩ <;> exact hs
  obtain ⟨hid, hmeta, hvul⟩ := getCdxPredicate.cdx_vex_loop env sbom.Uri vuln st4 st h5
  have hv4 : st4.vulnerabilities = [] := by rw [i4.2, i3.2, hv2, i1.2]
  refine ⟨?_, ?_, ?_⟩
  · intro hpk
    obtain ⟨version, hv, hid0⟩ := hp0 hpk
    exact ⟨version, hv, by rw [hid, i4.1, i3.1, hp2 hpk, i1.1, hid0]⟩
  · intro hart
    rw [hid, i4.1, i3.1, ha2 hart, i1.1, ha0 hart]
  · rw [hvul, hv4, hid, hmeta]
    simp

/-- C11 (as stated it fails): for the Artifact subject `A` with an occurrence
of `A` at the package `Q`, and the VEX statements `CVE-A` about the artifact
`A` and `CVE-Q` about the package `Q`, the vulnerability list of
`getCdxPredicate` holds the record of `CVE-Q` and none of `CVE-A`: after the
occurrence the tracked id is the node id of `Q`, not the artifact id. -/
theorem vex_of_artifact_dropped_after_occurrence :
    (getCdxPredicate plainEnv
        { Subject := artifactNode "A" "sha256" "abc", Uri := "urn:uuid:1234",
          KnownSince := "2024-01-01T00:00:00Z", IncludedSoftware := [nodeQ],
          IncludedOccurrences :=
            [{ Subject := nodeQ,
               Artifact := { Id := "A", Algorithm := "sha256", Digest := "abc" } }],
          IncludedDependencies := [] }
        (artifactSubject "A" "sha256" "abc")
        [vexOn (artifactNode "A" "sha256" "abc") "CVE-A", vexOn nodeQ "CVE-Q"]).map
      (fun bom => bom.Vulnerabilities.map (·.ID)) = .ok ["CVE-Q"] :=
  rfl

/-- C11 (amended): when `getCdxPredicate` succeeds, the vulnerability list is,
in input order, the record of each VEX statement whose subject resolves to
the tracked subject id (an artifact with this id, or a package whose version
node has this id) and nothing else, where the tracked id is the version node
id of a Package subject and, for an Artifact subject, what the loop over the
occurrences makes of the artifact id: an occurrence of the artifact replaces
it by the node id of the package of the occurrence. -/
theorem vulnerabilities_of_tracked_subject (env : Env) (sbom : HasSBOM)
    (subject : PkgSubject) (vuln : List CertifyVEXStatement) (bom : BOM)
    (hbom : getCdxPredicate env sbom subject vuln = .ok bom) :
    ∃ tracked,
      (subject.Typename = some "Package" →
        ∃ version, version0 subject.Namespaces = .ok version ∧ tracked = version.Id) ∧
      (subject.Typename = some "Artifact" →
        tracked = getCdxPredicate.trackedId env sbom.IncludedOccurrences subject.Id) ∧
      bom.Vulnerabilities.map some =
        (vuln.filter (getCdxPredicate.matchesSubject env tracked)).map
          (getCdxPredicate.vulnerabilityOf env sbom.Uri bom.MetadataComponent.BOMRef) ∧
      (∀ v, getCdxPredicate.matchesSubject env tracked v = true ↔
        ∃ sub, env.parsePkgSubject v.Subject = .ok sub ∧
          ((sub.Typename = some "Artifact" ∧ sub.Id = tracked) ∨
            (sub.Typename = some "Package" ∧
              ∃ version, version0 sub.Namespaces = .ok version ∧ version.Id = tracked))) := by
  obtain ⟨st, hb, rfl⟩ := getCdxPredicate_ok env sbom subject vuln bom hbom
  obtain ⟨hp, ha, hv⟩ := getCdxPredicate.cdx_build_vulnerabilities env sbom subject vuln st hb
  refine ⟨st.subjectNodeId, hp, ha, hv, ?_⟩
  intro v
  unfold getCdxPredicate.matchesSubject
  cases hps : env.parsePkgSubject v.Subject with
  | error e => simp
  | ok sub =>
    have hiff := getCdxPredicate.isSubject_eq_true_iff sub st.subjectNodeId
    constructor
    · intro h
      refine ⟨sub, rfl, hiff.mp ?_⟩
      cases hs : getCdxPredicate.isSubject sub st.subjectNodeId with
      | error e => simp [hs] at h
      | ok b =>
        simp only [hs] at h
        rw [h]
    · rintro ⟨sub', hsub', h⟩
      injection hsub' with hsub'
      subst hsub'
      simp [hiff.mpr h]

/-- C11 (amended), at the Artifact subject `A` with an occurrence of `A` at
the package `Q` and VEX statements about `A` and about `Q`. -/
theorem vulnerabilities_of_tracked_subject_witness :
    ∃ bom,
      getCdxPredicate plainEnv
        { Subject := artifactNode "A" "sha256" "abc", Uri := "urn:uuid:1234",
          KnownSince := "2024-01-01T00:00:00Z", IncludedSoftware := [nodeQ],
          IncludedOccurrences :=
            [{ Subject := nodeQ,
               Artifact := { Id := "A", Algorithm := "sha256", Digest := "abc" } }],
          IncludedDependencies := [] }
        (artifactSubject "A" "sha256" "abc")
        [vexOn (artifactNode "A" "sha256" "abc") "CVE-A", vexOn nodeQ "CVE-Q"] = .ok bom ∧
      getCdxPredicate.trackedId plainEnv
        [{ Subject := nodeQ,
           Artifact := { Id := "A", Algorithm := "sha256", Digest := "abc" } }] "A" = "Q" ∧
      ∃ tracked,
        ((artifactSubject "A" "sha256" "abc").Typename = some "Package" →
          ∃ version, version0 (artifactSubject "A" "sha256" "abc").Namespaces = .ok version ∧
            tracked = version.Id) ∧
        ((artifactSubject "A" "sha256" "abc").Typename = some "Artifact" →
          tracked = getCdxPredicate.trackedId plainEnv
            [{ Subject := nodeQ,
               Artifact := { Id := "A", Algorithm := "sha256", Digest := "abc" } }] "A") ∧
        bom.Vulnerabilities.map some =
          ([vexOn (artifactNode "A" "sha256" "abc") "CVE-A", vexOn nodeQ "CVE-Q"].filter
            (getCdxPredicate.matchesSubject plainEnv tracked)).map
            (getCdxPredicate.vulnerabilityOf plainEnv "urn:uuid:1234"
              bom.MetadataComponent.BOMRef) ∧
        (∀ v, getCdxPredicate.matchesSubject plainEnv tracked v = true ↔
          ∃ sub, plainEnv.parsePkgSubject v.Subject = .ok sub ∧
            ((sub.Typename = some "Artifact" ∧ sub.Id = tracked) ∨
              (sub.Typename = some "Package" ∧
                ∃ version, version0 sub.Namespaces = .ok version ∧
                  version.Id = tracked))) :=
  ⟨_, rfl, rfl,
    vulnerabilities_of_tracked_subject plainEnv
      { Subject := artifactNode "A" "sha256" "abc", Uri := "urn:uuid:1234",
        KnownSince := "2024-01-01T00:00:00Z", IncludedSoftware := [nodeQ],
        IncludedOccurrences :=
          [{ Subject := nodeQ,
             Artifact := { Id := "A", Algorithm := "sha256", Digest := "abc" } }],
        IncludedDependencies := [] }
      (artifactSubject "A" "sha256" "abc")
      [vexOn (artifactNode "A" "sha256" "abc") "CVE-A", vexOn nodeQ "CVE-Q"] _ rfl⟩

/-! ## Errors of the lookups: claim C12 -/

theorem forRange_error_at {σ ι : Type} (body : σ → ι → Except Failure σ) (pre : List ι)
    (x : ι) (post : List ι) (f : Failure) :
    ∀ s s1, forRange body pre s = .ok s1 → body s1 x = .error f →
      forRange body (pre ++ x :: post) s = .error f := by
  induction pre with
  | nil =>
    intro s s1 h hx
    simp only [forRange, Except.ok.injEq] at h
    subst h
    simp [forRange, hx]
  | cons y ys ih =>
    intro s s1 h hx
    simp only [forRange] at h
    cases hb : body s y with
    | error e => rw [hb] at h; cases h
    | ok s2 =>
      rw [hb] at h
      simp only [List.cons_append, forRange, hb]
      exact ih s2 s1 h hx

theorem getSpdxPredicate.spdx_software_error (env : Env) (subject : PkgSubject)
    (st : SpdxBuild) (pkg : Node) (err : Error)
    (h : getSpdxPredicate.lookupFails env subject pkg err) :
    getSpdxPredicate.software env subject st pkg = .error (.error err) := by
  obtain ⟨ht, hcase⟩ := h
  unfold getSpdxPredicate.software
  rcases hcase with hp | ⟨sub, version, subjectVersion, ns, name, hp, hv, hsv, hns, hn,
    hskip, hl | ⟨legal, hl, hm⟩⟩
  · simp [ht, deref, bind, Except.bind, hp, liftErr]
  · simp [ht, deref, bind, Except.bind, hp, liftErr, hv, hsv, hns, hskip, hn, hl]
  · simp [ht, deref, bind, Except.bind, hp, liftErr, hv, hsv, hns, hskip, hn, hl, hm]

/-- C12: when the run of `getSpdxPredicate` meets an error at an
included-software node (the resolution of a `"Package"` node fails, or the
legal lookup or the metadata lookup of a package that gets a record fails),
`getSpdxPredicate` returns this error and no predicate, and
`ParseSbomAttestation`, which calls it for an SBOM whose URI does not start
with `"urn:uuid:"`, returns this error and no statement; and no call of
`ParseSbomAttestation` returns a statement together with a failure. -/
theorem lookup_error_is_returned (env : Env) (sbom : HasSBOM)
    (vuln : List CertifyVEXStatement) (subject : PkgSubject)
    (resources : List ResourceDescriptor) (name : PkgName)
    (pre post : List Node) (pkg : Node) (st : SpdxBuild) (err : Error)
    (hsub : env.parsePkgSubject sbom.Subject = .ok subject)
    (hres : ParseSbomAttestation.subject sbom subject = .ok resources)
    (huri : HasPrefix sbom.Uri "urn:uuid:" = false)
    (hname : name0 subject.Namespaces = .ok name)
    (hsplit : sbom.IncludedSoftware = pre ++ pkg :: post)
    (hpre : forRange (getSpdxPredicate.software env subject) pre
      { packages := [], packageMap := [], files := [], fileMap := [],
        relationships := [] } = .ok st)
    (hfail : getSpdxPredicate.lookupFails env subject pkg err) :
    getSpdxPredicate env sbom subject = .error (.error err) ∧
      ParseSbomAttestation env sbom vuln = .error (.error err) ∧
      (∀ doc, getSpdxPredicate env sbom subject ≠ .ok doc) ∧
      (∀ s, ParseSbomAttestation env sbom vuln ≠ .ok s) ∧
      (∀ (env' : Env) (sbom' : HasSBOM) (vuln' : List CertifyVEXStatement) s f,
        ParseSbomAttestation env' sbom' vuln' = .ok s →
          ParseSbomAttestation env' sbom' vuln' ≠ .error f) := by
  have hloop := forRange_error_at (getSpdxPredicate.software env subject) pre pkg post
    (.error err) _ st hpre (getSpdxPredicate.spdx_software_error env subject st pkg err hfail)
  have hspdx : getSpdxPredicate env sbom subject = .error (.error err) := by
    unfold getSpdxPredicate getSpdxPredicate.build
    rw [hsplit]
    simp [bind, Except.bind, hname, hloop]
  have hne : PredicateSPDX ≠ PredicateCycloneDX := by decide
  have hparse : ParseSbomAttestation env sbom vuln = .error (.error err) := by
    unfold ParseSbomAttestation
    simp [bind, Except.bind, hsub, liftErr, hres, huri, hne, hspdx]
  refine ⟨hspdx, hparse, ?_, ?_, ?_⟩
  · intro doc h
    rw [hspdx] at h
    cases h
  · intro s h
    rw [hparse] at h
    cases h
  · intro env' sbom' vuln' s f h h'
    rw [h] at h'
    cases h'

/-- C12, at an SPDX SBOM of `P` with the included software `Q, R` and a legal
lookup that fails for `R`. -/
theorem lookup_error_is_returned_witness :
    getSpdxPredicate legalFailsEnv (sbomOfP "https://example.com/sbom" [nodeQ, nodeR] [] [])
        subjectP = .error (.error "legal lookup failed") ∧
      ParseSbomAttestation legalFailsEnv
        (sbomOfP "https://example.com/sbom" [nodeQ, nodeR] [] []) [] =
          .error (.error "legal lookup failed") ∧
      (∀ doc, getSpdxPredicate legalFailsEnv
        (sbomOfP "https://example.com/sbom" [nodeQ, nodeR] [] []) subjectP ≠ .ok doc) ∧
      (∀ s, ParseSbomAttestation legalFailsEnv
        (sbomOfP "https://example.com/sbom" [nodeQ, nodeR] [] []) [] ≠ .ok s) ∧
      (∀ (env' : Env) (sbom' : HasSBOM) (vuln' : List CertifyVEXStatement) s f,
        ParseSbomAttestation env' sbom' vuln' = .ok s →
          ParseSbomAttestation env' sbom' vuln' ≠ .error f) :=
  lookup_error_is_returned legalFailsEnv
    (sbomOfP "https://example.com/sbom" [nodeQ, nodeR] [] []) [] subjectP
    [{ Name := "a", Uri := "pkg:test/a@1", Digest := [] }]
    { Name := "a",
      Versions := [{ Id := "P", Version := "1", Purl := "pkg:test/a@1", Qualifiers := [] }] }
    [nodeQ] [] nodeR _ "legal lookup failed" rfl rfl rfl rfl rfl rfl
    ⟨rfl, Or.inr
      ⟨{ Typename := some "Package", Id := "",
         Namespaces := pkgChain "test" "c" "R" "1" "pkg:test/c@1" [],
         Algorithm := "", Digest := "" },
       { Id := "R", Version := "1", Purl := "pkg:test/c@1", Qualifiers := [] },
       { Id := "P", Version := "1", Purl := "pkg:test/a@1", Qualifiers := [] },
       { Namespace := "test",
         Names := [{ Name := "c",
                     Versions := [{ Id := "R", Version := "1", Purl := "pkg:test/c@1",
                                    Qualifiers := [] }] }] },
       { Name := "c",
         Versions := [{ Id := "R", Version := "1", Purl := "pkg:test/c@1",
                        Qualifiers := [] }] },
       rfl, rfl, rfl, rfl, rfl, by decide, Or.inl rfl⟩⟩

/-! ## The file entries of `getSpdxPredicate`: claims C17 and C19 -/

/-- C17 (the code departs from it): the occurrence of the file named `a:b` with
the filename qualifier `c` and the occurrence of the file named `a` with the
filename qualifier `b:c` are merged into one file entry, since both have the
key `"a:b:c"` in `fileMap`; and the occurrence of the file named `n` without
a filename qualifier is merged with the one of the file named `n` with the
filename qualifier `n`. -/
theorem files_of_different_pairs_merged :
    (getSpdxPredicate plainEnv
        (sbomOfP "https://example.com/sbom" []
          [{ Subject := namedFileNode "a:b" "F1" "c",
             Artifact := { Id := "A1", Algorithm := "sha1", Digest := "aa" } },
           { Subject := namedFileNode "a" "F2" "b:c",
             Artifact := { Id := "A2", Algorithm := "sha256", Digest := "bb" } }] [])
        subjectP).map (fun doc => doc.Files) =
      .ok [{ FileSPDXIdentifier := "F1", FileName := "c",
             Checksums := [{ Algorithm := "sha1", Value := "aa" },
                           { Algorithm := "sha256", Value := "bb" }] }] ∧
    (getSpdxPredicate plainEnv
        (sbomOfP "https://example.com/sbom" []
          [{ Subject := fileNode "n" "F1",
             Artifact := { Id := "A1", Algorithm := "sha1", Digest := "aa" } },
           { Subject := namedFileNode "n" "F2" "n",
             Artifact := { Id := "A2", Algorithm := "sha256", Digest := "bb" } }] [])
        subjectP).map (fun doc => doc.Files) =
      .ok [{ FileSPDXIdentifier := "F1", FileName := "n",
             Checksums := [{ Algorithm := "sha1", Value := "aa" },
                           { Algorithm := "sha256", Value := "bb" }] }] :=
  ⟨rfl, rfl⟩

/-- C19 (as stated it fails): after the two occurrences of the file `f`
(filename `x`) with the checksums `sha1:aa` and `sha256:bb` are merged, the key
`"sha256:bb"` of `fileMap` holds `nil`, and the occurrence of the file named
`sha256` with the filename qualifier `bb` and the checksum `md5:cc` is
skipped: no file entry holds `md5:cc`. -/
theorem checksum_of_marked_key_lost :
    (getSpdxPredicate plainEnv
        (sbomOfP "https://example.com/sbom" []
          [{ Subject := namedFileNode "f" "F" "x",
             Artifact := { Id := "A1", Algorithm := "sha1", Digest := "aa" } },
           { Subject := namedFileNode "f" "F" "x",
             Artifact := { Id := "A2", Algorithm := "sha256", Digest := "bb" } },
           { Subject := namedFileNode "sha256" "G" "bb",
             Artifact := { Id := "A3", Algorithm := "md5", Digest := "cc" } }] [])
        subjectP).map (fun doc => doc.Files) =
      .ok [{ FileSPDXIdentifier := "F", FileName := "x",
             Checksums := [{ Algorithm := "sha1", Value := "aa" },
                           { Algorithm := "sha256", Value := "bb" }] }] :=
  rfl

theorem forRange_split {σ ι : Type} (body : σ → ι → Except Failure σ) (pre : List ι)
    (x : ι) (post : List ι) :
    ∀ s s', forRange body (pre ++ x :: post) s = .ok s' →
      ∃ s1 s2, forRange body pre s = .ok s1 ∧ body s1 x = .ok s2 ∧
        forRange body post s2 = .ok s' := by
  induction pre with
  | nil =>
    intro s s' h
    simp only [List.nil_append, forRange] at h
    cases hb : body s x with
    | error e => rw [hb] at h; cases h
    | ok s2 =>
      rw [hb] at h
      exact ⟨s, s2, rfl, hb, h⟩
  | cons y ys ih =>
    intro s s' h
    simp only [List.cons_append, forRange] at h
    cases hb : body s y with
    | error e => rw [hb] at h; cases h
    | ok s0 =>
      rw [hb] at h
      obtain ⟨s1, s2, h1, h2, h3⟩ := ih s0 s' h
      exact ⟨s1, s2, by simp [forRange, hb, h1], h2, h3⟩

theorem mem_modifyAt_of_mem {α : Type} (g : α → α) (l : List α) (i : Nat) (a : α)
    (h : a ∈ l) : a ∈ modifyAt g l i ∨ g a ∈ modifyAt g l i := by
  induction l generalizing i with
  | nil => simp at h
  | cons b l ih =>
    cases i with
    | zero =>
      rcases List.mem_cons.mp h with rfl | h
      · right; simp [modifyAt]
      · left; simp [modifyAt, h]
    | succ i =>
      rcases List.mem_cons.mp h with rfl | h
      · left; simp [modifyAt]
      · rcases ih i h with h | h
        · left; simp [modifyAt, h]
        · right; simp [modifyAt, h]

theorem modifyAt_mem_of_lt {α : Type} (g : α → α) (l : List α) (i : Nat)
    (h : i < l.length) : ∃ a ∈ l, g a ∈ modifyAt g l i := by
  induction l generalizing i with
  | nil => simp at h
  | cons b l ih =>
    cases i with
    | zero => exact ⟨b, by simp, by simp [modifyAt]⟩
    | succ i =>
      obtain ⟨a, ha, hg⟩ := ih i (by simpa using h)
      exact ⟨a, List.mem_cons_of_mem _ ha, by simp [modifyAt, hg]⟩

theorem getSpdxPredicate.spdx_occurrence_marks (env : Env) (st st' : SpdxBuild)
    (occ : Occurrence) (seen : List Occurrence)
    (h : getSpdxPredicate.occurrence env st occ = .ok st') (hm : MarksFrom st seen) :
    MarksFrom st' (seen ++ [occ]) := by
  obtain ⟨hnil, hptr⟩ := hm
  have hold : MarksFrom st (seen ++ [occ]) :=
    ⟨fun k hk => by
      obtain ⟨e, he, hke⟩ := hnil k hk
      exact ⟨e, List.mem_append_left _ he, hke⟩, hptr⟩
  obtain ⟨sub, ns, version, _, _, _, hcase⟩ := getSpdxPredicate.spdx_occurrence_ok env st st' occ h
  rcases hcase with ⟨_, name, _, ⟨_, rfl⟩ | ⟨f, _, rfl⟩ | ⟨_, rfl⟩⟩ |
    ⟨_, ⟨occPkg, _, rfl⟩ | ⟨_, rfl⟩⟩
  · exact hold
  · constructor
    · intro k hk
      simp only [lookupKey_assign] at hk
      split at hk
      · rename_i heq
        exact ⟨occ, by simp, heq.symm⟩
      · obtain ⟨e, he, hke⟩ := hnil k hk
        exact ⟨e, List.mem_append_left _ he, hke⟩
    · intro k f' hk
      simp only [lookupKey_assign] at hk
      split at hk
      · cases hk
      · simp only [length_modifyAt]
        exact hptr k f' hk
  · constructor
    · intro k hk
      simp only [lookupKey_assign] at hk
      split at hk
      · cases hk
      · obtain ⟨e, he, hke⟩ := hnil k hk
        exact ⟨e, List.mem_append_left _ he, hke⟩
    · intro k f' hk
      simp only [lookupKey_assign] at hk
      split at hk
      · injection hk with hk
        injection hk with hk
        simp only [List.length_append, List.length_singleton]
        omega
      · have := hptr k f' hk
        simp only [List.length_append, List.length_singleton]
        omega
  · exact hold
  · exact hold

theorem getSpdxPredicate.spdx_occurrences_marks (env : Env) (occs : List Occurrence) :
    ∀ (st st' : SpdxBuild) (seen : List Occurrence),
      forRange (getSpdxPredicate.occurrence env) occs st = .ok st' →
      MarksFrom st seen → MarksFrom st' (seen ++ occs) := by
  induction occs with
  | nil =>
    intro st st' seen h hm
    simp only [forRange, Except.ok.injEq] at h
    subst h
    simpa using hm
  | cons occ rest ih =>
    intro st st' seen h hm
    simp only [forRange] at h
    cases hb : getSpdxPredicate.occurrence env st occ with
    | error e => rw [hb] at h; cases h
    | ok s1 =>
      rw [hb] at h
      have := ih s1 st' (seen ++ [occ]) h
        (getSpdxPredicate.spdx_occurrence_marks env st s1 occ seen hb hm)
      simpa using this

theorem getSpdxPredicate.spdx_occurrence_keeps (env : Env) (st st' : SpdxBuild)
    (occ : Occurrence) (c : Checksum)
    (h : getSpdxPredicate.occurrence env st occ = .ok st')
    (hc : ∃ f ∈ st.files, c ∈ f.Checksums) : ∃ f ∈ st'.files, c ∈ f.Checksums := by
  obtain ⟨f, hf, hcf⟩ := hc
  obtain ⟨sub, ns, version, _, _, _, hcase⟩ := getSpdxPredicate.spdx_occurrence_ok env st st' occ h
  rcases hcase with ⟨_, name, _, ⟨_, rfl⟩ | ⟨i, _, rfl⟩ | ⟨_, rfl⟩⟩ |
    ⟨_, ⟨occPkg, _, rfl⟩ | ⟨_, rfl⟩⟩
  · exact ⟨f, hf, hcf⟩
  · rcases mem_modifyAt_of_mem (fun file : SpdxFile => { file with
        Checksums := file.Checksums ++
          [{ Algorithm := occ.Artifact.Algorithm, Value := occ.Artifact.Digest }] })
        st.files i f hf with h1 | h1
    · exact ⟨f, h1, hcf⟩
    · exact ⟨_, h1, List.mem_append_left _ hcf⟩
  · exact ⟨f, List.mem_append_left _ hf, hcf⟩
  · exact ⟨f, hf, hcf⟩
  · exact ⟨f, hf, hcf⟩

theorem forRange_append {σ ι : Type} (body : σ → ι → Except Failure σ) (pre post : List ι) :
    ∀ s s1, forRange body pre s = .ok s1 →
      forRange body (pre ++ post) s = forRange body post s1 := by
  induction pre with
  | nil =>
    intro s s1 h
    simp only [forRange, Except.ok.injEq] at h
    subst h
    rfl
  | cons y ys ih =>
    intro s s1 h
    simp only [forRange] at h
    cases hb : body s y with
    | error e => rw [hb] at h; cases h
    | ok s0 =>
      rw [hb] at h
      simp only [List.cons_append, forRange, hb]
      exact ih s0 s1 h

theorem getSpdxPredicate.spdx_occurrence_stores (env : Env) (st st' : SpdxBuild)
    (occ : Occurrence) (seen : List Occurrence) (sub : PkgSubject) (ns : PkgNamespace)
    (version : PkgVersion) (name : PkgName)
    (h : getSpdxPredicate.occurrence env st occ = .ok st') (hm : MarksFrom st seen)
    (hsub : env.parsePkgSubject occ.Subject = .ok sub)
    (hns : namespace0 sub.Namespaces = .ok ns) (hfiles : ns.Namespace = "files")
    (hv : version0 sub.Namespaces = .ok version) (hn : name0 sub.Namespaces = .ok name)
    (hmark : lookupKey st.fileMap
      (name.Name ++ ":" ++ filenameQualifier "" version.Qualifiers) ≠ some none) :
    ∃ f ∈ st'.files,
      ({ Algorithm := occ.Artifact.Algorithm, Value := occ.Artifact.Digest } : Checksum) ∈
        f.Checksums := by
  obtain ⟨_, hptr⟩ := hm
  obtain ⟨sub', ns', version', hsub', hns', hv', hcase⟩ :=
    getSpdxPredicate.spdx_occurrence_ok env st st' occ h
  rw [hsub] at hsub'
  injection hsub' with hsub'
  subst hsub'
  rw [hns] at hns'
  injection hns' with hns'
  subst hns'
  rw [hv] at hv'
  injection hv' with hv'
  subst hv'
  rcases hcase with ⟨_, name', hn', hfile⟩ | ⟨hnf, _⟩
  · rw [hn] at hn'
    injection hn' with hn'
    subst hn'
    rcases hfile with ⟨hl, _⟩ | ⟨i, hl, rfl⟩ | ⟨_, rfl⟩
    · exact absurd hl hmark
    · obtain ⟨a, _, hg⟩ := modifyAt_mem_of_lt (fun file : SpdxFile => { file with
          Checksums := file.Checksums ++
            [{ Algorithm := occ.Artifact.Algorithm, Value := occ.Artifact.Digest }] })
          st.files i (hptr _ i hl)
      exact ⟨_, hg, by simp⟩
    · exact ⟨_, List.mem_append_right _ (List.mem_singleton_self _), by simp⟩
  · exact absurd hfiles hnf

theorem getSpdxPredicate.spdx_occurrence_skips (env : Env) (st : SpdxBuild)
    (occ : Occurrence) (sub : PkgSubject) (ns : PkgNamespace)
    (version : PkgVersion) (name : PkgName)
    (hsub : env.parsePkgSubject occ.Subject = .ok sub)
    (hns : namespace0 sub.Namespaces = .ok ns) (hfiles : ns.Namespace = "files")
    (hv : version0 sub.Namespaces = .ok version) (hn : name0 sub.Namespaces = .ok name)
    (hmark : lookupKey st.fileMap
      (name.Name ++ ":" ++ filenameQualifier "" version.Qualifiers) = some none) :
    getSpdxPredicate.occurrence env st occ = .ok st := by
  unfold getSpdxPredicate.occurrence
  simp only [bind, Except.bind, hsub, liftErr, hns, hfiles, hv, hn, if_true, hmark]
  rfl

theorem getSpdxPredicate.reached_eq (env : Env) (sbom : HasSBOM) (subject : PkgSubject)
    (pre : List Occurrence) (st1 sa : SpdxBuild)
    (h1 : forRange (getSpdxPredicate.software env subject) sbom.IncludedSoftware
      { packages := [], packageMap := [], files := [], fileMap := [],
        relationships := [] } = .ok st1)
    (ha : forRange (getSpdxPredicate.occurrence env) pre st1 = .ok sa) :
    getSpdxPredicate.reached env sbom subject pre = .ok sa := by
  unfold getSpdxPredicate.reached
  simp only [bind, Except.bind, h1, ha]

/-- C19 (amended): when `getSpdxPredicate` succeeds, take an occurrence edge
of its list whose subject is in the `"files"` namespace, and the key of the
edge in `fileMap` (name, `":"`, filename qualifier or nothing).  If `fileMap`
does not hold the `nil` marker under this key when the loop reaches the edge,
the checksum of the edge is in the checksum list of some emitted file entry.
If it does, the edge is skipped, the document being the one that is built
from the list without this edge, and the key is the text `algorithm:digest`
of an occurrence edge before it in the list. -/
theorem file_checksum_kept_unless_marked (env : Env) (sbom : HasSBOM)
    (subject : PkgSubject) (doc : SpdxDocument) (pre post : List Occurrence)
    (occ : Occurrence) (sub : PkgSubject) (ns : PkgNamespace) (version : PkgVersion)
    (name : PkgName)
    (hdoc : getSpdxPredicate env sbom subject = .ok doc)
    (hsplit : sbom.IncludedOccurrences = pre ++ occ :: post)
    (hsub : env.parsePkgSubject occ.Subject = .ok sub)
    (hns : namespace0 sub.Namespaces = .ok ns) (hfiles : ns.Namespace = "files")
    (hv : version0 sub.Namespaces = .ok version) (hn : name0 sub.Namespaces = .ok name) :
    (getSpdxPredicate.marked env sbom subject pre
          (name.Name ++ ":" ++ filenameQualifier "" version.Qualifiers) = false →
        ∃ f ∈ doc.Files,
          ({ Algorithm := occ.Artifact.Algorithm, Value := occ.Artifact.Digest } : Checksum) ∈
            f.Checksums) ∧
      (getSpdxPredicate.marked env sbom subject pre
          (name.Name ++ ":" ++ filenameQualifier "" version.Qualifiers) = true →
        getSpdxPredicate env { sbom with IncludedOccurrences := pre ++ post } subject =
            .ok doc ∧
          ∃ e ∈ pre, name.Name ++ ":" ++ filenameQualifier "" version.Qualifiers =
            e.Artifact.Algorithm ++ ":" ++ e.Artifact.Digest) := by
  obtain ⟨docName, st, hname, hb, hdoceq⟩ := getSpdxPredicate_ok env sbom subject doc hdoc
  obtain ⟨st1, st2, h1, h2, h3⟩ := getSpdxPredicate.spdx_build_ok env sbom subject st hb
  have i1 : st1.files = [] ∧ st1.fileMap = [] := by
    refine forRange_invariant (fun s : SpdxBuild => s.files = [] ∧ s.fileMap = [])
      _ _ ?_ _ _ ⟨rfl, rfl⟩ h1
    intro s x s' _ hs hb
    rcases getSpdxPredicate.spdx_software_ok env subject s s' x hb with rfl |
      ⟨sub, version, subjectVersion, name, legal, metadata, _, _, _, _, _, _, _, _, rfl⟩
    · exact hs
    · exact hs
  have hm1 : MarksFrom st1 [] := by
    constructor
    · intro k hk; simp [i1.2, lookupKey] at hk
    · intro k f hk; simp [i1.2, lookupKey] at hk
  rw [hsplit] at h2
  obtain ⟨sa, sb, ha, hstep, hpost⟩ := forRange_split _ pre occ post st1 st2 h2
  have hma := getSpdxPredicate.spdx_occurrences_marks env pre st1 sa [] ha hm1
  simp only [List.nil_append] at hma
  have hreach := getSpdxPredicate.reached_eq env sbom subject pre st1 sa h1 ha
  constructor
  · intro hmark
    have hmark' : lookupKey sa.fileMap
        (name.Name ++ ":" ++ filenameQualifier "" version.Qualifiers) ≠ some none := by
      simpa [getSpdxPredicate.marked, hreach] using hmark
    have hstored := getSpdxPredicate.spdx_occurrence_stores env sa sb occ pre sub ns version
      name hstep hma hsub hns hfiles hv hn hmark'
    have hkept2 : ∃ f ∈ st2.files,
        ({ Algorithm := occ.Artifact.Algorithm, Value := occ.Artifact.Digest } : Checksum) ∈
          f.Checksums := by
      refine forRange_invariant (fun s : SpdxBuild => ∃ f ∈ s.files,
        ({ Algorithm := occ.Artifact.Algorithm, Value := occ.Artifact.Digest } : Checksum) ∈
          f.Checksums) _ _ ?_ _ _ hstored hpost
      intro s x s' _ hs hb
      exact getSpdxPredicate.spdx_occurrence_keeps env s s' x _ hb hs
    have i3 : st.files = st2.files := by
      refine forRange_invariant (fun s : SpdxBuild => s.files = st2.files) _ _ ?_ _ _ rfl h3
      intro s x s' _ hs hb
      obtain ⟨sv, pv, _, _, hcase⟩ := getSpdxPredicate.spdx_dependency_ok subject s s' x hb
      rcases hcase with ⟨_, rfl⟩ | ⟨_, dv, _, rfl⟩
      · exact hs
      · exact hs
    rw [hdoceq]
    simp only [i3]
    exact hkept2
  · intro hmark
    have hmark' : lookupKey sa.fileMap
        (name.Name ++ ":" ++ filenameQualifier "" version.Qualifiers) = some none := by
      simpa [getSpdxPredicate.marked, hreach] using hmark
    refine ⟨?_, hma.1 _ hmark'⟩
    have hskip := getSpdxPredicate.spdx_occurrence_skips env sa occ sub ns version name
      hsub hns hfiles hv hn hmark'
    rw [hskip] at hstep
    injection hstep with hstep
    subst hstep
    have h2' : forRange (getSpdxPredicate.occurrence env) (pre ++ post) st1 = .ok st2 := by
      rw [forRange_append _ pre post st1 sa ha]
      exact hpost
    have hb' : getSpdxPredicate.build env
        { sbom with IncludedOccurrences := pre ++ post } subject = .ok st := by
      unfold getSpdxPredicate.build
      simp only [bind, Except.bind, h1, h2']
      exact h3
    unfold getSpdxPredicate at hdoc ⊢
    simp only [bind, Except.bind, hname, hb, hb'] at hdoc ⊢
    exact hdoc

/-- C19 (amended), at the second of the two occurrences of the files `f`
(filename `x`, checksum `sha1:aa`) and `sha1` (filename `aa`, checksum
`md5:cc`): the key `"sha1:aa"` of the second is the text `algorithm:digest` of
the first, but the first was not merged and left no marker, and `md5:cc` is
in the entry of the second. -/
theorem file_checksum_kept_unless_marked_witness :
    ∃ doc,
      getSpdxPredicate plainEnv
        (sbomOfP "https://example.com/sbom" []
          [{ Subject := namedFileNode "f" "F" "x",
             Artifact := { Id := "A1", Algorithm := "sha1", Digest := "aa" } },
           { Subject := namedFileNode "sha1" "G" "aa",
             Artifact := { Id := "A2", Algorithm := "md5", Digest := "cc" } }] [])
        subjectP = .ok doc ∧
      doc.Files =
        [{ FileSPDXIdentifier := "F", FileName := "x",
           Checksums := [{ Algorithm := "sha1", Value := "aa" }] },
         { FileSPDXIdentifier := "G", FileName := "aa",
           Checksums := [{ Algorithm := "md5", Value := "cc" }] }] ∧
      getSpdxPredicate.marked plainEnv
        (sbomOfP "https://example.com/sbom" []
          [{ Subject := namedFileNode "f" "F" "x",
             Artifact := { Id := "A1", Algorithm := "sha1", Digest := "aa" } },
           { Subject := namedFileNode "sha1" "G" "aa",
             Artifact := { Id := "A2", Algorithm := "md5", Digest := "cc" } }] [])
        subjectP
        [{ Subject := namedFileNode "f" "F" "x",
           Artifact := { Id := "A1", Algorithm := "sha1", Digest := "aa" } }]
        "sha1:aa" = false ∧
      ∃ f ∈ doc.Files, ({ Algorithm := "md5", Value := "cc" } : Checksum) ∈ f.Checksums :=
  ⟨_, rfl, rfl, rfl,
    (file_checksum_kept_unless_marked plainEnv
      (sbomOfP "https://example.com/sbom" []
        [{ Subject := namedFileNode "f" "F" "x",
           Artifact := { Id := "A1", Algorithm := "sha1", Digest := "aa" } },
         { Subject := namedFileNode "sha1" "G" "aa",
           Artifact := { Id := "A2", Algorithm := "md5", Digest := "cc" } }] [])
      subjectP _
      [{ Subject := namedFileNode "f" "F" "x",
         Artifact := { Id := "A1", Algorithm := "sha1", Digest := "aa" } }] []
      { Subject := namedFileNode "sha1" "G" "aa",
        Artifact := { Id := "A2", Algorithm := "md5", Digest := "cc" } }
      { Typename := some "Package", Id := "",
        Namespaces := pkgChain "files" "sha1" "G" "" "pkg:guac/files/sha1"
          [{ Key := "filename", Value := "aa" }],
        Algorithm := "", Digest := "" }
      { Namespace := "files",
        Names := [{ Name := "sha1",
                    Versions := [{ Id := "G", Version := "", Purl := "pkg:guac/files/sha1",
                                   Qualifiers := [{ Key := "filename", Value := "aa" }] }] }] }
      { Id := "G", Version := "", Purl := "pkg:guac/files/sha1",
        Qualifiers := [{ Key := "filename", Value := "aa" }] }
      { Name := "sha1",
        Versions := [{ Id := "G", Version := "", Purl := "pkg:guac/files/sha1",
                       Qualifiers := [{ Key := "filename", Value := "aa" }] }] }
      rfl rfl rfl rfl rfl rfl rfl).1 rfl⟩

end Parsers
